import Mathlib

/-!
# Gmail ingestion-and-classification pipeline

A shallow embedding of `src/app/api/gmail/process-labels/route.js`.

* JavaScript strings that the code inspects (bodies, snippets, model replies,
  header values) are sequences of UTF-16 code units (`JsString`).
* Identifiers, label names and error messages, which the code only compares and
  concatenates, are Lean strings.
* Every external collaborator (account store, mailbox provider, text
  generation service, record store) is an oracle of the environment `Env`,
  indexed by the number of external calls issued so far; the calls themselves
  are appended to a trace carried by the `World`.
-/

namespace Amurex

/-! ## JavaScript strings -/

/-- A JavaScript string: its UTF-16 code units. -/
abbrev JsString := List Nat

/-- UTF-16 encoding of one Unicode scalar value. -/
def utf16Units (cp : Nat) : List Nat :=
  if cp < 65536 then [cp]
  else [55296 + (cp - 65536) / 1024, 56320 + (cp - 65536) % 1024]

/-- The JavaScript string denoted by a literal. -/
def utf16 (s : String) : JsString :=
  s.toList.flatMap (fun c => utf16Units c.toNat)

/-- The regular-expression class `\s`, which is also the set removed by
`String.prototype.trim`: WhiteSpace and LineTerminator code units. -/
def isWhiteSpace (u : Nat) : Bool :=
  u = 9 || u = 10 || u = 11 || u = 12 || u = 13 || u = 32 || u = 160 ||
  u = 5760 || (8192 ≤ u && u ≤ 8202) || u = 8232 || u = 8233 || u = 8239 ||
  u = 8287 || u = 12288 || u = 65279

/-- The regular-expression class `\d` (no unicode flag): `0` to `9`. -/
def isDigit (u : Nat) : Bool := 48 ≤ u && u ≤ 57

/-- Removal of trailing white space. -/
def trimEnd (s : JsString) : JsString :=
  (s.reverse.dropWhile isWhiteSpace).reverse

/-- The method `String.prototype.trim`. -/
def trim (s : JsString) : JsString :=
  trimEnd (s.dropWhile isWhiteSpace)

/-- The truthiness of a JavaScript string. -/
def truthy (s : JsString) : Bool := !s.isEmpty

/-- The test `msg.includes(pat)` on error messages. -/
def includes (msg pat : String) : Bool :=
  msg.toList.tails.any (fun t => pat.toList.isPrefixOf t)

/-! ## Errors -/

/-- A value thrown by (or returned as `error` from) an external client: the
fields the handlers look at, `status`, `response.status` and `message`. -/
structure JsError where
  status : Option Nat := none
  responseStatus : Option Nat := none
  message : Option String := none
deriving DecidableEq, Repr

/-- The test `e.status === code || (e.response && e.response.status === code)`. -/
def JsError.hasStatus (e : JsError) (code : Nat) : Bool :=
  e.status == some code || e.responseStatus == some code

/-- The expression `error.message || fallback`. -/
def JsError.messageOr (e : JsError) (fallback : String) : String :=
  match e.message with
  | some m => if m = "" then fallback else m
  | none => fallback

/-! ## Label catalog -/

/-- A background/text color pair. -/
structure LabelColor where
  backgroundColor : String
  textColor : String
deriving DecidableEq, Repr

/-- The catalog `GMAIL_COLORS`, in the order of its keys. -/
def GMAIL_COLORS : List (String × LabelColor) :=
  [ ("to respond", ⟨"#fb4c2f", "#ffffff"⟩),
    ("FYI", ⟨"#16a766", "#ffffff"⟩),
    ("comment", ⟨"#ffad47", "#ffffff"⟩),
    ("notification", ⟨"#42d692", "#ffffff"⟩),
    ("meeting update", ⟨"#8e63ce", "#ffffff"⟩),
    ("awaiting reply", ⟨"#ffad47", "#ffffff"⟩),
    ("actioned", ⟨"#4986e7", "#ffffff"⟩),
    ("promotions", ⟨"#2da2bb", "#ffffff"⟩),
    ("none", ⟨"#999999", "#ffffff"⟩) ]

/-- The nine category names, in catalog order. -/
def categoryNames : List String := GMAIL_COLORS.map Prod.fst

/-! ## Category classifier (`categorizeWithAI`) -/

/-- The request sent to the text-generation service. -/
structure ChatRequest where
  model : String
  system : String
  user : JsString
  max_tokens : Nat
  temperature : Rat
deriving DecidableEq

/-- One `message` of a completion. -/
structure ChatMessage where
  content : Option JsString
deriving DecidableEq, Repr

/-- One entry of `choices`. -/
structure ChatChoice where
  message : Option ChatMessage
deriving DecidableEq, Repr

/-- The resolved value of `groq.chat.completions.create`. -/
structure ChatCompletion where
  choices : Option (List ChatChoice)
deriving DecidableEq, Repr

/-- The system prompt of the classifier. -/
def systemPrompt : String :=
  "You are an email classifier. Classify the email into one of these categories:\n1 = to respond\n2 = FYI\n3 = comment\n4 = notification\n5 = meeting update\n6 = awaiting reply\n7 = actioned\n8 = promotions\n9 = none\n\nRespond ONLY with the number (1-9). Use category 9 (none) if the email doesn't fit into any of the other categories. Do not include any other text, just the single digit number."

/-- The request built by `categorizeWithAI`. -/
def chatRequest (fromEmail subject body : JsString) : ChatRequest :=
  { model := "llama-3.3-70b-versatile"
    system := systemPrompt
    user := utf16 "Email from: " ++ fromEmail ++ utf16 "\nSubject: " ++ subject ++
      utf16 "\n\nBody: " ++ body
    max_tokens := 20
    temperature := 3 / 10 }

/-- The expression `response.choices[0].message.content`; `none` stands for the
`TypeError` raised when a link of the chain is missing (or for a missing
content, on which `.trim()` raises). -/
def replyContent (response : ChatCompletion) : Option JsString :=
  match response.choices with
  | some (choice :: _) =>
    match choice.message with
    | some m => m.content
    | none => none
  | _ => none

/-- The object `categoryMap`. -/
def categoryMap : Nat → Option String
  | 1 => some "to respond"
  | 2 => some "FYI"
  | 3 => some "comment"
  | 4 => some "notification"
  | 5 => some "meeting update"
  | 6 => some "awaiting reply"
  | 7 => some "actioned"
  | 8 => some "promotions"
  | 9 => some "none"
  | _ => none

/-- The match `rawResponse.match(/\d/)` followed by `parseInt`: the value of the
first digit character, `none` for JavaScript `null`. -/
def extractCategoryNumber (rawResponse : JsString) : Option Nat :=
  (rawResponse.find? isDigit).map (fun u => u - 48)

/-- The function `categorizeWithAI`; `groq` is the completion call, whose
rejection (`Except.error`) is caught by the function's `try`/`catch`. -/
def categorizeWithAI (groq : ChatRequest → Except JsError ChatCompletion)
    (fromEmail subject body : JsString) : String :=
  match groq (chatRequest fromEmail subject body) with
  | .error _ => "none"
  | .ok response =>
    match replyContent response with
    | none => "none"
    | some content =>
      let rawResponse := trim content
      match extractCategoryNumber rawResponse with
      | none => "none"
      | some categoryNumber =>
        if categoryNumber ≠ 0 then
          match categoryMap categoryNumber with
          | some category => category
          | none => "none"
        else "none"

/-! ## Mime text extractor -/

/-- The `body` object of a message part; `data` is base64 text. -/
structure PartBody where
  data : Option String
deriving DecidableEq, Repr

/-- A node of a message's body-part tree: `mimeType`, `body` and `parts`, each
possibly absent; an entry of `parts` may itself be missing (`null`). -/
inductive MimePart where
  | mk (mimeType : Option String) (body : Option PartBody)
      (parts : Option (List (Option MimePart)))

/-- The field `mimeType` of a part. -/
def MimePart.mimeType : MimePart → Option String
  | .mk m _ _ => m

/-- The field `body` of a part. -/
def MimePart.body : MimePart → Option PartBody
  | .mk _ b _ => b

/-- The field `parts` of a part. -/
def MimePart.parts : MimePart → Option (List (Option MimePart))
  | .mk _ _ p => p

/-- The library call `Buffer.from(data, 'base64').toString('utf-8')`, which the
extractor takes from the runtime; `Except.error` is a raised exception. -/
abbrev Decoder := String → Except JsError JsString

/-- The test `part.body && part.body.data`: the inline data when it is present
and not the empty string. -/
def inlineData : Option PartBody → Option String
  | some ⟨some d⟩ => if d = "" then none else some d
  | _ => none

/-- The replacement `.replace(/<[^>]*>/g, ' ')`. A match starts at a `<` that
has a `>` somewhere after it and runs to the first such `>`; the flag tells
whether the scan is inside a match. -/
def replaceTagsAux : Bool → JsString → JsString
  | _, [] => []
  | true, u :: rest =>
    if u = 62 then 32 :: replaceTagsAux false rest else replaceTagsAux true rest
  | false, u :: rest =>
    if u = 60 && rest.contains 62 then replaceTagsAux true rest
    else u :: replaceTagsAux false rest

/-- The replacement `.replace(/<[^>]*>/g, ' ')` from the start of a string. -/
def replaceTags (s : JsString) : JsString := replaceTagsAux false s

/-- The replacement `.replace(/\s+/g, ' ')`; the flag tells whether the
previous code unit was white space. -/
def collapseWhiteSpaceAux : Bool → JsString → JsString
  | _, [] => []
  | inRun, u :: rest =>
    if isWhiteSpace u then
      if inRun then collapseWhiteSpaceAux true rest
      else 32 :: collapseWhiteSpaceAux true rest
    else u :: collapseWhiteSpaceAux false rest

/-- The replacement `.replace(/\s+/g, ' ')` from the start of a string. -/
def collapseWhiteSpace (s : JsString) : JsString := collapseWhiteSpaceAux false s

/-- The conversion of HTML to text in `extractTextFromParts`:
`html.replace(/<[^>]*>/g, ' ').replace(/\s+/g, ' ').trim()`. -/
def stripHtml (htmlContent : JsString) : JsString :=
  trim (collapseWhiteSpace (replaceTags htmlContent))

mutual
/-- The recursive function `extractTextFromParts`; `body` is the variable of
the enclosing scope that its second test reads. A decoding exception is caught
by the function's own `try`/`catch` and yields the empty string. -/
def extractTextFromParts (decode : Decoder) (body : JsString) : MimePart → JsString
  | .mk mimeType partBody parts =>
    match (if mimeType = some "text/plain" then inlineData partBody else none) with
    | some data =>
      match decode data with
      | .ok text => text
      | .error _ => []
    | none =>
      match (if mimeType = some "text/html" ∧ body = []
             then inlineData partBody else none) with
      | some data =>
        match decode data with
        | .ok htmlContent => stripHtml htmlContent
        | .error _ => []
      | none =>
        match parts with
        | some subParts => extractFromSubParts decode body subParts
        | none => []
/-- The guard `if (!part) return ""` of `extractTextFromParts`. -/
def extractFromOptionalPart (decode : Decoder) (body : JsString) :
    Option MimePart → JsString
  | none => []
  | some part => extractTextFromParts decode body part
/-- The loop over `part.parts` in `extractTextFromParts`: the first truthy
result is returned. -/
def extractFromSubParts (decode : Decoder) (body : JsString) :
    List (Option MimePart) → JsString
  | [] => []
  | subPart :: rest =>
    let textContent := extractFromOptionalPart decode body subPart
    if truthy textContent then textContent
    else extractFromSubParts decode body rest
end

/-- The loop over `payload.parts` in the request handler: `body` is assigned the
first truthy result and the loop is left. -/
def payloadPartsLoop (decode : Decoder) : JsString → List (Option MimePart) → JsString
  | body, [] => body
  | body, part :: rest =>
    let textContent := extractFromOptionalPart decode body part
    if truthy textContent then textContent
    else payloadPartsLoop decode body rest

/-- The Number value of a decimal digit string with value `n`, rounded to the
nearest double (ties to even); `none` is `Infinity`. -/
def toNumber (n : Nat) : Option Nat :=
  if n < 2 ^ 53 then some n
  else
    let e := Nat.log2 n - 52
    let q := n / 2 ^ e
    let r := n % 2 ^ e
    let half := 2 ^ (e - 1)
    let q' := if half < r ∨ (r = half ∧ q % 2 = 1) then q + 1 else q
    if 2 ^ 1024 ≤ q' * 2 ^ e then none else some (q' * 2 ^ e)

/-- The call `String.fromCharCode(dec)` on a matched digit string: the code
unit `ToUint16(ToNumber(dec))`. -/
def fromCharCode (digits : List Nat) : Nat :=
  match toNumber (digits.foldl (fun acc u => 10 * acc + (u - 48)) 0) with
  | some v => v % 65536
  | none => 0

/-- The scanner state of the snippet replacement: nothing pending, a pending
`&`, or a pending `&#` followed by the digits read so far. -/
inductive RefState where
  | idle
  | amp
  | digits (ds : List Nat)

/-- The text a pending, unfinished reference stands for. -/
def RefState.pending : RefState → JsString
  | .idle => []
  | .amp => [38]
  | .digits ds => 38 :: 35 :: ds

/-- The replacement `snippet.replace(/&#(\d+);/g, (m, dec) => String.fromCharCode(dec))`. -/
def decodeNumericRefsAux : RefState → JsString → JsString
  | st, [] => st.pending
  | .idle, u :: rest =>
    if u = 38 then decodeNumericRefsAux .amp rest
    else u :: decodeNumericRefsAux .idle rest
  | .amp, u :: rest =>
    if u = 35 then decodeNumericRefsAux (.digits []) rest
    else if u = 38 then 38 :: decodeNumericRefsAux .amp rest
    else 38 :: u :: decodeNumericRefsAux .idle rest
  | .digits ds, u :: rest =>
    if isDigit u then decodeNumericRefsAux (.digits (ds ++ [u])) rest
    else if u = 59 ∧ ds ≠ [] then fromCharCode ds :: decodeNumericRefsAux .idle rest
    else if u = 38 then (38 :: 35 :: ds) ++ decodeNumericRefsAux .amp rest
    else (38 :: 35 :: ds) ++ u :: decodeNumericRefsAux .idle rest

/-- The snippet replacement from the start of a string. -/
def decodeNumericRefs (snippet : JsString) : JsString :=
  decodeNumericRefsAux .idle snippet

/-- The test `mimeType.startsWith('multipart/')` on a present, non-empty type. -/
def isMultipart : Option String → Bool
  | some m => "multipart/".toList.isPrefixOf m.toList
  | none => false

/-- The statements of the handler's `try` block that assign `body` from the
payload; `Except.error` is an exception leaving the block. -/
def bodyFromPayload (decode : Decoder) (payload : MimePart) : Except JsError JsString :=
  match payload.parts with
  | some parts => .ok (payloadPartsLoop decode [] parts)
  | none =>
    match inlineData payload.body with
    | some data => decode data
    | none =>
      if isMultipart payload.mimeType then .ok (extractTextFromParts decode [] payload)
      else .ok []

/-- The snippet fallback and the placeholder that follow in the same block. -/
def withFallbacks (body snippet : JsString) : JsString :=
  let body :=
    if !truthy body && truthy snippet then
      decodeNumericRefs snippet ++ utf16 " [Extracted from snippet]"
    else body
  if !truthy body then utf16 "[No content could be extracted]" else body

/-- The body extraction of the request handler (the `try`/`catch` around the
payload walk); `snippet` is `fullMessage.data.snippet`, empty when absent. -/
def extractBody (decode : Decoder) (payload : MimePart) (snippet : JsString) : JsString :=
  match bodyFromPayload decode payload with
  | .ok body => withFallbacks body snippet
  | .error bodyExtractionError =>
    utf16 ("[Error extracting content: " ++ bodyExtractionError.messageOr "Unknown error" ++ "]")

/-! ### The runtime decoder, for concrete runs -/

/-- The value of a character of the base64 or base64url alphabet. -/
def base64Value (c : Nat) : Option Nat :=
  if 65 ≤ c ∧ c ≤ 90 then some (c - 65)
  else if 97 ≤ c ∧ c ≤ 122 then some (c - 71)
  else if 48 ≤ c ∧ c ≤ 57 then some (c + 4)
  else if c = 43 ∨ c = 45 then some 62
  else if c = 47 ∨ c = 95 then some 63
  else none

/-- The bytes denoted by a sequence of 6-bit values; `acc` holds the `nbits`
bits not yet emitted. -/
def sextetsToBytes : Nat → Nat → List Nat → List Nat
  | _, _, [] => []
  | acc, nbits, v :: rest =>
    let acc := acc * 64 + v
    let nbits := nbits + 6
    if 8 ≤ nbits then
      (acc / 2 ^ (nbits - 8)) % 256 :: sextetsToBytes (acc % 2 ^ (nbits - 8)) (nbits - 8) rest
    else sextetsToBytes acc nbits rest

/-- The call `Buffer.from(data, 'base64')`: every code unit of the string is
taken by its low byte, decoding stops at the first `=`, bytes outside the
alphabet are skipped. -/
def base64Bytes (data : String) : List Nat :=
  sextetsToBytes 0 0
    ((((utf16 data).map (fun u => u % 256)).takeWhile (fun c => c ≠ 61)).filterMap
      base64Value)

/-- The state of the UTF-8 decoder. -/
structure Utf8State where
  codePoint : Nat := 0
  bytesSeen : Nat := 0
  bytesNeeded : Nat := 0
  lower : Nat := 128
  upper : Nat := 191

/-- The decoder's step on a byte read while no sequence is open: the code
units emitted and the next state. -/
def utf8Lead (b : Nat) : List Nat × Utf8State :=
  if b ≤ 127 then ([b], {})
  else if 194 ≤ b ∧ b ≤ 223 then ([], { bytesNeeded := 1, codePoint := b % 32 })
  else if 224 ≤ b ∧ b ≤ 239 then
    ([], { bytesNeeded := 2, codePoint := b % 16,
           lower := if b = 224 then 160 else 128, upper := if b = 237 then 159 else 191 })
  else if 240 ≤ b ∧ b ≤ 244 then
    ([], { bytesNeeded := 3, codePoint := b % 8,
           lower := if b = 240 then 144 else 128, upper := if b = 244 then 143 else 191 })
  else ([65533], {})

/-- The method `buffer.toString('utf-8')`: ill-formed input yields U+FFFD, code
points above the basic plane yield a surrogate pair. -/
def utf8Decode : Utf8State → List Nat → JsString
  | st, [] => if st.bytesNeeded ≠ 0 then [65533] else []
  | st, b :: rest =>
    if st.bytesNeeded = 0 then (utf8Lead b).1 ++ utf8Decode (utf8Lead b).2 rest
    else if b < st.lower ∨ st.upper < b then
      65533 :: (utf8Lead b).1 ++ utf8Decode (utf8Lead b).2 rest
    else if st.bytesSeen + 1 = st.bytesNeeded then
      utf16Units (st.codePoint * 64 + b % 64) ++ utf8Decode {} rest
    else
      utf8Decode { codePoint := st.codePoint * 64 + b % 64, bytesSeen := st.bytesSeen + 1,
                   bytesNeeded := st.bytesNeeded } rest

/-- The runtime's `Buffer.from(data, 'base64').toString('utf-8')` on a string
argument, which raises no exception. -/
def bufferDecode : Decoder := fun data => .ok (utf8Decode {} (base64Bytes data))

/-! ## External collaborators -/

/-- The two OAuth client configurations: the `_OLD` and the `_NEW` variables of
the process environment. -/
inductive OAuthConfig where
  | old
  | new
deriving DecidableEq, Repr

/-- The mailbox client `google.gmail(...)`: the configuration it was built from
and the refresh credential set on it. -/
structure GmailClient where
  config : OAuthConfig
  refresh_token : String
deriving DecidableEq, Repr

/-- A mailbox label as listed by the provider. -/
structure GmailLabel where
  id : String
  name : String
deriving DecidableEq, Repr

/-- The `requestBody` of a label creation. -/
structure CreateLabelRequest where
  name : String
  labelListVisibility : String
  messageListVisibility : String
  color : Option LabelColor
deriving DecidableEq, Repr

/-- A header of a message payload. -/
structure Header where
  name : String
  value : JsString
deriving DecidableEq, Repr

/-- The `data` of a fetched message. `internalDate` is the value of
`parseInt(internalDate)` (`none` for `NaN`); `snippet` is empty when absent;
`headers` are `payload.headers`. -/
structure FullMessage where
  threadId : Option String
  internalDate : Option Int
  labelIds : Option (List String)
  snippet : JsString
  headers : List Header
  payload : MimePart

/-- An entry of a message listing. -/
structure MessageStub where
  id : String
deriving DecidableEq, Repr

/-- The columns of `users` read by the handler; a `null` flag is `false`. -/
structure UserRow where
  google_refresh_token : Option String
  email_tagging_enabled : Bool
deriving DecidableEq, Repr

/-- A row of the table `emails` as written by `storeEmailInDatabase`; the two
dates are epoch milliseconds. -/
structure EmailRow where
  user_id : String
  message_id : String
  thread_id : String
  sender : JsString
  subject : JsString
  content : JsString
  received_at : Int
  created_at : Int
  is_read : Bool
  snippet : JsString
deriving DecidableEq, Repr

/-- The result object of a database query. -/
structure DbResult (α : Type) where
  data : Option α
  error : Option JsError

/-- An external call issued by the handler. -/
inductive Call where
  | usersSelect (userId : String) (accessToken : Option String)
  | usersCreatedAt (userId : String)
  | labelsList (client : GmailClient)
  | labelsCreate (client : GmailClient) (requestBody : CreateLabelRequest)
  | messagesList (client : GmailClient) (q : String) (maxResults : Nat)
  | messagesGet (client : GmailClient) (id : String)
  | messagesModify (client : GmailClient) (id : String) (addLabelIds : List String)
  | chatCompletion (request : ChatRequest)
  | emailsSelectIds (userId : String)
  | emailsSelectOne (userId messageId : String)
  | emailsInsert (row : EmailRow)
deriving DecidableEq

/-- The behaviour of the collaborators. The first argument of every oracle is
the number of external calls issued before the one it answers. An oracle named
`...Error` answers `none` when the call succeeds. -/
structure Env where
  usersSelect : Nat → String → Option String → DbResult UserRow
  usersCreatedAt : Nat → String → DbResult (Option Int)
  labelsListError : Nat → GmailClient → Option JsError
  labelsCreateError : Nat → GmailClient → CreateLabelRequest → Option JsError
  messagesList : Nat → GmailClient → Except JsError (Option (List MessageStub))
  messagesGet : Nat → GmailClient → String → Except JsError FullMessage
  messagesModifyError : Nat → GmailClient → String → List String → Option JsError
  groq : Nat → ChatRequest → Except JsError ChatCompletion
  emailsSelectIdsError : Nat → String → Option JsError
  emailsSelectOneFails : Nat → String → String → Bool
  emailsInsertError : Nat → EmailRow → Option JsError
  now : Nat → Int
  decode : Decoder

/-- The state outside the handler: the labels of the mailbox, the counter from
which the provider names new labels, the table `emails`, and the trace of
external calls. -/
structure World where
  labels : List GmailLabel
  nextLabelId : Nat
  emails : List EmailRow
  trace : List Call

/-- Recording of a call in the trace. -/
def World.log (w : World) (c : Call) : World :=
  { w with trace := w.trace ++ [c] }

/-- The index of the next external call. -/
def World.time (w : World) : Nat := w.trace.length

/-! ## JavaScript objects with string keys and string values -/

/-- An object used as a map, its keys in insertion order. -/
abbrev Obj := List (String × String)

/-- The read `o[k]`. -/
def Obj.get (o : Obj) (k : String) : Option String :=
  (o.find? (fun p => p.1 = k)).map Prod.snd

/-- The assignment `o[k] = v`. -/
def Obj.set (o : Obj) (k v : String) : Obj :=
  if o.any (fun p => p.1 = k) then o.map (fun p => if p.1 = k then (k, v) else p)
  else o ++ [(k, v)]

/-- The truthy value of `o[k]`, if there is one, for an own property. The
handler reads `existingLabels` at names that start with `Amurex/` and
`amurexLabels` at category names, none of which names a member of
`Object.prototype`. -/
def Obj.getTruthy (o : Obj) (k : String) : Option String :=
  (o.get k).filter (fun v => v ≠ "")

/-- The names of the members that a plain object inherits from
`Object.prototype`. -/
def objectPrototypeKeys : List String :=
  ["constructor", "__defineGetter__", "__defineSetter__", "hasOwnProperty",
   "__lookupGetter__", "__lookupSetter__", "isPrototypeOf", "propertyIsEnumerable",
   "toString", "valueOf", "__proto__", "toLocaleString"]

/-- A truthy value read from a plain object whose own values are strings: an
own non-empty string, or a member inherited from `Object.prototype` (a
function, or the prototype object for the key `__proto__`). -/
inductive ObjectRead where
  | own (value : String)
  | inherited (key : String)
deriving DecidableEq, Repr

/-- The truthy value of the read `o[k]` on an object created by `{}`, for an
arbitrary key, if there is one. An own property hides an inherited member; an
assignment of a string to the key `__proto__` creates no own property, so
this key always reads the prototype object. -/
def Obj.readTruthy (o : Obj) (k : String) : Option ObjectRead :=
  if k = "__proto__" then some (.inherited k)
  else
    match o.get k with
    | some v => if v = "" then none else some (.own v)
    | none => if k ∈ objectPrototypeKeys then some (.inherited k) else none

/-! ## Responses -/

/-- An entry of `results`. -/
structure ResultEntry where
  messageId : String
  subject : JsString
  category : String
  success : Bool
deriving DecidableEq, Repr

/-- The response of the handler: the HTTP status and the fields of the JSON
body, `none` for a field that is not in the body. -/
structure Response where
  status : Nat
  success : Bool
  error : Option String := none
  errorType : Option String := none
  message : Option String := none
  processed : Option Nat := none
  total_stored : Option Nat := none
  total_found : Option Nat := none
  results : Option (List ResultEntry) := none
deriving DecidableEq, Repr

/-- The response `{ success: false, error }` with status 400. -/
def badRequest (error : String) : Response :=
  { status := 400, success := false, error := some error }

/-- The permission response, status 403. -/
def insufficientPermissions : Response :=
  { status := 403, success := false,
    error := some "Insufficient Gmail permissions. Please disconnect and reconnect your Google account with the necessary permissions.",
    errorType := some "insufficient_permissions" }

/-- The response `No new emails to process`, status 200. -/
def nothingToProcess : Response :=
  { status := 200, success := true, message := some "No new emails to process",
    processed := some 0 }

/-- The response of the outer `catch`, status 500. -/
def internalError (error : JsError) : Response :=
  { status := 500, success := false,
    error := some ("Error processing emails: " ++ error.messageOr "Unknown error") }

/-! ## Credential selector (`getOAuth2Client`) -/

/-- The instant `new Date('2025-03-28T08:33:14.69671Z')`, in epoch
milliseconds (the fraction is cut to milliseconds). -/
def cutoffDate : Int := 1743150794696

/-- The choice made by `getOAuth2Client` from the result of the lookup. The
`data` of a row is `new Date(created_at)`, `none` for an invalid date. -/
def selectConfig (r : DbResult (Option Int)) : OAuthConfig :=
  match r.error with
  | some _ => .old
  | none =>
    match r.data with
    | none => .old
    | some none => .new
    | some (some userSignupDate) => if userSignupDate < cutoffDate then .old else .new

/-- The function `getOAuth2Client`. -/
def getOAuth2Client (env : Env) (userId : String) (w : World) : OAuthConfig × World :=
  (selectConfig (env.usersCreatedAt w.time userId), w.log (.usersCreatedAt userId))

/-! ## Label reconciler -/

/-- The call `gmail.users.labels.create`: on success the provider adds a label
with a new id to the mailbox and answers that id. -/
def labelsCreate (env : Env) (client : GmailClient) (requestBody : CreateLabelRequest)
    (w : World) : Except JsError String × World :=
  match env.labelsCreateError w.time client requestBody with
  | some e => (.error e, w.log (.labelsCreate client requestBody))
  | none =>
    let id := "Label_" ++ toString w.nextLabelId
    (.ok id, { (w.log (.labelsCreate client requestBody)) with
               labels := w.labels ++ [⟨id, requestBody.name⟩]
               nextLabelId := w.nextLabelId + 1 })

/-- The object `existingLabels` built from the listing. -/
def existingLabelsOf (labels : List GmailLabel) : Obj :=
  labels.foldl (fun o label => o.set label.name label.id) []

/-- The request body of the first creation attempt for a category. -/
def firstRequest (useStandardColors : Bool) (fullLabelName : String) (colors : LabelColor) :
    CreateLabelRequest :=
  { name := fullLabelName, labelListVisibility := "labelShow",
    messageListVisibility := "show",
    color := if useStandardColors then none else some colors }

/-- The request body of the retry, without a color. -/
def retryRequest (fullLabelName : String) : CreateLabelRequest :=
  { name := fullLabelName, labelListVisibility := "labelShow",
    messageListVisibility := "show", color := none }

/-- The body of the loop over `Object.entries(GMAIL_COLORS)` for one category.
The answer `none` is the early return of the permission response. -/
def reconcileLabel (env : Env) (client : GmailClient) (useStandardColors : Bool)
    (existingLabels : Obj) (labelName : String) (colors : LabelColor)
    (amurexLabels : Obj) (w : World) : Option Obj × World :=
  let fullLabelName := "Amurex/" ++ labelName
  match existingLabels.getTruthy fullLabelName with
  | some id => (some (amurexLabels.set labelName id), w)
  | none =>
    match labelsCreate env client (firstRequest useStandardColors fullLabelName colors) w with
    | (.ok id, w) => (some (amurexLabels.set labelName id), w)
    | (.error labelError, w) =>
      if labelError.hasStatus 403 then (none, w)
      else if labelError.hasStatus 400 then
        match labelsCreate env client (retryRequest fullLabelName) w with
        | (.ok id, w) => (some (amurexLabels.set labelName id), w)
        | (.error _, w) => (some amurexLabels, w)
      else (some amurexLabels, w)

/-- The loop over the catalog. -/
def reconcileLabels (env : Env) (client : GmailClient) (useStandardColors : Bool)
    (existingLabels : Obj) : List (String × LabelColor) → Obj → World → Option Obj × World
  | [], amurexLabels, w => (some amurexLabels, w)
  | (labelName, colors) :: rest, amurexLabels, w =>
    match reconcileLabel env client useStandardColors existingLabels labelName colors
        amurexLabels w with
    | (some amurexLabels, w) =>
      reconcileLabels env client useStandardColors existingLabels rest amurexLabels w
    | (none, w) => (none, w)

/-- Label reconciliation as the handler runs it: the listing of the mailbox
labels, then the loop over `GMAIL_COLORS`. `Except.error` is an exception of the
listing; `none` is the early return of the permission response. -/
def reconcile (env : Env) (client : GmailClient) (useStandardColors : Bool) (w : World) :
    Except JsError (Option Obj) × World :=
  match env.labelsListError w.time client with
  | some e => (.error e, w.log (.labelsList client))
  | none =>
    match reconcileLabels env client useStandardColors (existingLabelsOf w.labels)
        GMAIL_COLORS [] (w.log (.labelsList client)) with
    | (r, w) => (.ok r, w)

/-! ## Email record store (`storeEmailInDatabase`) -/

/-- The result of `.maybeSingle()`: the row when exactly one row matches. -/
def maybeSingle (rows : List EmailRow) : Option EmailRow :=
  match rows with
  | [row] => some row
  | _ => none

/-- The rows of `emails` for an (account, message) pair. -/
def rowsFor (emails : List EmailRow) (userId messageId : String) : List EmailRow :=
  emails.filter (fun r => r.user_id = userId ∧ r.message_id = messageId)

/-- The call `.insert(emailData)`: the row is appended when the insert
succeeds. -/
def emailsInsert (env : Env) (emailData : EmailRow) (w : World) : Option JsError × World :=
  match env.emailsInsertError w.time emailData with
  | some e => (some e, w.log (.emailsInsert emailData))
  | none => (none, { (w.log (.emailsInsert emailData)) with emails := w.emails ++ [emailData] })

/-- The test on `insertError.message` that leads to the second insert. -/
def mentionsOptionalColumn (insertError : JsError) : Bool :=
  match insertError.message with
  | some m => m ≠ "" && (includes m "category" || includes m "is_categorized")
  | none => false

/-- The greatest magnitude of a valid `Date`, in milliseconds. -/
def maxDate : Int := 8640000000000000

/-- The date `new Date(parseInt(internalDate))`: `none` is an invalid date. -/
def receivedDate (internalDate : Option Int) : Option Int :=
  internalDate.filter (fun t => -maxDate ≤ t ∧ t ≤ maxDate)

/-- The object `emailData` of `storeEmailInDatabase`; `received` stands for
`receivedAt.toISOString()` and `created` for `new Date().toISOString()`. -/
def emailDataOf (userId messageId threadId : String) (sender subject content : JsString)
    (received created : Int) (isRead : Bool) (snippet : JsString) : EmailRow :=
  { user_id := userId, message_id := messageId, thread_id := threadId,
    sender := sender, subject := subject, content := content,
    received_at := received, created_at := created, is_read := isRead, snippet := snippet }

/-- The function `storeEmailInDatabase`. `Except.error` is the `RangeError` of
`receivedAt.toISOString()` on an invalid date. -/
def storeEmailInDatabase (env : Env) (userId messageId threadId : String)
    (sender subject content : JsString) (receivedAt : Option Int) (isRead : Bool)
    (snippet : JsString) (w : World) : Except JsError Bool × World :=
  let existingEmail :=
    if env.emailsSelectOneFails w.time userId messageId then none
    else maybeSingle (rowsFor w.emails userId messageId)
  let w := w.log (.emailsSelectOne userId messageId)
  match existingEmail with
  | some _ => (.ok false, w)
  | none =>
    match receivedAt with
    | none => (.error { message := some "Invalid time value" }, w)
    | some received =>
      let emailData := emailDataOf userId messageId threadId sender subject content
        received (env.now w.time) isRead snippet
      match emailsInsert env emailData w with
      | (none, w) => (.ok true, w)
      | (some insertError, w) =>
        if mentionsOptionalColumn insertError then
          (.ok true, (emailsInsert env emailData w).2)
        else (.ok true, w)

/-! ## Message ingestion pipeline (`POST`) -/

/-- The parsed JSON body of a request. -/
structure RequestData where
  userId : Option String
  useStandardColors : Option Bool := none
  accessToken : Option String := none
deriving DecidableEq, Repr

/-- The accumulators of the processing loop. -/
structure LoopState where
  results : List ResultEntry
  totalStoredCount : Nat
deriving DecidableEq, Repr

/-- The expression `headers[name] || fallback`, where `headers` is filled by a
`forEach` over the payload headers (a later header overwrites an earlier one). -/
def headerOr (headers : List Header) (name : String) (fallback : JsString) : JsString :=
  match headers.reverse.find? (fun h => h.name = name) with
  | some h => if truthy h.value then h.value else fallback
  | none => fallback

/-- The object `labelIdToName`: the entries of `amurexLabels`, reversed. -/
def labelIdToName (amurexLabels : Obj) : Obj :=
  amurexLabels.foldl (fun o entry => o.set entry.2 entry.1) []

/-- The loop over `emailLabels` that looks for a category label: the value of
`labelIdToName[labelId]` for the first label id at which this read is truthy.
The object `labelIdToName` is created by `{}`, so the read is also truthy at a
label id that names a member of `Object.prototype`. -/
def findAmurexLabel (amurexLabels : Obj) (emailLabels : List String) : Option ObjectRead :=
  emailLabels.findSome? (fun labelId => (labelIdToName amurexLabels).readTruthy labelId)

/-- The expression `body.length > 1500 ? body.substring(0, 1500) + "..." : body`. -/
def truncateBody (body : JsString) : JsString :=
  if 1500 < body.length then body.take 1500 ++ utf16 "..." else body

/-- The `try`/`catch` around a call of `storeEmailInDatabase` in the loop: the
counter grows when the call answers `true`, an exception is logged and dropped. -/
def storeAndCount (env : Env) (userId messageId threadId : String)
    (sender subject content : JsString) (receivedAt : Option Int) (isRead : Bool)
    (snippet : JsString) (acc : LoopState) (w : World) : LoopState × World :=
  match storeEmailInDatabase env userId messageId threadId sender subject content
      receivedAt isRead snippet w with
  | (.ok true, w) => ({ acc with totalStoredCount := acc.totalStoredCount + 1 }, w)
  | (_, w) => (acc, w)

/-- The classification of a message that is to be categorized: the classifier
call, the label application when the category is not `none` and has a label,
and the new entry of `results`. `Except.error` is an exception of
`gmail.users.messages.modify`. -/
def classifyAndLabel (env : Env) (client : GmailClient) (amurexLabels : Obj)
    (messageId : String) (fromEmail subject body : JsString) (acc : LoopState) (w : World) :
    Except JsError LoopState × World :=
  let truncatedBody := truncateBody body
  let category := categorizeWithAI (env.groq w.time) fromEmail subject truncatedBody
  let w := w.log (.chatCompletion (chatRequest fromEmail subject truncatedBody))
  let entry : ResultEntry :=
    { messageId := messageId, subject := subject, category := category, success := true }
  match (if category ≠ "none" then amurexLabels.getTruthy category else none) with
  | some labelId =>
    match env.messagesModifyError w.time client messageId [labelId] with
    | some e => (.error e, w.log (.messagesModify client messageId [labelId]))
    | none =>
      (.ok { acc with results := acc.results ++ [entry] },
       w.log (.messagesModify client messageId [labelId]))
  | none => (.ok { acc with results := acc.results ++ [entry] }, w)

/-- One iteration of the processing loop. `Except.error` is an exception that
leaves the loop. -/
def processMessage (env : Env) (client : GmailClient) (userId : String) (amurexLabels : Obj)
    (shouldCategorize : Bool) (message : MessageStub) (acc : LoopState) (w : World) :
    Except JsError LoopState × World :=
  match env.messagesGet w.time client message.id with
  | .error e => (.error e, w.log (.messagesGet client message.id))
  | .ok fullMessage =>
    let w := w.log (.messagesGet client message.id)
    let subject := headerOr fullMessage.headers "Subject" (utf16 "(No Subject)")
    let fromEmail := headerOr fullMessage.headers "From" (utf16 "Unknown")
    let threadId := ((fullMessage.threadId.filter (fun t => t ≠ "")).getD message.id)
    let receivedAt := receivedDate fullMessage.internalDate
    match fullMessage.labelIds with
    | none =>
      (.error { message := some "Cannot read properties of undefined (reading 'includes')" }, w)
    | some labelIds =>
      let isRead := !labelIds.contains "UNREAD"
      let snippet := fullMessage.snippet
      let alreadyLabeled :=
        shouldCategorize && (findAmurexLabel amurexLabels labelIds).isSome
      if alreadyLabeled then
        let entry : ResultEntry :=
          { messageId := message.id, subject := subject, category := "already_labeled",
            success := true }
        match storeAndCount env userId message.id threadId fromEmail subject [] receivedAt
            isRead snippet { acc with results := acc.results ++ [entry] } w with
        | (acc, w) => (.ok acc, w)
      else
        let body := extractBody env.decode fullMessage.payload snippet
        let classified :=
          if shouldCategorize then
            classifyAndLabel env client amurexLabels message.id fromEmail subject body acc w
          else (.ok acc, w)
        match classified with
        | (.error e, w) => (.error e, w)
        | (.ok acc, w) =>
          match storeAndCount env userId message.id threadId fromEmail subject body receivedAt
              isRead snippet acc w with
          | (acc, w) => (.ok acc, w)

/-- The processing loop `for (let i = 0; i < newMessages.length; i++)`, from
index `i` on. -/
def processMessages (env : Env) (client : GmailClient) (userId : String) (amurexLabels : Obj)
    (categorizedCount : Nat) :
    Nat → List MessageStub → LoopState → World → Except JsError LoopState × World
  | _, [], acc, w => (.ok acc, w)
  | i, message :: rest, acc, w =>
    match processMessage env client userId amurexLabels (decide (i < categorizedCount))
        message acc w with
    | (.ok acc, w) =>
      processMessages env client userId amurexLabels categorizedCount (i + 1) rest acc w
    | (.error e, w) => (.error e, w)

/-- The set `processedMessageIds`: empty when the query reports an error. -/
def processedMessageIds (env : Env) (userId : String) (w : World) : List String :=
  match env.emailsSelectIdsError w.time userId with
  | some _ => []
  | none => (w.emails.filter (fun r => r.user_id = userId)).map (fun r => r.message_id)

/-- The filter that yields `newMessages`. -/
def filterNew (processed : List String) (messages : List MessageStub) : List MessageStub :=
  messages.filter (fun message => !processed.contains message.id)

/-- The statements of the handler from the dedup query to the final response. -/
def ingest (env : Env) (client : GmailClient) (userId : String) (amurexLabels : Obj)
    (messages : List MessageStub) (w : World) : Except JsError Response × World :=
  let newMessages := filterNew (processedMessageIds env userId w) messages
  let w := w.log (.emailsSelectIds userId)
  if newMessages.length = 0 then (.ok nothingToProcess, w)
  else
    let categorizedCount := min 20 newMessages.length
    match processMessages env client userId amurexLabels categorizedCount 0 newMessages
        { results := [], totalStoredCount := 0 } w with
    | (.error e, w) => (.error e, w)
    | (.ok acc, w) =>
      (.ok { status := 200, success := true,
             message := some "Emails processed successfully",
             processed := some acc.results.length,
             total_stored := some acc.totalStoredCount,
             total_found := some newMessages.length,
             results := some acc.results }, w)

/-- The inner `try` block of the handler. `Except.error` is an exception that
reaches the handler `catch (gmailError)`. -/
def gmailBlock (env : Env) (client : GmailClient) (userId : String)
    (useStandardColors : Bool) (w : World) : Except JsError Response × World :=
  match reconcile env client useStandardColors w with
  | (.error e, w) => (.error e, w)
  | (.ok none, w) => (.ok insufficientPermissions, w)
  | (.ok (some amurexLabels), w) =>
    match env.messagesList w.time client with
    | .error e => (.error e, w.log (.messagesList client "is:unread" 10))
    | .ok listing =>
      let w := w.log (.messagesList client "is:unread" 10)
      match listing with
      | none => (.ok nothingToProcess, w)
      | some [] => (.ok nothingToProcess, w)
      | some messages => ingest env client userId amurexLabels messages w

/-- The test `userError || !userData || !userData.google_refresh_token` of the
handler: the row and its refresh credential when the test is false. -/
def credentialsOf (r : DbResult UserRow) : Option (UserRow × String) :=
  match r.error, r.data with
  | none, some userData =>
    match userData.google_refresh_token with
    | some token => if token = "" then none else some (userData, token)
    | none => none
  | _, _ => none

/-- The handler after its precondition checks: the choice of the OAuth client,
the inner `try` block and the two `catch` clauses. -/
def authorized (env : Env) (userId refreshToken : String) (useStandardColors : Bool)
    (w : World) : Response × World :=
  match getOAuth2Client env userId w with
  | (config, w) =>
    match gmailBlock env { config := config, refresh_token := refreshToken } userId
        useStandardColors w with
    | (.ok response, w) => (response, w)
    | (.error gmailError, w) =>
      if gmailError.hasStatus 403 then (insufficientPermissions, w)
      else (internalError gmailError, w)

/-- The request handler `POST`, on the parsed request body. -/
def POST (env : Env) (requestData : RequestData) (w : World) : Response × World :=
  match requestData.userId with
  | none => (badRequest "User ID is required", w)
  | some userId =>
    if userId = "" then (badRequest "User ID is required", w)
    else
      match credentialsOf (env.usersSelect w.time userId requestData.accessToken) with
      | none =>
        (badRequest "Google credentials not found",
         w.log (.usersSelect userId requestData.accessToken))
      | some (userData, refreshToken) =>
        if !userData.email_tagging_enabled then
          (badRequest "Email tagging is not enabled for this user",
           w.log (.usersSelect userId requestData.accessToken))
        else
          authorized env userId refreshToken (requestData.useStandardColors == some true)
            (w.log (.usersSelect userId requestData.accessToken))

/-! ## Concrete values used by the examples -/

/-- A completion whose first choice carries the given reply text. -/
def replyOf (reply : JsString) : ChatCompletion :=
  { choices := some [{ message := some { content := some reply } }] }

/-- The payload `multipart/alternative` with the parts `text/html` (`<p>Hi</p>`)
and `text/plain` (`Hello`), in this order. -/
def htmlThenPlain : MimePart :=
  .mk (some "multipart/alternative") none
    (some [some (.mk (some "text/html") (some ⟨some "PHA+SGk8L3A+"⟩) none),
           some (.mk (some "text/plain") (some ⟨some "SGVsbG8="⟩) none)])

/-- The single-part payload `text/html` whose inline body is `<p>Hi</p>`. -/
def htmlOnly : MimePart :=
  .mk (some "text/html") (some ⟨some "PHA+SGk8L3A+"⟩) none

/-- A world without mailbox labels, without stored records and with an empty
trace. -/
def emptyWorld : World := { labels := [], nextLabelId := 0, emails := [], trace := [] }

/-- A mailbox client. -/
def sampleClient : GmailClient := { config := .new, refresh_token := "refresh-1" }

/-- A fetched message: unread, in the inbox, with the plain text `Hello`. -/
def sampleMessage : FullMessage :=
  { threadId := some "thread-1", internalDate := some 1700000000000,
    labelIds := some ["UNREAD", "INBOX"], snippet := utf16 "Hello",
    headers := [⟨"From", utf16 "a@example.com"⟩, ⟨"Subject", utf16 "Greetings"⟩],
    payload := .mk (some "text/plain") (some ⟨some "SGVsbG8="⟩) none }

/-- An environment in which every call succeeds: the account has a refresh
credential and tagging enabled, the mailbox lists `listing`, every message is
`sampleMessage`, the classifier replies `3`. -/
def healthyEnv (listing : List MessageStub) : Env :=
  { usersSelect := fun _ _ _ =>
      { data := some { google_refresh_token := some "refresh-1",
                       email_tagging_enabled := true }, error := none }
    usersCreatedAt := fun _ _ => { data := some (some 1750000000000), error := none }
    labelsListError := fun _ _ => none
    labelsCreateError := fun _ _ _ => none
    messagesList := fun _ _ => .ok (some listing)
    messagesGet := fun _ _ _ => .ok sampleMessage
    messagesModifyError := fun _ _ _ _ => none
    groq := fun _ _ => .ok (replyOf (utf16 "3"))
    emailsSelectIdsError := fun _ _ => none
    emailsSelectOneFails := fun _ _ _ => false
    emailsInsertError := fun _ _ => none
    now := fun t => 1800000000000 + t
    decode := bufferDecode }

/-- The environment `healthyEnv` with every insert into `emails` failing. -/
def insertFailingEnv (listing : List MessageStub) : Env :=
  { healthyEnv listing with
    emailsInsertError := fun _ _ => some { message := some "connection refused" } }

/-- The environment `healthyEnv` with every existence check failing. -/
def checkFailingEnv (listing : List MessageStub) : Env :=
  { healthyEnv listing with emailsSelectOneFails := fun _ _ _ => true }

/-- The environment `healthyEnv` with the query for the stored ids failing. -/
def lookupFailingEnv (listing : List MessageStub) : Env :=
  { healthyEnv listing with
    emailsSelectIdsError := fun _ _ => some { message := some "timeout" } }

/-- The store operation for the message `msg-1` of the account `user-1`. -/
def storeSample (env : Env) (w : World) : Except JsError Bool × World :=
  storeEmailInDatabase env "user-1" "msg-1" "thread-1" (utf16 "a@example.com")
    (utf16 "Greetings") (utf16 "Hello") (some 1700000000000) false (utf16 "Hello") w

/-- The environment `healthyEnv` for an account without refresh credential. -/
def noCredentialEnv : Env :=
  { healthyEnv [⟨"msg-1"⟩] with
    usersSelect := fun _ _ _ =>
      { data := some { google_refresh_token := none, email_tagging_enabled := true },
        error := none } }

/-- The environment `healthyEnv` for an account with tagging disabled. -/
def taggingOffEnv : Env :=
  { healthyEnv [⟨"msg-1"⟩] with
    usersSelect := fun _ _ _ =>
      { data := some { google_refresh_token := some "refresh-1",
                       email_tagging_enabled := false },
        error := none } }

/-! ## Vocabulary of the statements -/

mutual
/-- The decoded texts of the `text/plain` nodes of a tree that carry inline
data, in depth-first order. -/
def plainTexts (decode : Decoder) : MimePart → List JsString
  | .mk mimeType partBody parts =>
    (match (if mimeType = some "text/plain" then inlineData partBody else none) with
     | some data =>
       match decode data with
       | .ok text => [text]
       | .error _ => []
     | none => []) ++
    (match parts with
     | some subParts => plainTextsOfParts decode subParts
     | none => [])
/-- The decoded plain texts of a list of sub-parts. -/
def plainTextsOfParts (decode : Decoder) : List (Option MimePart) → List JsString
  | [] => []
  | none :: rest => plainTextsOfParts decode rest
  | some part :: rest => plainTexts decode part ++ plainTextsOfParts decode rest
end

mutual
/-- The number of `text/html` nodes of a tree. -/
def countHtml : MimePart → Nat
  | .mk mimeType _ parts =>
    (if mimeType = some "text/html" then 1 else 0) +
    (match parts with
     | some subParts => countHtmlOfParts subParts
     | none => 0)
/-- The number of `text/html` nodes of a list of sub-parts. -/
def countHtmlOfParts : List (Option MimePart) → Nat
  | [] => 0
  | none :: rest => countHtmlOfParts rest
  | some part :: rest => countHtml part + countHtmlOfParts rest
end

mutual
/-- The number of `text/plain` nodes of a tree. -/
def countPlain : MimePart → Nat
  | .mk mimeType _ parts =>
    (if mimeType = some "text/plain" then 1 else 0) +
    (match parts with
     | some subParts => countPlainOfParts subParts
     | none => 0)
/-- The number of `text/plain` nodes of a list of sub-parts. -/
def countPlainOfParts : List (Option MimePart) → Nat
  | [] => 0
  | none :: rest => countPlainOfParts rest
  | some part :: rest => countPlain part + countPlainOfParts rest
end

/-- A tag sequence: a substring that starts with `<` and ends with `>`. -/
def HasTag (s : JsString) : Prop := ∃ a b c, s = a ++ 60 :: b ++ 62 :: c

/-- Whether a call is a mailbox-provider call (label list, label create,
message list, message get, message modify), a classifier call or a write to
the record store. -/
def Call.isGuarded : Call → Bool
  | .labelsList _ => true
  | .labelsCreate _ _ => true
  | .messagesList _ _ _ => true
  | .messagesGet _ _ => true
  | .messagesModify _ _ _ => true
  | .chatCompletion _ => true
  | .emailsInsert _ => true
  | .usersSelect _ _ => false
  | .usersCreatedAt _ => false
  | .emailsSelectIds _ => false
  | .emailsSelectOne _ _ => false

/-- The outcome of a run from the world `w` is a rejection: status 400 with
`success = false`, no guarded call added to the trace, mailbox labels and
record store untouched. -/
def Rejected (w : World) (out : Response × World) : Prop :=
  out.1.status = 400 ∧ out.1.success = false ∧
  (∃ extra, out.2.trace = w.trace ++ extra ∧ ∀ c ∈ extra, c.isGuarded = false) ∧
  out.2.emails = w.emails ∧ out.2.labels = w.labels

/-- Whether a call is a label creation request. -/
def Call.isLabelsCreate : Call → Bool
  | .labelsCreate _ _ => true
  | _ => false

/-- The (category, id) pairs of the labels the provider creates for the
categories of `cat`, one after the other, when its counter stands at `k`. -/
def createdFrom (k : Nat) : List (String × LabelColor) → List (String × String)
  | [] => []
  | (n, _) :: rest => (n, "Label_" ++ toString k) :: createdFrom (k + 1) rest

/-- The world after one successful first-attempt creation for each category of
`cat`. -/
def afterCreation (client : GmailClient) (std : Bool) (cat : List (String × LabelColor))
    (w : World) : World :=
  { labels := w.labels ++ (createdFrom w.nextLabelId cat).map
      (fun p => ⟨p.2, "Amurex/" ++ p.1⟩),
    nextLabelId := w.nextLabelId + cat.length,
    emails := w.emails,
    trace := w.trace ++ cat.map
      (fun p => .labelsCreate client (firstRequest std ("Amurex/" ++ p.1) p.2)) }

/-- The world `w'` arises from `w` by external calls that leave the mailbox
labels alone and insert only rows of the account `userId` for messages of
`ids`: the trace and the table `emails` grow at their ends. -/
def Grows (userId : String) (ids : List String) (w w' : World) : Prop :=
  w'.labels = w.labels ∧
  ∃ extra added, w'.trace = w.trace ++ extra ∧ w'.emails = w.emails ++ added ∧
    (∀ row, Call.emailsInsert row ∈ extra → row.user_id = userId ∧ row.message_id ∈ ids) ∧
    (∀ row ∈ added, row.user_id = userId ∧ row.message_id ∈ ids)

/-- The results of `acc'` extend those of `acc` by entries for messages of `ids`. -/
def ResultsExtend (ids : List String) (acc acc' : LoopState) : Prop :=
  ∃ es, acc'.results = acc.results ++ es ∧ ∀ e ∈ es, e.messageId ∈ ids

/-- Whether the record store holds a record of the account for the message. -/
def isStored (emails : List EmailRow) (userId messageId : String) : Bool :=
  emails.any (fun r => r.user_id = userId ∧ r.message_id = messageId)

/-- The response carried by the result of the inner block; the response of
the outer `catch` when the block raised. -/
def responseOf (r : Except JsError Response) : Response :=
  match r with
  | .ok response => response
  | .error e => internalError e

/-- A reconciled mapping with one label id per category. -/
def sampleLabels : Obj :=
  [("to respond", "Label_0"), ("FYI", "Label_1"), ("comment", "Label_2"),
   ("notification", "Label_3"), ("meeting update", "Label_4"),
   ("awaiting reply", "Label_5"), ("actioned", "Label_6"), ("promotions", "Label_7"),
   ("none", "Label_8")]

/-- A record store that holds the record of `msg-1` for the account `user-1`. -/
def storedWorld : World := (storeSample (healthyEnv []) emptyWorld).2

/-- The outcome `out` of a run from `w` over the listing `messages` respects the
records stored for the account `u`: no entry of `results` is for a stored
message, a reported `total_found` is the number of listed messages that are not
stored, no insert is issued and no row is added for a stored message. -/
def SkipsStored (u : String) (messages : List MessageStub) (w : World)
    (out : Response × World) : Prop :=
  (∀ e ∈ out.1.results.getD [], isStored w.emails u e.messageId = false) ∧
  (∀ k, out.1.total_found = some k →
    k = messages.countP (fun m => !isStored w.emails u m.id)) ∧
  ∃ extra added, out.2.trace = w.trace ++ extra ∧ out.2.emails = w.emails ++ added ∧
    (∀ row, Call.emailsInsert row ∈ extra →
      row.user_id = u ∧ isStored w.emails u row.message_id = false) ∧
    (∀ row ∈ added, row.user_id = u ∧ isStored w.emails u row.message_id = false)

/-- The world `w'` arises from `w` by calls that leave the record store alone. -/
def Quiet (w w' : World) : Prop :=
  w'.emails = w.emails ∧ ∃ extra, w'.trace = w.trace ++ extra ∧
    ∀ row, Call.emailsInsert row ∉ extra

/-- Every call of the processing loop succeeds for the messages of `messages`,
and none of them carries a reconciled label: each fetch answers a message with
label ids, none of which is a category label, and with a valid date; label
applications and inserts succeed. -/
def ProcessesCleanly (env : Env) (client : GmailClient) (amurexLabels : Obj)
    (messages : List MessageStub) : Prop :=
  (∀ t, ∀ m ∈ messages, ∃ fullMessage labelIds received,
    env.messagesGet t client m.id = .ok fullMessage ∧
    fullMessage.labelIds = some labelIds ∧
    findAmurexLabel amurexLabels labelIds = none ∧
    receivedDate fullMessage.internalDate = some received) ∧
  (∀ t id labelIds, env.messagesModifyError t client id labelIds = none) ∧
  (∀ t row, env.emailsInsertError t row = none)

/-- A listing of `n` messages with distinct ids. -/
def batch (n : Nat) : List MessageStub :=
  (List.range n).map (fun i => ⟨"msg-" ++ toString i⟩)

/-- The request passes the precondition checks of the handler: it names the
account `u`, whose row carries the refresh credential `token` and has tagging
enabled. -/
def Admitted (env : Env) (requestData : RequestData) (w : World) (u token : String) : Prop :=
  requestData.userId = some u ∧ u ≠ "" ∧
  ∃ row, credentialsOf (env.usersSelect w.time u requestData.accessToken) = some (row, token) ∧
    row.email_tagging_enabled = true

/-- The mailbox client that the handler builds for an admitted request. -/
def handlerClient (env : Env) (w : World) (u token : String) : GmailClient :=
  { config := selectConfig (env.usersCreatedAt (w.time + 1) u), refresh_token := token }

/-- The world in which the inner block of the handler starts for an admitted
request: the reads of the users row and of the creation date are logged. -/
def blockStart (requestData : RequestData) (w : World) (u : String) : World :=
  (w.log (.usersSelect u requestData.accessToken)).log (.usersCreatedAt u)

/-- Whether a call lists, fetches, classifies, labels or stores a message (or
reads the record store). -/
def Call.touchesMessages : Call → Bool
  | .messagesList _ _ _ => true
  | .messagesGet _ _ => true
  | .messagesModify _ _ _ => true
  | .chatCompletion _ => true
  | .emailsSelectIds _ => true
  | .emailsSelectOne _ _ => true
  | .emailsInsert _ => true
  | .usersSelect _ _ => false
  | .usersCreatedAt _ => false
  | .labelsList _ => false
  | .labelsCreate _ _ => false

/-- The environment `healthyEnv` in which a creation request with a color is
rejected with status 400 and one without color with status 403. -/
def retryForbiddenEnv (listing : List MessageStub) : Env :=
  { healthyEnv listing with
    labelsCreateError := fun _ _ r =>
      if r.color.isSome then some { status := some 400 } else some { status := some 403 } }

/-- The environment `healthyEnv` in which the creation of `Amurex/comment` is
rejected with status 403. -/
def commentForbiddenEnv (listing : List MessageStub) : Env :=
  { healthyEnv listing with
    labelsCreateError := fun _ _ r =>
      if r.name = "Amurex/comment" then some { status := some 403 } else none }

/-- The environment `healthyEnv` in which a creation request with a color for
`Amurex/promotions` is rejected with status 400. -/
def promotionsColorEnv (listing : List MessageStub) : Env :=
  { healthyEnv listing with
    labelsCreateError := fun _ _ r =>
      if r.name = "Amurex/promotions" ∧ r.color.isSome then some { status := some 400 }
      else none }

/-- The environment `healthyEnv` in which every creation of `Amurex/promotions`
fails with status 500. -/
def promotionsFailingEnv (listing : List MessageStub) : Env :=
  { healthyEnv listing with
    labelsCreateError := fun _ _ r =>
      if r.name = "Amurex/promotions" then some { status := some 500 } else none }

/-- A mailbox that lists the system label `INBOX` and a label `Amurex/comment`
with the id `Label_77`. -/
def labelledWorld : World :=
  { labels := [⟨"INBOX", "INBOX"⟩, ⟨"Label_77", "Amurex/comment"⟩], nextLabelId := 100,
    emails := [], trace := [] }

/-- The first seven categories of the catalog, those before `promotions`. -/
def beforePromotions : List (String × LabelColor) := GMAIL_COLORS.take 7

/-- The mapping after the creation of the labels of the first seven categories
in a mailbox without labels. -/
def sevenLabels : Obj :=
  [("to respond", "Label_0"), ("FYI", "Label_1"), ("comment", "Label_2"),
   ("notification", "Label_3"), ("meeting update", "Label_4"),
   ("awaiting reply", "Label_5"), ("actioned", "Label_6")]

/-- The world after the listing of an empty mailbox and the creation of the
labels of the first seven categories, with colors. -/
def sevenLabelsWorld : World :=
  afterCreation sampleClient false beforePromotions (emptyWorld.log (.labelsList sampleClient))

/-- The first two categories of the catalog, those before `comment`. -/
def beforeComment : List (String × LabelColor) := GMAIL_COLORS.take 2

/-- The world after the reads of the account row and of its creation date,
the listing of an empty mailbox and the creation of the labels of the first
two categories, with colors, for the account `user-1`. -/
def twoLabelsWorld : World :=
  afterCreation sampleClient false beforeComment
    (((blockStart { userId := some "user-1" } emptyWorld "user-1").log
      (.labelsList sampleClient)))

/-- The number of days from 1970-01-01 to a date of the proleptic Gregorian
calendar (for years from 1 on). -/
def daysFromCivil (year month day : Nat) : Int :=
  let y : Nat := if month ≤ 2 then year - 1 else year
  let era : Nat := y / 400
  let yoe : Nat := y - era * 400
  let mp : Nat := if month ≤ 2 then month + 9 else month - 3
  let doy : Nat := (153 * mp + 2) / 5 + day - 1
  let doe : Nat := yoe * 365 + yoe / 4 - yoe / 100 + doy
  (era * 146097 + doe : Nat) - 719468

/-- The epoch milliseconds of a UTC calendar instant. -/
def utcInstant (year month day hour minute second millisecond : Nat) : Int :=
  daysFromCivil year month day * 86400000 +
    (((hour * 60 + minute) * 60 + second) * 1000 + millisecond : Nat)

/-- The lookup of the creation date fails: the query reports an error or
answers no row. -/
def lookupFails (r : DbResult (Option Int)) : Prop :=
  r.error.isSome = true ∨ r.data = none

/-- The message `sampleMessage` carrying the label `Label_2`. -/
def labeledMessage : FullMessage :=
  { sampleMessage with labelIds := some ["UNREAD", "Label_2"] }

/-- The environment `healthyEnv` in which every message is `labeledMessage`. -/
def labeledEnv (listing : List MessageStub) : Env :=
  { healthyEnv listing with messagesGet := fun _ _ _ => .ok labeledMessage }

/-- Whether a call is a classifier call or a label application. -/
def Call.classifiesOrLabels : Call → Bool
  | .chatCompletion _ => true
  | .messagesModify _ _ _ => true
  | _ => false

/-- The subject that the loop reads from a fetched message. -/
def subjectOf (fullMessage : FullMessage) : JsString :=
  headerOr fullMessage.headers "Subject" (utf16 "(No Subject)")

/-- The sender that the loop reads from a fetched message. -/
def senderOf (fullMessage : FullMessage) : JsString :=
  headerOr fullMessage.headers "From" (utf16 "Unknown")

/-- The body that the loop extracts from a fetched message. -/
def bodyOf (env : Env) (fullMessage : FullMessage) : JsString :=
  extractBody env.decode fullMessage.payload fullMessage.snippet

/-- The classifier request that the loop issues for a fetched message. -/
def classifierRequest (env : Env) (fullMessage : FullMessage) : ChatRequest :=
  chatRequest (senderOf fullMessage) (subjectOf fullMessage)
    (truncateBody (bodyOf env fullMessage))

/-- The environment `healthyEnv` in which the fetch of `msg-1` fails with
status 500. -/
def fetchFailingEnv (listing : List MessageStub) : Env :=
  { healthyEnv listing with
    messagesGet := fun _ _ id =>
      if id = "msg-1" then .error { status := some 500, message := some "Backend Error" }
      else .ok sampleMessage }

/-- The environment `healthyEnv` in which every classifier call fails. -/
def classifierFailingEnv (listing : List MessageStub) : Env :=
  { healthyEnv listing with
    groq := fun _ _ => .error { message := some "rate limit" } }

/-- Whether a call is a call of the record store. -/
def Call.isStore : Call → Bool
  | .emailsSelectIds _ => true
  | .emailsSelectOne _ _ => true
  | .emailsInsert _ => true
  | _ => false

/-- The calls of a trace that are not calls of the record store. -/
def outsideStore (calls : List Call) : List Call :=
  calls.filter (fun c => !c.isStore)

/-- Two environments answer the fetches, the classifier calls and the label
applications alike, whenever they are asked, and decode alike. -/
def SameMailbox (env1 env2 : Env) : Prop :=
  (∀ t1 t2 c id, env1.messagesGet t1 c id = env2.messagesGet t2 c id) ∧
  (∀ t1 t2 r, env1.groq t1 r = env2.groq t2 r) ∧
  (∀ t1 t2 c id ids, env1.messagesModifyError t1 c id ids =
    env2.messagesModifyError t2 c id ids) ∧
  env1.decode = env2.decode

/-- Two outcomes of the loop are the same exception or carry the same
results. -/
def SameResults (r1 r2 : Except JsError LoopState) : Prop :=
  match r1, r2 with
  | .ok a1, .ok a2 => a1.results = a2.results
  | .error e1, .error e2 => e1 = e2
  | _, _ => False

/-- Two runs from the worlds `w1` and `w2` have the same outcome up to the
record store: the same exception or the same results, and the same calls
outside the record store. -/
def SameOutcome (w1 w2 : World) (o1 o2 : Except JsError LoopState × World) : Prop :=
  SameResults o1.1 o2.1 ∧
  ∃ extra1 extra2, o1.2.trace = w1.trace ++ extra1 ∧ o2.2.trace = w2.trace ++ extra2 ∧
    outsideStore extra1 = outsideStore extra2

/-- The failure with which the environment answers a mailbox call (label list,
message list, message get, label application) issued as the call number `t`;
`none` when the call succeeds or is not one of these calls. -/
def Env.mailboxFailure (env : Env) (t : Nat) : Call → Option JsError
  | .labelsList client => env.labelsListError t client
  | .messagesList client _ _ =>
    match env.messagesList t client with
    | .error e => some e
    | .ok _ => none
  | .messagesGet client id =>
    match env.messagesGet t client id with
    | .error e => some e
    | .ok _ => none
  | .messagesModify client id addLabelIds => env.messagesModifyError t client id addLabelIds
  | _ => none

/-- The exception of `fullMessage.data.labelIds.includes` on a message without
label ids. -/
def labelIdsError : JsError :=
  { message := some "Cannot read properties of undefined (reading 'includes')" }

/-- No mailbox call among the calls numbered from `lo` up to `hi` (excluded)
of the trace fails. -/
def Unfailing (env : Env) (trace : List Call) (lo hi : Nat) : Prop :=
  ∀ i call, lo ≤ i → i < hi → trace.get? i = some call → env.mailboxFailure i call = none

/-- The call number `t` raises `e`: it is a mailbox call that the environment
answers with `e`, or a successful call after which the read of the label ids
raises. -/
def RaisedBy (env : Env) (t : Nat) (call : Call) (e : JsError) : Prop :=
  env.mailboxFailure t call = some e ∨ (env.mailboxFailure t call = none ∧ e = labelIdsError)

/-- The exception of an outcome, if it is one. -/
def failureOf {α : Type} : Except JsError α → Option JsError
  | .error e => some e
  | .ok _ => none

/-- The trace `t2` extends the trace `t1` in accordance with the outcome
`failure`: without exception no added mailbox call fails; with the exception
`e` the last added call raises `e` and no mailbox call before it fails. -/
def Faithful (env : Env) (t1 t2 : List Call) (failure : Option JsError) : Prop :=
  ∃ extra, t2 = t1 ++ extra ∧
    match failure with
    | none => Unfailing env t2 t1.length t2.length
    | some e => ∃ init call, extra = init ++ [call] ∧
        Unfailing env t2 t1.length (t1.length + init.length) ∧
        RaisedBy env (t1.length + init.length) call e
/-- The response is a permission response: status 403, `success = false` and
the error type `insufficient_permissions`. -/
def Response.isPermissionResponse (r : Response) : Prop :=
  r.status = 403 ∧ r.success = false ∧ r.errorType = some "insufficient_permissions"

/-- The response is the answer to an uncaught failure: status 500,
`success = false` and no error type. -/
def Response.isFailureResponse (r : Response) : Prop :=
  r.status = 500 ∧ r.success = false ∧ r.errorType = none

/-- The response is a success response: status 200 and `success = true`. -/
def Response.isSuccessResponse (r : Response) : Prop :=
  r.status = 200 ∧ r.success = true

/-- The environment `healthyEnv` in which every fetch of a message fails with
status 403. -/
def fetchForbiddenEnv (listing : List MessageStub) : Env :=
  { healthyEnv listing with
    messagesGet := fun _ _ _ => .error { status := some 403, message := some "Forbidden" } }

/-- The marker appended to a body taken from the snippet. -/
def snippetMarker : JsString := utf16 " [Extracted from snippet]"

/-- The body used when neither the payload nor the snippet yields text. -/
def noContentPlaceholder : JsString := utf16 "[No content could be extracted]"

/-- The start of the body used when the extraction raised. -/
def errorMarkerStart : JsString := utf16 "[Error extracting content: "

/-- The character whose code is `n`, as a JavaScript string. -/
def characterOfCode (n : Nat) : JsString := utf16Units n

/-- A payload without parts array and without inline data, of type
`text/plain`. -/
def barePayload : MimePart := .mk (some "text/plain") none none

/-- A decoder that raises on the data `!!` and is `bufferDecode` elsewhere. -/
def brittleDecode : Decoder := fun data =>
  if data = "!!" then .error { message := some "The first argument must be of type string" }
  else bufferDecode data

mutual
/-- The texts of the leaves of a part tree, in pre-order. A `text/plain` or
`text/html` node with inline data is a leaf: its text is the decoded data,
stripped of markup for HTML, and the empty string when the decoding raises.
Any other node contributes the leaf texts of its sub-parts. -/
def leafTexts (decode : Decoder) : MimePart → List JsString
  | .mk mimeType partBody parts =>
    match (if mimeType = some "text/plain" ∨ mimeType = some "text/html"
           then inlineData partBody else none) with
    | some data =>
      match decode data with
      | .ok text => [if mimeType = some "text/plain" then text else stripHtml text]
      | .error _ => [[]]
    | none =>
      match parts with
      | some subParts => leafTextsOfParts decode subParts
      | none => []
/-- The leaf texts of a list of sub-parts, in order; a missing entry has
none. -/
def leafTextsOfParts (decode : Decoder) : List (Option MimePart) → List JsString
  | [] => []
  | none :: rest => leafTextsOfParts decode rest
  | some part :: rest => leafTexts decode part ++ leafTextsOfParts decode rest
end

/-- The first non-empty text of a list, the empty string if there is none. -/
def firstNonEmpty (texts : List JsString) : JsString :=
  (texts.find? (fun text => truthy text)).getD []

/-- No two adjacent code units of the string are both white space. -/
def NoAdjacentWhiteSpace (s : JsString) : Prop :=
  List.Chain' (fun u v => ¬ (isWhiteSpace u = true ∧ isWhiteSpace v = true)) s

/-- The string neither starts nor ends with white space. -/
def Trimmed (s : JsString) : Prop :=
  (∀ u, s.head? = some u → isWhiteSpace u = false) ∧
  (∀ u, s.getLast? = some u → isWhiteSpace u = false)

/-- Whether a call is a label application. -/
def Call.isModify : Call → Bool
  | .messagesModify _ _ _ => true
  | _ => false

/-- The category that the classifier, asked as the call number `t`, answers
for a fetched message. -/
def categoryOf (env : Env) (t : Nat) (fullMessage : FullMessage) : String :=
  categorizeWithAI (env.groq t) (senderOf fullMessage) (subjectOf fullMessage)
    (truncateBody (bodyOf env fullMessage))

/-- The label id that the loop applies for a category: the truthy entry of
the mapping for a category other than `none`. -/
def labelToApply (amurexLabels : Obj) (category : String) : Option String :=
  if category ≠ "none" then amurexLabels.getTruthy category else none

/-- The calls of the classification of a fetched message, the classifier
being asked as the call number `t`: the classifier call, then the label
application if there is a label to apply. -/
def classifierCalls (env : Env) (client : GmailClient) (amurexLabels : Obj) (t : Nat)
    (message : MessageStub) (fullMessage : FullMessage) : List Call :=
  .chatCompletion (classifierRequest env fullMessage) ::
    (match labelToApply amurexLabels (categoryOf env t fullMessage) with
     | some labelId => [.messagesModify client message.id [labelId]]
     | none => [])

/-- A long message: `sampleMessage` with a plain text of 2000 letters `A`. -/
def longBody : JsString := List.replicate 2000 65

/-- The creation requests of a reconciliation loop over the categories `cat`,
in order, the next call being the call number `t`. A category whose label is
listed gets no request. A missing category gets a first attempt; when the
attempt is rejected with status 403 the loop stops; when it is rejected with
status 400 one retry without color may follow; then the loop goes on with
the next category. -/
def Visits (env : Env) (client : GmailClient) (std : Bool) (ex : Obj) :
    Nat → List (String × LabelColor) → List Call → Prop
  | _, [], calls => calls = []
  | t, (n, c) :: rest, calls =>
    ((ex.getTruthy ("Amurex/" ++ n)).isSome = true ∧
      Visits env client std ex t rest calls) ∨
    (ex.getTruthy ("Amurex/" ++ n) = none ∧
      ((calls = [.labelsCreate client (firstRequest std ("Amurex/" ++ n) c)] ∧
        ∃ e, env.labelsCreateError t client (firstRequest std ("Amurex/" ++ n) c) = some e ∧
          e.hasStatus 403 = true) ∨
       (∃ tail, calls = .labelsCreate client (firstRequest std ("Amurex/" ++ n) c) :: tail ∧
          Visits env client std ex (t + 1) rest tail) ∨
       (∃ e tail,
          env.labelsCreateError t client (firstRequest std ("Amurex/" ++ n) c) = some e ∧
          e.hasStatus 400 = true ∧
          calls = .labelsCreate client (firstRequest std ("Amurex/" ++ n) c) ::
            .labelsCreate client (retryRequest ("Amurex/" ++ n)) :: tail ∧
          Visits env client std ex (t + 2) rest tail)))

/-- Whether a call is a creation request for the label of a category. -/
def Call.createsFor (category : String) : Call → Bool
  | .labelsCreate _ requestBody => requestBody.name = "Amurex/" ++ category
  | _ => false

/-- The message `sampleMessage` with the label ids `UNREAD` and `constructor`. -/
def prototypeLabelMessage : FullMessage :=
  { sampleMessage with labelIds := some ["UNREAD", "constructor"] }

/-- The environment `healthyEnv` in which every message is
`prototypeLabelMessage`. -/
def prototypeLabelEnv (listing : List MessageStub) : Env :=
  { healthyEnv listing with messagesGet := fun _ _ _ => .ok prototypeLabelMessage }

/-! ## Lemmas on strings -/

theorem isDigit_not_whiteSpace {u : Nat} (h : isWhiteSpace u = true) : isDigit u = false := by
  simp only [isWhiteSpace, Bool.or_eq_true, Bool.and_eq_true, decide_eq_true_eq] at h
  simp only [isDigit, Bool.and_eq_false_imp, decide_eq_true_eq, decide_eq_false_iff_not]
  omega

theorem find_digit_append_left (a b : JsString) (h : ∀ u ∈ a, isDigit u = false) :
    (a ++ b).find? isDigit = b.find? isDigit := by
  induction a with
  | nil => rfl
  | cons x xs ih =>
    have hx : isDigit x = false := h x (List.mem_cons_self _ _)
    have hxs : ∀ u ∈ xs, isDigit u = false := fun u hu => h u (List.mem_cons_of_mem _ hu)
    simp [List.find?, hx, ih hxs]

theorem find_digit_append_right (a b : JsString) (h : ∀ u ∈ b, isDigit u = false) :
    (a ++ b).find? isDigit = a.find? isDigit := by
  induction a with
  | nil =>
    simp only [List.nil_append, List.find?_nil]
    exact List.find?_eq_none.mpr (fun u hu => by simp [h u hu])
  | cons x xs ih =>
    cases hx : isDigit x <;> simp [List.find?, hx, ih]

theorem find_digit_dropWhile (s : JsString) :
    (s.dropWhile isWhiteSpace).find? isDigit = s.find? isDigit := by
  conv_rhs => rw [← List.takeWhile_append_dropWhile isWhiteSpace s]
  rw [find_digit_append_left]
  intro u hu
  exact isDigit_not_whiteSpace (List.mem_takeWhile_imp hu)

theorem trimEnd_append (s : JsString) :
    trimEnd s ++ (s.reverse.takeWhile isWhiteSpace).reverse = s := by
  unfold trimEnd
  rw [← List.reverse_append, List.takeWhile_append_dropWhile, List.reverse_reverse]

theorem find_digit_trimEnd (s : JsString) :
    (trimEnd s).find? isDigit = s.find? isDigit := by
  conv_rhs => rw [← trimEnd_append s]
  rw [find_digit_append_right]
  intro u hu
  exact isDigit_not_whiteSpace (List.mem_takeWhile_imp (List.mem_reverse.mp hu))

theorem find_digit_trim (s : JsString) : (trim s).find? isDigit = s.find? isDigit := by
  unfold trim
  rw [find_digit_trimEnd, find_digit_dropWhile]

/-- The category number read from a reply whose first digit character is `d`. -/
theorem extractCategoryNumber_trim (pre post : JsString) (d : Nat) (hd : d ≤ 9)
    (hpre : ∀ u ∈ pre, isDigit u = false) :
    extractCategoryNumber (trim (pre ++ (48 + d) :: post)) = some d := by
  unfold extractCategoryNumber
  rw [find_digit_trim, find_digit_append_left _ _ hpre]
  have : isDigit (48 + d) = true := by
    simp only [isDigit, Bool.and_eq_true, decide_eq_true_eq]; omega
  simp [List.find?, this]

theorem extractCategoryNumber_no_digit (reply : JsString)
    (h : ∀ u ∈ reply, isDigit u = false) : extractCategoryNumber (trim reply) = none := by
  unfold extractCategoryNumber
  rw [find_digit_trim]
  simp only [Option.map_eq_none']
  exact List.find?_eq_none.mpr (fun u hu => by simp [h u hu])

/-- The classifier on a resolved call with a reply text. -/
theorem categorizeWithAI_reply (groq : ChatRequest → Except JsError ChatCompletion)
    (fromEmail subject body : JsString) (response : ChatCompletion) (reply : JsString)
    (hcall : groq (chatRequest fromEmail subject body) = .ok response)
    (hreply : replyContent response = some reply) :
    categorizeWithAI groq fromEmail subject body =
      match extractCategoryNumber (trim reply) with
      | none => "none"
      | some n => if n ≠ 0 then (categoryMap n).getD "none" else "none" := by
  unfold categorizeWithAI
  rw [hcall]
  simp only [hreply]
  cases extractCategoryNumber (trim reply) with
  | none => rfl
  | some n =>
    simp only
    split
    · cases categoryMap n <;> rfl
    · rfl

theorem categoryMap_mem (n : Nat) : (categoryMap n).getD "none" ∈ categoryNames := by
  unfold categoryMap
  split <;> decide

theorem categoryMap_eq_names (d : Nat) (h1 : 1 ≤ d) (h9 : d ≤ 9) :
    categoryNames.get? (d - 1) = some ((categoryMap d).getD "none") := by
  interval_cases d <;> rfl

/-! ## Theorems on the classifier -/

/-- C3: for a reply whose first decimal digit character is `d` with
`1 ≤ d ≤ 9`, the classifier returns the `d`-th category of the fixed list,
whatever text precedes or follows the digit. -/
theorem categorizeWithAI_first_digit
    (groq : ChatRequest → Except JsError ChatCompletion)
    (fromEmail subject body : JsString) (response : ChatCompletion)
    (pre post : JsString) (d : Nat)
    (hcall : groq (chatRequest fromEmail subject body) = .ok response)
    (hreply : replyContent response = some (pre ++ (48 + d) :: post))
    (hpre : ∀ u ∈ pre, isDigit u = false)
    (h1 : 1 ≤ d) (h9 : d ≤ 9) :
    categoryNames.get? (d - 1) = some (categorizeWithAI groq fromEmail subject body) := by
  rw [categorizeWithAI_reply groq fromEmail subject body response _ hcall hreply,
    extractCategoryNumber_trim pre post d h9 hpre]
  have hd : d ≠ 0 := by omega
  simp only [hd, ne_eq, not_false_eq_true, if_true]
  exact categoryMap_eq_names d h1 h9

/-- Witness for C3: the reply `Category: 3 (comment)` yields `comment`. -/
theorem categorizeWithAI_first_digit_witness :
    categoryNames.get? (3 - 1) = some (categorizeWithAI
      (fun _ => .ok (replyOf (utf16 "Category: 3 (comment)"))) [] [] []) ∧
    categoryNames.get? (3 - 1) = some "comment" :=
  ⟨categorizeWithAI_first_digit (fun _ => .ok (replyOf (utf16 "Category: 3 (comment)")))
      [] [] [] (replyOf (utf16 "Category: 3 (comment)")) (utf16 "Category: ")
      (utf16 " (comment)") 3 rfl rfl (by decide) (by decide) (by decide), rfl⟩

/-- C4: the classifier always returns one of the nine category names (it is a
total function, a failure of the call being caught); it returns `none` when the
call fails, when the response is malformed, when the reply has no digit, and
when the first digit of the reply is `0`. -/
theorem categorizeWithAI_none_on_failure
    (groq : ChatRequest → Except JsError ChatCompletion)
    (fromEmail subject body : JsString) :
    categorizeWithAI groq fromEmail subject body ∈ categoryNames ∧
    (∀ e, groq (chatRequest fromEmail subject body) = .error e →
      categorizeWithAI groq fromEmail subject body = "none") ∧
    (∀ response, groq (chatRequest fromEmail subject body) = .ok response →
      replyContent response = none →
      categorizeWithAI groq fromEmail subject body = "none") ∧
    (∀ response reply, groq (chatRequest fromEmail subject body) = .ok response →
      replyContent response = some reply → (∀ u ∈ reply, isDigit u = false) →
      categorizeWithAI groq fromEmail subject body = "none") ∧
    (∀ response pre post, groq (chatRequest fromEmail subject body) = .ok response →
      replyContent response = some (pre ++ 48 :: post) → (∀ u ∈ pre, isDigit u = false) →
      categorizeWithAI groq fromEmail subject body = "none") := by
  refine ⟨?_, ?_, ?_, ?_, ?_⟩
  · cases hcall : groq (chatRequest fromEmail subject body) with
    | error e => simp only [categorizeWithAI, hcall]; decide
    | ok response =>
      cases hreply : replyContent response with
      | none => simp only [categorizeWithAI, hcall, hreply]; decide
      | some reply =>
        rw [categorizeWithAI_reply groq fromEmail subject body response reply hcall hreply]
        cases extractCategoryNumber (trim reply) with
        | none => decide
        | some n =>
          simp only
          split
          · exact categoryMap_mem n
          · decide
  · intro e hcall
    simp only [categorizeWithAI, hcall]
  · intro response hcall hreply
    simp only [categorizeWithAI, hcall, hreply]
  · intro response reply hcall hreply hno
    rw [categorizeWithAI_reply groq fromEmail subject body response reply hcall hreply,
      extractCategoryNumber_no_digit reply hno]
  · intro response pre post hcall hreply hpre
    rw [categorizeWithAI_reply groq fromEmail subject body response _ hcall hreply,
      extractCategoryNumber_trim pre post 0 (by omega) hpre]
    rfl

/-- Witness for C4: a rejected call, a completion without choices, the reply
`I cannot tell` and the reply `0` all yield `none`. -/
theorem categorizeWithAI_none_on_failure_witness :
    categorizeWithAI (fun _ => .error { message := some "quota" }) [] [] [] = "none" ∧
    categorizeWithAI (fun _ => .ok { choices := some [] }) [] [] [] = "none" ∧
    categorizeWithAI (fun _ => .ok (replyOf (utf16 "I cannot tell"))) [] [] [] = "none" ∧
    categorizeWithAI (fun _ => .ok (replyOf (utf16 "0"))) [] [] [] = "none" :=
  ⟨(categorizeWithAI_none_on_failure (fun _ => .error { message := some "quota" })
      [] [] []).2.1 _ rfl,
   (categorizeWithAI_none_on_failure (fun _ => .ok { choices := some [] })
      [] [] []).2.2.1 _ rfl rfl,
   (categorizeWithAI_none_on_failure (fun _ => .ok (replyOf (utf16 "I cannot tell")))
      [] [] []).2.2.2.1 _ (utf16 "I cannot tell") rfl rfl (by decide),
   (categorizeWithAI_none_on_failure (fun _ => .ok (replyOf (utf16 "0")))
      [] [] []).2.2.2.2 _ [] [] rfl rfl (by decide)⟩

/-- C5, counterexample: in the reply `03` the first digit in the range 1 to 9 is
`3`, which numbers the category `comment`, yet the classifier returns `none`
because the first digit character of the reply is `0`. -/
theorem categorizeWithAI_zero_first_counterexample :
    utf16 "03" = [48] ++ (48 + 3) :: [] ∧
    (∀ u ∈ [48], ¬ (49 ≤ u ∧ u ≤ 57)) ∧
    categoryNames.get? (3 - 1) = some "comment" ∧
    categorizeWithAI (fun _ => .ok (replyOf (utf16 "03"))) [] [] [] = "none" ∧
    categoryNames.get? (3 - 1) ≠
      some (categorizeWithAI (fun _ => .ok (replyOf (utf16 "03"))) [] [] []) := by
  refine ⟨rfl, by decide, rfl, rfl, by decide⟩

/-- C5, amended: for a reply that contains a digit in the range 1 to 9, let `d`
be the first such digit; the classifier returns the category numbered `d` when
no `0` occurs before it, and `none` when a `0` does. -/
theorem categorizeWithAI_first_nonzero_digit
    (groq : ChatRequest → Except JsError ChatCompletion)
    (fromEmail subject body : JsString) (response : ChatCompletion)
    (pre post : JsString) (d : Nat)
    (hcall : groq (chatRequest fromEmail subject body) = .ok response)
    (hreply : replyContent response = some (pre ++ (48 + d) :: post))
    (hpre : ∀ u ∈ pre, ¬ (49 ≤ u ∧ u ≤ 57))
    (h1 : 1 ≤ d) (h9 : d ≤ 9) :
    (48 ∉ pre →
      categoryNames.get? (d - 1) = some (categorizeWithAI groq fromEmail subject body)) ∧
    (48 ∈ pre → categorizeWithAI groq fromEmail subject body = "none") := by
  constructor
  · intro h0
    have hdigits : ∀ u ∈ pre, isDigit u = false := by
      intro u hu
      have := hpre u hu
      have hne : u ≠ 48 := fun h => h0 (h ▸ hu)
      simp only [isDigit, Bool.and_eq_false_imp, decide_eq_true_eq, decide_eq_false_iff_not]
      omega
    rw [categorizeWithAI_reply groq fromEmail subject body response _ hcall hreply,
      extractCategoryNumber_trim pre post d h9 hdigits]
    have hd : d ≠ 0 := by omega
    simp only [hd, ne_eq, not_false_eq_true, if_true]
    exact categoryMap_eq_names d h1 h9
  · intro h0
    obtain ⟨a', b', hab', hfirst⟩ : ∃ a' b', pre = a' ++ 48 :: b' ∧ 48 ∉ a' := by
      clear hreply
      induction pre with
      | nil => exact absurd h0 (List.not_mem_nil _)
      | cons x xs ih =>
        by_cases hx : x = 48
        · exact ⟨[], xs, by simp [hx], List.not_mem_nil _⟩
        · have hxs : 48 ∈ xs := by
            rcases List.mem_cons.mp h0 with h | h
            · exact absurd h.symm hx
            · exact h
          obtain ⟨a', b', hab', hf⟩ :=
            ih (fun u hu => hpre u (List.mem_cons_of_mem _ hu)) hxs
          refine ⟨x :: a', b', by simp [hab'], ?_⟩
          intro hmem
          rcases List.mem_cons.mp hmem with h | h
          · exact hx h.symm
          · exact hf h
    have hreply' : replyContent response = some (a' ++ (48 + 0) :: (b' ++ (48 + d) :: post)) := by
      rw [hreply, hab']; simp
    rw [categorizeWithAI_reply groq fromEmail subject body response _ hcall hreply',
      extractCategoryNumber_trim a' _ 0 (by omega)]
    · rfl
    · intro u hu
      have := hpre u (by rw [hab']; exact List.mem_append_left _ hu)
      have hne : u ≠ 48 := fun h => hfirst (h ▸ hu)
      simp only [isDigit, Bool.and_eq_false_imp, decide_eq_true_eq, decide_eq_false_iff_not]
      omega

/-- Witness for the amended C5: the reply `no. 3 of 10` yields `comment`, the
reply `0 or 3` yields `none`. -/
theorem categorizeWithAI_first_nonzero_digit_witness :
    categoryNames.get? (3 - 1) = some (categorizeWithAI
      (fun _ => .ok (replyOf (utf16 "no. 3 of 10"))) [] [] []) ∧
    categorizeWithAI (fun _ => .ok (replyOf (utf16 "0 or 3"))) [] [] [] = "none" :=
  ⟨(categorizeWithAI_first_nonzero_digit (fun _ => .ok (replyOf (utf16 "no. 3 of 10")))
      [] [] [] _ (utf16 "no. ") (utf16 " of 10") 3 rfl rfl (by decide) (by decide)
      (by decide)).1 (by decide),
   (categorizeWithAI_first_nonzero_digit (fun _ => .ok (replyOf (utf16 "0 or 3")))
      [] [] [] _ (utf16 "0 or ") [] 3 rfl rfl (by decide) (by decide)
      (by decide)).2 (by decide)⟩

/-! ## Lemmas on the mime text extractor -/

theorem hasTag_cons (u : Nat) (t : JsString) :
    HasTag (u :: t) ↔ (u = 60 ∧ 62 ∈ t) ∨ HasTag t := by
  constructor
  · rintro ⟨a, b, c, h⟩
    cases a with
    | nil =>
      simp only [List.nil_append, List.cons_append, List.cons.injEq] at h
      left
      refine ⟨h.1, ?_⟩
      rw [h.2]
      simp
    | cons x xs =>
      simp only [List.cons_append, List.cons.injEq] at h
      right
      exact ⟨xs, b, c, h.2⟩
  · rintro (⟨hu, hmem⟩ | ⟨a, b, c, h⟩)
    · obtain ⟨b, c, hbc⟩ := List.append_of_mem hmem
      exact ⟨[], b, c, by simp [hu, hbc]⟩
    · exact ⟨u :: a, b, c, by simp [h]⟩

theorem not_hasTag_nil : ¬ HasTag [] := by
  rintro ⟨a, b, c, h⟩
  cases a <;> simp at h

theorem HasTag.append_left {t : JsString} (a : JsString) (h : HasTag t) : HasTag (a ++ t) := by
  obtain ⟨x, y, z, hx⟩ := h
  exact ⟨a ++ x, y, z, by simp [hx]⟩

theorem HasTag.append_right {t : JsString} (a : JsString) (h : HasTag t) :
    HasTag (t ++ a) := by
  obtain ⟨x, y, z, hx⟩ := h
  exact ⟨x, y, z ++ a, by simp [hx]⟩

theorem mem_gt_replaceTagsAux (m : Bool) (s : JsString) :
    62 ∈ replaceTagsAux m s → 62 ∈ s := by
  induction s generalizing m with
  | nil => intro h; cases m <;> simp [replaceTagsAux] at h
  | cons u rest ih =>
    cases m with
    | true =>
      simp only [replaceTagsAux]
      split
      · rename_i hu; intro _; simp [hu]
      · intro h; exact List.mem_cons_of_mem _ (ih true h)
    | false =>
      simp only [replaceTagsAux]
      split
      · intro h; exact List.mem_cons_of_mem _ (ih true h)
      · intro h
        rcases List.mem_cons.mp h with h | h
        · simp [h]
        · exact List.mem_cons_of_mem _ (ih false h)

theorem replaceTagsAux_no_tag (m : Bool) (s : JsString) : ¬ HasTag (replaceTagsAux m s) := by
  induction s generalizing m with
  | nil => cases m <;> simpa [replaceTagsAux] using not_hasTag_nil
  | cons u rest ih =>
    cases m with
    | true =>
      simp only [replaceTagsAux]
      split
      · rw [hasTag_cons]
        rintro (⟨h, _⟩ | h)
        · exact absurd h (by decide)
        · exact ih false h
      · exact ih true
    | false =>
      simp only [replaceTagsAux]
      split
      · exact ih true
      · rename_i hcond
        rw [hasTag_cons]
        rintro (⟨hu, hmem⟩ | h)
        · apply hcond
          have := mem_gt_replaceTagsAux false rest hmem
          simp [hu, this]
        · exact ih false h

theorem not_whiteSpace_lt : isWhiteSpace 60 = false := by decide

theorem not_whiteSpace_gt : isWhiteSpace 62 = false := by decide

theorem mem_gt_collapse (m : Bool) (s : JsString) :
    62 ∈ collapseWhiteSpaceAux m s → 62 ∈ s := by
  induction s generalizing m with
  | nil => intro h; simp [collapseWhiteSpaceAux] at h
  | cons u rest ih =>
    simp only [collapseWhiteSpaceAux]
    split
    · split
      · intro h; exact List.mem_cons_of_mem _ (ih true h)
      · intro h
        rcases List.mem_cons.mp h with h | h
        · exact absurd h (by decide)
        · exact List.mem_cons_of_mem _ (ih true h)
    · intro h
      rcases List.mem_cons.mp h with h | h
      · simp [h]
      · exact List.mem_cons_of_mem _ (ih false h)

theorem hasTag_collapse (m : Bool) (s : JsString) :
    HasTag (collapseWhiteSpaceAux m s) → HasTag s := by
  induction s generalizing m with
  | nil => intro h; simpa [collapseWhiteSpaceAux] using h
  | cons u rest ih =>
    simp only [collapseWhiteSpaceAux]
    split
    · split
      · intro h; exact (hasTag_cons u rest).mpr (Or.inr (ih true h))
      · rw [hasTag_cons]
        rintro (⟨h, _⟩ | h)
        · exact absurd h (by decide)
        · exact (hasTag_cons u rest).mpr (Or.inr (ih true h))
    · rw [hasTag_cons, hasTag_cons]
      rintro (⟨hu, hmem⟩ | h)
      · exact Or.inl ⟨hu, mem_gt_collapse false rest hmem⟩
      · exact Or.inr (ih false h)

theorem hasTag_trim (s : JsString) : HasTag (trim s) → HasTag s := by
  intro h
  unfold trim at h
  have h1 : HasTag (s.dropWhile isWhiteSpace) := by
    rw [← trimEnd_append (s.dropWhile isWhiteSpace)]
    exact h.append_right _
  rw [← List.takeWhile_append_dropWhile isWhiteSpace s]
  exact h1.append_left _

/-- The conversion of HTML to text leaves no tag sequence. -/
theorem stripHtml_no_tag (htmlContent : JsString) : ¬ HasTag (stripHtml htmlContent) := by
  intro h
  exact replaceTagsAux_no_tag false htmlContent (hasTag_collapse false _ (hasTag_trim _ h))

theorem countPlain_mk (mimeType : Option String) (partBody : Option PartBody)
    (parts : Option (List (Option MimePart))) :
    countPlain (.mk mimeType partBody parts) =
      (if mimeType = some "text/plain" then 1 else 0) +
      (match parts with
       | some subParts => countPlainOfParts subParts
       | none => 0) := by
  cases parts <;> rfl

theorem countPlainOfParts_none (rest : List (Option MimePart)) :
    countPlainOfParts (none :: rest) = countPlainOfParts rest := rfl

theorem countPlainOfParts_some (part : MimePart) (rest : List (Option MimePart)) :
    countPlainOfParts (some part :: rest) = countPlain part + countPlainOfParts rest := rfl

theorem extractTextFromParts_mk (decode : Decoder) (body : JsString)
    (mimeType : Option String) (partBody : Option PartBody)
    (parts : Option (List (Option MimePart))) :
    extractTextFromParts decode body (.mk mimeType partBody parts) =
      match (if mimeType = some "text/plain" then inlineData partBody else none) with
      | some data =>
        match decode data with
        | .ok text => text
        | .error _ => []
      | none =>
        match (if mimeType = some "text/html" ∧ body = []
               then inlineData partBody else none) with
        | some data =>
          match decode data with
          | .ok htmlContent => stripHtml htmlContent
          | .error _ => []
        | none =>
          match parts with
          | some subParts => extractFromSubParts decode body subParts
          | none => [] := by
  cases parts <;> rfl

theorem extractFromSubParts_nil (decode : Decoder) (body : JsString) :
    extractFromSubParts decode body [] = [] := rfl

theorem extractFromSubParts_cons (decode : Decoder) (body : JsString)
    (subPart : Option MimePart) (rest : List (Option MimePart)) :
    extractFromSubParts decode body (subPart :: rest) =
      if truthy (extractFromOptionalPart decode body subPart)
      then extractFromOptionalPart decode body subPart
      else extractFromSubParts decode body rest := by
  cases subPart <;> rfl

theorem extractFromOptionalPart_none (decode : Decoder) (body : JsString) :
    extractFromOptionalPart decode body none = [] := rfl

theorem extractFromOptionalPart_some (decode : Decoder) (body : JsString) (part : MimePart) :
    extractFromOptionalPart decode body (some part) = extractTextFromParts decode body part := by
  cases part; rfl

theorem extractTextFromParts_mk_no_tag (decode : Decoder) (body : JsString)
    (mimeType : Option String) (partBody : Option PartBody)
    (parts : Option (List (Option MimePart)))
    (h : countPlain (.mk mimeType partBody parts) = 0)
    (ih : ∀ subParts, parts = some subParts → countPlainOfParts subParts = 0 →
      ¬ HasTag (extractFromSubParts decode body subParts)) :
    ¬ HasTag (extractTextFromParts decode body (.mk mimeType partBody parts)) := by
  rw [countPlain_mk] at h
  have hplain : mimeType ≠ some "text/plain" := by
    intro hm
    rw [if_pos hm] at h
    omega
  rw [if_neg hplain, Nat.zero_add] at h
  rw [extractTextFromParts_mk, if_neg hplain]
  simp only
  split
  · split
    · exact stripHtml_no_tag _
    · exact not_hasTag_nil
  · cases parts with
    | none => exact not_hasTag_nil
    | some subParts =>
      simp only
      exact ih subParts rfl h

theorem extractFromSubParts_cons_no_tag (decode : Decoder) (body : JsString)
    (subPart : Option MimePart) (rest : List (Option MimePart))
    (h : countPlainOfParts (subPart :: rest) = 0)
    (ihPart : ∀ part, subPart = some part → countPlain part = 0 →
      ¬ HasTag (extractTextFromParts decode body part))
    (ihRest : countPlainOfParts rest = 0 → ¬ HasTag (extractFromSubParts decode body rest)) :
    ¬ HasTag (extractFromSubParts decode body (subPart :: rest)) := by
  cases subPart with
  | none =>
    rw [extractFromSubParts_cons, extractFromOptionalPart_none]
    simp only [truthy, List.isEmpty_nil, Bool.not_true, Bool.false_eq_true, if_false]
    rw [countPlainOfParts_none] at h
    exact ihRest h
  | some part =>
    rw [countPlainOfParts_some] at h
    have h' : countPlain part = 0 ∧ countPlainOfParts rest = 0 := by omega
    rw [extractFromSubParts_cons, extractFromOptionalPart_some]
    split
    · exact ihPart part rfl h'.1
    · exact ihRest h'.2

mutual
theorem extractTextFromParts_no_tag (decode : Decoder) (body : JsString) :
    ∀ (part : MimePart), countPlain part = 0 →
      ¬ HasTag (extractTextFromParts decode body part)
  | .mk mimeType partBody parts, h =>
    extractTextFromParts_mk_no_tag decode body mimeType partBody parts h
      (fun subParts hp hc => by
        subst hp
        exact extractFromSubParts_no_tag decode body subParts hc)
theorem extractFromSubParts_no_tag (decode : Decoder) (body : JsString) :
    ∀ (subParts : List (Option MimePart)), countPlainOfParts subParts = 0 →
      ¬ HasTag (extractFromSubParts decode body subParts)
  | [], _ => by rw [extractFromSubParts_nil]; exact not_hasTag_nil
  | subPart :: rest, h =>
    extractFromSubParts_cons_no_tag decode body subPart rest h
      (fun part hp hc => by
        subst hp
        exact extractTextFromParts_no_tag decode body part hc)
      (fun hc => extractFromSubParts_no_tag decode body rest hc)
end

theorem payloadPartsLoop_eq (decode : Decoder) (parts : List (Option MimePart)) :
    payloadPartsLoop decode [] parts = extractFromSubParts decode [] parts := by
  induction parts with
  | nil => rfl
  | cons part rest ih =>
    rw [extractFromSubParts_cons]
    simp only [payloadPartsLoop, ih]

/-- The walk over the parts array of a payload without `text/plain` node: when
the walk yields text, the extracted body is that text and has no tag
sequence. -/
theorem extractBody_nested_html_no_tag (decode : Decoder) (payload : MimePart)
    (snippet : JsString) (parts : List (Option MimePart))
    (hparts : payload.parts = some parts) (hplain : countPlain payload = 0)
    (htext : truthy (payloadPartsLoop decode [] parts) = true) :
    ¬ HasTag (extractBody decode payload snippet) := by
  obtain ⟨mimeType, partBody, ps⟩ := payload
  simp only [MimePart.parts] at hparts
  subst hparts
  rw [countPlain_mk] at hplain
  have hc : countPlainOfParts parts = 0 := by
    simp only at hplain
    omega
  simp only [extractBody, bodyFromPayload, MimePart.parts, withFallbacks, htext, Bool.not_true,
    Bool.false_and, Bool.false_eq_true, if_false]
  rw [payloadPartsLoop_eq]
  exact extractFromSubParts_no_tag decode [] parts hc

/-! ## Theorems on the mime text extractor -/

/-- C1, evaluation at the failing input: for the payload `multipart/alternative`
with parts `text/html` (`<p>Hi</p>`) then `text/plain` (`Hello`), the only
plain text of the tree is `Hello`, yet the extracted body is the stripped HTML
`Hi`, which is the text of no `text/plain` node. -/
theorem extractBody_html_before_plain :
    plainTexts bufferDecode htmlThenPlain = [utf16 "Hello"] ∧
    extractBody bufferDecode htmlThenPlain [] = utf16 "Hi" ∧
    extractBody bufferDecode htmlThenPlain [] ∉ plainTexts bufferDecode htmlThenPlain := by
  refine ⟨rfl, rfl, ?_⟩
  decide

/-- C2, evaluation at the failing input: for the single-part payload
`text/html` with inline body `<p>Hi</p>`, a tree with one `text/html` node and
no `text/plain` node, the extracted body is the raw markup `<p>Hi</p>`, which
contains the tag sequence `<p>`. -/
theorem extractBody_top_level_html_keeps_tags :
    countHtml htmlOnly = 1 ∧ countPlain htmlOnly = 0 ∧
    extractBody bufferDecode htmlOnly [] = utf16 "<p>Hi</p>" ∧
    HasTag (extractBody bufferDecode htmlOnly []) := by
  refine ⟨rfl, rfl, rfl, ?_⟩
  exact ⟨[], [112], [72, 105, 60, 47, 112, 62], rfl⟩

/-! ## Theorems on the preconditions of the handler -/

theorem rejected_same (w : World) (error : String) : Rejected w (badRequest error, w) :=
  ⟨rfl, rfl, ⟨[], by simp, by simp⟩, rfl, rfl⟩

theorem rejected_logged (w : World) (error : String) (u : String) (a : Option String) :
    Rejected w (badRequest error, w.log (.usersSelect u a)) :=
  ⟨rfl, rfl, ⟨[.usersSelect u a], rfl, by simp [Call.isGuarded]⟩, rfl, rfl⟩

theorem credentialsOf_no_token (r : DbResult UserRow) (row : UserRow)
    (hrow : r.data = some row) (htoken : row.google_refresh_token = none) :
    credentialsOf r = none := by
  unfold credentialsOf
  rw [hrow]
  cases r.error <;> simp [htoken]

theorem credentialsOf_row (r : DbResult UserRow) (row : UserRow) (hrow : r.data = some row)
    (userData : UserRow) (token : String) (h : credentialsOf r = some (userData, token)) :
    userData = row := by
  unfold credentialsOf at h
  rw [hrow] at h
  cases herr : r.error with
  | some e => simp [herr] at h
  | none =>
    simp only [herr] at h
    cases htok : row.google_refresh_token with
    | none => simp [htok] at h
    | some t =>
      simp only [htok] at h
      split at h
      · exact absurd h (by simp)
      · simp only [Option.some.injEq, Prod.mk.injEq] at h
        exact h.1.symm

/-- C9: a request without account id, a request for an account whose row has
no refresh credential, and a request for an account whose row has tagging
disabled are each answered with status 400 and `success = false`, and the run
issues no mailbox-provider call, no classifier call and no record-store
write. -/
theorem POST_rejects_before_external_calls (env : Env) (requestData : RequestData)
    (w : World) :
    (requestData.userId = none → Rejected w (POST env requestData w)) ∧
    (∀ userId row, requestData.userId = some userId →
      (env.usersSelect w.time userId requestData.accessToken).data = some row →
      row.google_refresh_token = none → Rejected w (POST env requestData w)) ∧
    (∀ userId row, requestData.userId = some userId →
      (env.usersSelect w.time userId requestData.accessToken).data = some row →
      row.email_tagging_enabled = false → Rejected w (POST env requestData w)) := by
  refine ⟨?_, ?_, ?_⟩
  · intro h
    unfold POST
    rw [h]
    exact rejected_same w _
  · intro userId row hid hrow htoken
    unfold POST
    rw [hid]
    simp only
    split
    · exact rejected_same w _
    · rw [credentialsOf_no_token _ row hrow htoken]
      exact rejected_logged w _ _ _
  · intro userId row hid hrow hflag
    unfold POST
    rw [hid]
    simp only
    split
    · exact rejected_same w _
    · cases hcred : credentialsOf (env.usersSelect w.time userId requestData.accessToken) with
      | none => exact rejected_logged w _ _ _
      | some pair =>
        obtain ⟨userData, token⟩ := pair
        have hsame := credentialsOf_row _ row hrow userData token hcred
        simp only [hsame, hflag, Bool.not_false, if_true]
        exact rejected_logged w _ _ _

/-- Witness for C9: a request without account id, a request for an account
without refresh credential and a request for an account with tagging disabled
are rejected. -/
theorem POST_rejects_before_external_calls_witness :
    Rejected emptyWorld (POST (healthyEnv [⟨"msg-1"⟩]) { userId := none } emptyWorld) ∧
    Rejected emptyWorld (POST noCredentialEnv { userId := some "user-1" } emptyWorld) ∧
    Rejected emptyWorld (POST taggingOffEnv { userId := some "user-1" } emptyWorld) :=
  ⟨(POST_rejects_before_external_calls (healthyEnv [⟨"msg-1"⟩]) { userId := none }
      emptyWorld).1 rfl,
   (POST_rejects_before_external_calls noCredentialEnv { userId := some "user-1" }
      emptyWorld).2.1 "user-1" _ rfl rfl rfl,
   (POST_rejects_before_external_calls taggingOffEnv { userId := some "user-1" }
      emptyWorld).2.2 "user-1" _ rfl rfl rfl⟩

/-! ## Theorems on the label reconciler -/

/-- Reconciliation of categories that are all missing, every creation
succeeding: one creation per category, in catalog order. -/
theorem reconcileLabels_all_created (env : Env) (client : GmailClient) (std : Bool) (ex : Obj)
    (hcreate : ∀ t c r, env.labelsCreateError t c r = none) :
    ∀ (cat : List (String × LabelColor)) (m : Obj) (w : World),
    (∀ p ∈ cat, ex.getTruthy ("Amurex/" ++ p.1) = none) →
    reconcileLabels env client std ex cat m w =
      (some ((createdFrom w.nextLabelId cat).foldl (fun o p => o.set p.1 p.2) m),
       afterCreation client std cat w) := by
  intro cat
  induction cat with
  | nil => intro m w _; simp [reconcileLabels, createdFrom, afterCreation]
  | cons p rest ih =>
    intro m w hmissing
    obtain ⟨n, c⟩ := p
    have hn : ex.getTruthy ("Amurex/" ++ n) = none := hmissing (n, c) (List.mem_cons_self _ _)
    have hrest : ∀ p ∈ rest, ex.getTruthy ("Amurex/" ++ p.1) = none :=
      fun p hp => hmissing p (List.mem_cons_of_mem _ hp)
    simp only [reconcileLabels, reconcileLabel, hn, labelsCreate, hcreate]
    rw [ih _ _ hrest]
    simp [createdFrom, afterCreation, World.log, Nat.add_assoc, Nat.add_comm 1, firstRequest]

theorem label_id_ne_empty (k : Nat) : "Label_" ++ toString k ≠ "" := by
  intro h
  have h2 := congrArg String.data h
  rw [String.data_append] at h2
  exact absurd (congrArg List.length h2) (by simp [String.data])

theorem countP_create_map (client : GmailClient) (f : String × LabelColor → CreateLabelRequest)
    (cat : List (String × LabelColor)) :
    (cat.map (fun p => Call.labelsCreate client (f p))).countP Call.isLabelsCreate
      = cat.length := by
  induction cat with
  | nil => rfl
  | cons p rest ih => simp [List.countP_cons, Call.isLabelsCreate, ih]

/-- Reconciliation against a mailbox that holds exactly the nine namespaced
labels: every id is reused and nothing but the listing is issued. -/
theorem reconcile_all_present (env : Env) (client : GmailClient) (std : Bool) (w : World)
    (i1 i2 i3 i4 i5 i6 i7 i8 i9 : String)
    (h1 : i1 ≠ "") (h2 : i2 ≠ "") (h3 : i3 ≠ "") (h4 : i4 ≠ "") (h5 : i5 ≠ "")
    (h6 : i6 ≠ "") (h7 : i7 ≠ "") (h8 : i8 ≠ "") (h9 : i9 ≠ "")
    (hlabels : w.labels = [⟨i1, "Amurex/to respond"⟩, ⟨i2, "Amurex/FYI"⟩,
      ⟨i3, "Amurex/comment"⟩, ⟨i4, "Amurex/notification"⟩, ⟨i5, "Amurex/meeting update"⟩,
      ⟨i6, "Amurex/awaiting reply"⟩, ⟨i7, "Amurex/actioned"⟩, ⟨i8, "Amurex/promotions"⟩,
      ⟨i9, "Amurex/none"⟩])
    (hlist : ∀ t c, env.labelsListError t c = none) :
    reconcile env client std w =
      (.ok (some [("to respond", i1), ("FYI", i2), ("comment", i3), ("notification", i4),
        ("meeting update", i5), ("awaiting reply", i6), ("actioned", i7),
        ("promotions", i8), ("none", i9)]), w.log (.labelsList client)) := by
  simp [reconcile, hlist, hlabels, reconcileLabels, reconcileLabel, existingLabelsOf, Obj.set,
    Obj.getTruthy, Obj.get, GMAIL_COLORS, Option.filter, h1, h2, h3, h4, h5, h6, h7, h8, h9]

/-- The first run of reconciliation against a mailbox without labels, every
call succeeding. -/
theorem reconcile_first_run (env : Env) (client : GmailClient) (std : Bool) (w : World)
    (hempty : w.labels = [])
    (hlist : ∀ t c, env.labelsListError t c = none)
    (hcreate : ∀ t c r, env.labelsCreateError t c r = none) :
    reconcile env client std w =
      (.ok (some ((createdFrom w.nextLabelId GMAIL_COLORS).foldl
          (fun o p => o.set p.1 p.2) [])),
       afterCreation client std GMAIL_COLORS (w.log (.labelsList client))) := by
  have hmissing : ∀ p ∈ GMAIL_COLORS,
      (existingLabelsOf w.labels).getTruthy ("Amurex/" ++ p.1) = none := by
    intro p _
    simp [hempty, existingLabelsOf, Obj.getTruthy, Obj.get]
  simp only [reconcile, hlist]
  rw [reconcileLabels_all_created env client std _ hcreate GMAIL_COLORS []
    (w.log (.labelsList client)) hmissing]
  rfl

/-- C10: against a mailbox that initially has no labels, with every listing
and creation succeeding, the first reconciliation issues exactly 9 creation
requests, the second one issues none, and both return the same mapping, which
covers the nine categories. -/
theorem reconcile_twice_same_mapping (env : Env) (client : GmailClient) (std1 std2 : Bool)
    (w : World) (hempty : w.labels = [])
    (hlist : ∀ t c, env.labelsListError t c = none)
    (hcreate : ∀ t c r, env.labelsCreateError t c r = none) :
    ∃ mapping,
      (reconcile env client std1 w).1 = .ok (some mapping) ∧
      (reconcile env client std2 (reconcile env client std1 w).2).1 = .ok (some mapping) ∧
      mapping.map Prod.fst = categoryNames ∧
      ((reconcile env client std1 w).2.trace.drop w.trace.length).countP
        Call.isLabelsCreate = 9 ∧
      ((reconcile env client std2 (reconcile env client std1 w).2).2.trace.drop
        (reconcile env client std1 w).2.trace.length).countP Call.isLabelsCreate = 0 := by
  rw [reconcile_first_run env client std1 w hempty hlist hcreate]
  have hsecond := reconcile_all_present env client std2
    (afterCreation client std1 GMAIL_COLORS (w.log (.labelsList client)))
    _ _ _ _ _ _ _ _ _
    (label_id_ne_empty w.nextLabelId) (label_id_ne_empty (w.nextLabelId + 1))
    (label_id_ne_empty (w.nextLabelId + 1 + 1)) (label_id_ne_empty (w.nextLabelId + 1 + 1 + 1))
    (label_id_ne_empty (w.nextLabelId + 1 + 1 + 1 + 1))
    (label_id_ne_empty (w.nextLabelId + 1 + 1 + 1 + 1 + 1))
    (label_id_ne_empty (w.nextLabelId + 1 + 1 + 1 + 1 + 1 + 1))
    (label_id_ne_empty (w.nextLabelId + 1 + 1 + 1 + 1 + 1 + 1 + 1))
    (label_id_ne_empty (w.nextLabelId + 1 + 1 + 1 + 1 + 1 + 1 + 1 + 1))
    (by simp [afterCreation, World.log, hempty, createdFrom, GMAIL_COLORS]) hlist
  rw [hsecond]
  refine ⟨_, rfl, ?_, ?_, ?_, ?_⟩
  · simp [createdFrom, GMAIL_COLORS, Obj.set, World.log]
  · simp [createdFrom, GMAIL_COLORS, Obj.set, categoryNames]
  · simp only [afterCreation, World.log, List.append_assoc, List.drop_left]
    rw [List.countP_append, countP_create_map]
    rfl
  · simp only [World.log, List.drop_left]
    rfl

/-- Witness for C10: two reconciliations in a row from the world without
labels, in the environment where every call succeeds. -/
theorem reconcile_twice_same_mapping_witness :
    ∃ mapping,
      (reconcile (healthyEnv []) sampleClient false emptyWorld).1 = .ok (some mapping) ∧
      (reconcile (healthyEnv []) sampleClient false
        (reconcile (healthyEnv []) sampleClient false emptyWorld).2).1 = .ok (some mapping) ∧
      mapping.map Prod.fst = categoryNames ∧
      ((reconcile (healthyEnv []) sampleClient false emptyWorld).2.trace.drop
        emptyWorld.trace.length).countP Call.isLabelsCreate = 9 ∧
      ((reconcile (healthyEnv []) sampleClient false
        (reconcile (healthyEnv []) sampleClient false emptyWorld).2).2.trace.drop
        (reconcile (healthyEnv []) sampleClient false emptyWorld).2.trace.length).countP
          Call.isLabelsCreate = 0 :=
  reconcile_twice_same_mapping (healthyEnv []) sampleClient false false emptyWorld rfl
    (fun _ _ => rfl) (fun _ _ _ => rfl)

/-! ## Theorems on the email record store -/

theorem rowsFor_append (a b : List EmailRow) (u m : String) :
    rowsFor (a ++ b) u m = rowsFor a u m ++ rowsFor b u m := by
  simp [rowsFor]

theorem rowsFor_single_same (row : EmailRow) :
    rowsFor [row] row.user_id row.message_id = [row] := by
  simp [rowsFor]

theorem rowsFor_single_other (row : EmailRow) (u m : String)
    (h : ¬ (row.user_id = u ∧ row.message_id = m)) : rowsFor [row] u m = [] := by
  simp only [rowsFor, List.filter_cons, List.filter_nil]
  simp [h]

/-- The store operation when its existence check answers exactly one row. -/
theorem store_existing (env : Env) (u m t : String) (sender subject content : JsString)
    (receivedAt : Option Int) (isRead : Bool) (snippet : JsString) (w : World)
    (row : EmailRow) (hrow : rowsFor w.emails u m = [row])
    (hcheck : env.emailsSelectOneFails w.time u m = false) :
    storeEmailInDatabase env u m t sender subject content receivedAt isRead snippet w =
      (.ok false, w.log (.emailsSelectOne u m)) := by
  simp [storeEmailInDatabase, hrow, hcheck, maybeSingle]

/-- The store operation when its existence check answers no row and the
received date is valid: an insert is issued; a second one follows when the
first fails with an error that mentions an optional column. -/
theorem store_absent (env : Env) (u m t : String) (sender subject content : JsString)
    (received : Int) (isRead : Bool) (snippet : JsString) (w : World)
    (habsent : env.emailsSelectOneFails w.time u m = true ∨ rowsFor w.emails u m = [] ∨
      2 ≤ (rowsFor w.emails u m).length) :
    ∃ w', storeEmailInDatabase env u m t sender subject content (some received) isRead
        snippet w = (.ok true, w') ∧
      w'.labels = w.labels ∧ w'.nextLabelId = w.nextLabelId ∧
      (∃ rest, w'.trace = w.trace ++ .emailsSelectOne u m ::
        .emailsInsert (emailDataOf u m t sender subject content received
          (env.now (w.time + 1)) isRead snippet) :: rest ∧
        (rest = [] ∨ rest = [.emailsInsert (emailDataOf u m t sender subject content received
          (env.now (w.time + 1)) isRead snippet)])) ∧
      (w'.emails = w.emails ∨
       w'.emails = w.emails ++ [emailDataOf u m t sender subject content received
          (env.now (w.time + 1)) isRead snippet]) ∧
      (env.emailsInsertError (w.time + 1) (emailDataOf u m t sender subject content received
          (env.now (w.time + 1)) isRead snippet) = none →
        w'.emails = w.emails ++ [emailDataOf u m t sender subject content received
          (env.now (w.time + 1)) isRead snippet]) := by
  have hex : (if env.emailsSelectOneFails w.time u m = true then none
      else maybeSingle (rowsFor w.emails u m)) = none := by
    rcases habsent with h | h | h
    · simp [h]
    · simp [h, maybeSingle]
    · split
      · rfl
      · match hr : rowsFor w.emails u m, h with
        | [], h => simp at h
        | [_], h => simp at h
        | _ :: _ :: _, _ => simp [maybeSingle]
  have htime : (w.log (.emailsSelectOne u m)).time = w.time + 1 := by
    simp [World.log, World.time]
  simp only [storeEmailInDatabase, hex, htime, emailsInsert]
  cases hins : env.emailsInsertError (w.time + 1) (emailDataOf u m t sender subject content
      received (env.now (w.time + 1)) isRead snippet) with
  | none =>
    refine ⟨_, rfl, rfl, rfl, ⟨[], ?_, Or.inl rfl⟩, Or.inr ?_, fun _ => ?_⟩ <;>
      simp [World.log]
  | some e =>
    by_cases hm : mentionsOptionalColumn e = true
    · simp only [hm, if_true]
      cases hins2 : env.emailsInsertError
          ((w.log (.emailsSelectOne u m)).log (.emailsInsert (emailDataOf u m t sender subject
            content received (env.now (w.time + 1)) isRead snippet))).time
          (emailDataOf u m t sender subject content received (env.now (w.time + 1))
            isRead snippet) with
      | none =>
        refine ⟨_, rfl, rfl, rfl, ⟨[_], ?_, Or.inr rfl⟩, Or.inr ?_, fun h => ?_⟩ <;>
          simp [World.log] at *
      | some e2 =>
        refine ⟨_, rfl, rfl, rfl, ⟨[_], ?_, Or.inr rfl⟩, Or.inl ?_, fun h => ?_⟩ <;>
          simp [World.log] at *
    · simp only [hm, Bool.false_eq_true, if_false]
      refine ⟨_, rfl, rfl, rfl, ⟨[], ?_, Or.inl rfl⟩, Or.inl ?_, fun h => ?_⟩ <;>
        simp [World.log] at *

/-- The store operation on an invalid received date, no row being found: the
exception of `toISOString` leaves the table as it is. -/
theorem store_invalid_date (env : Env) (u m t : String) (sender subject content : JsString)
    (isRead : Bool) (snippet : JsString) (w : World) :
    (storeEmailInDatabase env u m t sender subject content none isRead snippet w).2.emails
      = w.emails := by
  simp only [storeEmailInDatabase]
  split <;> rfl

/-- The store operation keeps the invariant `at most one record per pair`
whenever its existence check answers. -/
theorem store_at_most_one (env : Env) (u m t : String) (sender subject content : JsString)
    (receivedAt : Option Int) (isRead : Bool) (snippet : JsString) (w : World)
    (hcheck : env.emailsSelectOneFails w.time u m = false)
    (hinv : (rowsFor w.emails u m).length ≤ 1) :
    (rowsFor (storeEmailInDatabase env u m t sender subject content receivedAt isRead
      snippet w).2.emails u m).length ≤ 1 := by
  match hr : rowsFor w.emails u m with
  | [row] =>
    rw [store_existing env u m t sender subject content receivedAt isRead snippet w row hr
      hcheck]
    simp [World.log, hr]
  | [] =>
    cases receivedAt with
    | none => rw [store_invalid_date]; simp [hr]
    | some received =>
      obtain ⟨w', hw', _, _, _, hemails, _⟩ := store_absent env u m t sender subject content
        received isRead snippet w (Or.inr (Or.inl hr))
      rw [hw']
      rcases hemails with h | h
      · simp [h, hr]
      · simp only [h, rowsFor_append, hr, List.nil_append]
        exact (List.length_filter_le _ _).trans (by simp)
  | _ :: _ :: _ => rw [hr] at hinv; simp at hinv


/-- C7, counterexample: with inserts that fail, the store operation run twice
on an empty store issues an insert and returns `true` both times and leaves no
record for the pair; with an existence check that fails, the operation run on
a store that holds a record for the pair issues an insert, returns `true` and
leaves two records for the pair. -/
theorem store_repeat_counterexample :
    (storeSample (insertFailingEnv []) emptyWorld).1 = .ok true ∧
    (storeSample (insertFailingEnv []) (storeSample (insertFailingEnv []) emptyWorld).2).1
      = .ok true ∧
    rowsFor (storeSample (insertFailingEnv [])
      (storeSample (insertFailingEnv []) emptyWorld).2).2.emails "user-1" "msg-1" = [] ∧
    (rowsFor (storeSample (healthyEnv []) emptyWorld).2.emails "user-1" "msg-1").length = 1 ∧
    (storeSample (checkFailingEnv []) (storeSample (healthyEnv []) emptyWorld).2).1
      = .ok true ∧
    (rowsFor (storeSample (checkFailingEnv [])
      (storeSample (healthyEnv []) emptyWorld).2).2.emails "user-1" "msg-1").length = 2 := by
  refine ⟨rfl, rfl, rfl, rfl, rfl, rfl⟩

/-- C7, amended: provided the existence check answers, the store operation
performs no insert, leaves the table unchanged and returns `false` when exactly
one record for the pair exists; when none exists (and the received date is
valid) it issues an insert of the full record for the pair and returns `true`,
and the record is in the table when that insert succeeds; repeating the
operation for the same pair leaves at most one record for the pair, and once a
record exists the repetition changes nothing. -/
theorem storeEmailInDatabase_insert_if_absent (env : Env) (u m t : String)
    (sender subject content : JsString) (received : Int) (isRead : Bool)
    (snippet : JsString) (w : World)
    (hcheck : env.emailsSelectOneFails w.time u m = false) :
    (∀ row, rowsFor w.emails u m = [row] →
      storeEmailInDatabase env u m t sender subject content (some received) isRead snippet w
        = (.ok false, w.log (.emailsSelectOne u m))) ∧
    (rowsFor w.emails u m = [] →
      (storeEmailInDatabase env u m t sender subject content (some received) isRead
        snippet w).1 = .ok true ∧
      Call.emailsInsert (emailDataOf u m t sender subject content received
          (env.now (w.time + 1)) isRead snippet) ∈
        (storeEmailInDatabase env u m t sender subject content (some received) isRead
          snippet w).2.trace ∧
      (env.emailsInsertError (w.time + 1) (emailDataOf u m t sender subject content received
          (env.now (w.time + 1)) isRead snippet) = none →
        rowsFor (storeEmailInDatabase env u m t sender subject content (some received) isRead
          snippet w).2.emails u m = [emailDataOf u m t sender subject content received
            (env.now (w.time + 1)) isRead snippet])) ∧
    (∀ t' sender' subject' content' receivedAt' isRead' snippet',
      (rowsFor w.emails u m).length ≤ 1 →
      env.emailsSelectOneFails (storeEmailInDatabase env u m t sender subject content
        (some received) isRead snippet w).2.time u m = false →
      (rowsFor (storeEmailInDatabase env u m t' sender' subject' content' receivedAt' isRead'
        snippet' (storeEmailInDatabase env u m t sender subject content (some received) isRead
          snippet w).2).2.emails u m).length ≤ 1 ∧
      (rowsFor (storeEmailInDatabase env u m t sender subject content (some received) isRead
          snippet w).2.emails u m ≠ [] →
        (storeEmailInDatabase env u m t' sender' subject' content' receivedAt' isRead'
          snippet' (storeEmailInDatabase env u m t sender subject content (some received)
            isRead snippet w).2).2.emails =
        (storeEmailInDatabase env u m t sender subject content (some received) isRead
          snippet w).2.emails)) := by
  refine ⟨?_, ?_, ?_⟩
  · intro row hrow
    exact store_existing env u m t sender subject content (some received) isRead snippet w
      row hrow hcheck
  · intro habsent
    obtain ⟨w', hw', _, _, ⟨rest, htrace, _⟩, _, hins⟩ := store_absent env u m t sender
      subject content received isRead snippet w (Or.inr (Or.inl habsent))
    rw [hw']
    refine ⟨rfl, ?_, ?_⟩
    · simp only [htrace]
      simp
    · intro hok
      simp only [hins hok, rowsFor_append, habsent, List.nil_append]
      simp [rowsFor, emailDataOf]
  · intro t' sender' subject' content' receivedAt' isRead' snippet' hinv hcheck'
    have hone := store_at_most_one env u m t sender subject content (some received) isRead
      snippet w hcheck hinv
    refine ⟨store_at_most_one env u m t' sender' subject' content' receivedAt' isRead'
      snippet' _ hcheck' hone, ?_⟩
    intro hne
    match hr : rowsFor (storeEmailInDatabase env u m t sender subject content (some received)
        isRead snippet w).2.emails u m with
    | [] => exact absurd hr hne
    | [row] =>
      rw [store_existing env u m t' sender' subject' content' receivedAt' isRead' snippet' _
        row hr hcheck']
      rfl
    | _ :: _ :: _ => rw [hr] at hone; simp at hone

/-- Witness for the amended C7: on the empty store the operation inserts the
record of `msg-1`; run again, it finds the record, returns `false` and leaves
the table unchanged. -/
theorem storeEmailInDatabase_insert_if_absent_witness :
    rowsFor (storeSample (healthyEnv []) emptyWorld).2.emails "user-1" "msg-1" =
      [emailDataOf "user-1" "msg-1" "thread-1" (utf16 "a@example.com") (utf16 "Greetings")
        (utf16 "Hello") 1700000000000 1800000000001 false (utf16 "Hello")] ∧
    (storeSample (healthyEnv []) (storeSample (healthyEnv []) emptyWorld).2).2.emails =
      (storeSample (healthyEnv []) emptyWorld).2.emails :=
  ⟨(storeEmailInDatabase_insert_if_absent (healthyEnv []) "user-1" "msg-1" "thread-1"
      (utf16 "a@example.com") (utf16 "Greetings") (utf16 "Hello") 1700000000000 false
      (utf16 "Hello") emptyWorld rfl).2.1 rfl |>.2.2 rfl,
   ((storeEmailInDatabase_insert_if_absent (healthyEnv []) "user-1" "msg-1" "thread-1"
      (utf16 "a@example.com") (utf16 "Greetings") (utf16 "Hello") 1700000000000 false
      (utf16 "Hello") emptyWorld rfl).2.2 "thread-1" (utf16 "a@example.com")
      (utf16 "Greetings") (utf16 "Hello") (some 1700000000000) false (utf16 "Hello")
      (by decide) rfl).2 (by decide)⟩

/-! ## Lemmas on the processing loop -/

theorem Grows.grows_refl (u : String) (ids : List String) (w : World) : Grows u ids w w :=
  ⟨rfl, [], [], by simp, by simp, by simp, by simp⟩

theorem Grows.grows_trans {u : String} {ids : List String} {w1 w2 w3 : World}
    (h12 : Grows u ids w1 w2) (h23 : Grows u ids w2 w3) : Grows u ids w1 w3 := by
  obtain ⟨hl1, e1, a1, ht1, he1, hi1, ha1⟩ := h12
  obtain ⟨hl2, e2, a2, ht2, he2, hi2, ha2⟩ := h23
  refine ⟨hl2.trans hl1, e1 ++ e2, a1 ++ a2, ?_, ?_, ?_, ?_⟩
  · rw [ht2, ht1, List.append_assoc]
  · rw [he2, he1, List.append_assoc]
  · intro row hrow
    rcases List.mem_append.mp hrow with h | h
    · exact hi1 row h
    · exact hi2 row h
  · intro row hrow
    rcases List.mem_append.mp hrow with h | h
    · exact ha1 row h
    · exact ha2 row h

theorem Grows.grows_mono {u : String} {ids ids' : List String} {w1 w2 : World}
    (h : Grows u ids w1 w2) (hsub : ∀ i ∈ ids, i ∈ ids') : Grows u ids' w1 w2 := by
  obtain ⟨hl, e, a, ht, he, hi, ha⟩ := h
  exact ⟨hl, e, a, ht, he, fun row hr => ⟨(hi row hr).1, hsub _ (hi row hr).2⟩,
    fun row hr => ⟨(ha row hr).1, hsub _ (ha row hr).2⟩⟩

theorem Grows.grows_log (u : String) (ids : List String) (w : World) (c : Call)
    (hc : ∀ row, c ≠ .emailsInsert row) : Grows u ids w (w.log c) := by
  refine ⟨rfl, [c], [], rfl, by simp [World.log], ?_, by simp⟩
  intro row hrow
  simp only [List.mem_singleton] at hrow
  exact absurd hrow.symm (hc row)

theorem emailsInsert_grows (env : Env) (row : EmailRow) (w : World) :
    Grows row.user_id [row.message_id] w (emailsInsert env row w).2 := by
  unfold emailsInsert
  split
  · refine ⟨rfl, [.emailsInsert row], [], rfl, by simp [World.log], ?_, by simp⟩
    intro r hr
    simp only [List.mem_singleton, Call.emailsInsert.injEq] at hr
    simp [hr]
  · refine ⟨rfl, [.emailsInsert row], [row], rfl, rfl, ?_, by simp⟩
    intro r hr
    simp only [List.mem_singleton, Call.emailsInsert.injEq] at hr
    simp [hr]

theorem store_grows (env : Env) (u m t : String) (sender subject content : JsString)
    (receivedAt : Option Int) (isRead : Bool) (snippet : JsString) (w : World) :
    Grows u [m] w (storeEmailInDatabase env u m t sender subject content receivedAt isRead
      snippet w).2 := by
  have hlog : Grows u [m] w (w.log (.emailsSelectOne u m)) :=
    Grows.grows_log u [m] w _ (by intro row h; cases h)
  unfold storeEmailInDatabase
  simp only
  split
  · exact hlog
  · split
    · exact hlog
    · rename_i received
      have h1 := emailsInsert_grows env (emailDataOf u m t sender subject content received
        (env.now (w.log (.emailsSelectOne u m)).time) isRead snippet)
        (w.log (.emailsSelectOne u m))
      split
      · rename_i w' heq
        rw [heq] at h1
        exact hlog.grows_trans h1
      · rename_i e w' heq
        rw [heq] at h1
        split
        · exact hlog.grows_trans (h1.grows_trans (emailsInsert_grows env _ w'))
        · exact hlog.grows_trans h1

theorem ResultsExtend.extend_refl (ids : List String) (acc : LoopState) : ResultsExtend ids acc acc :=
  ⟨[], by simp, by simp⟩

theorem ResultsExtend.extend_trans {ids : List String} {a b c : LoopState}
    (h1 : ResultsExtend ids a b) (h2 : ResultsExtend ids b c) : ResultsExtend ids a c := by
  obtain ⟨e1, hr1, hm1⟩ := h1
  obtain ⟨e2, hr2, hm2⟩ := h2
  refine ⟨e1 ++ e2, by rw [hr2, hr1, List.append_assoc], ?_⟩
  intro e he
  rcases List.mem_append.mp he with h | h
  · exact hm1 e h
  · exact hm2 e h

theorem ResultsExtend.extend_mono {ids ids' : List String} {a b : LoopState}
    (h : ResultsExtend ids a b) (hsub : ∀ i ∈ ids, i ∈ ids') : ResultsExtend ids' a b := by
  obtain ⟨es, hr, hm⟩ := h
  exact ⟨es, hr, fun e he => hsub _ (hm e he)⟩

theorem storeAndCount_spec (env : Env) (u m t : String) (sender subject content : JsString)
    (receivedAt : Option Int) (isRead : Bool) (snippet : JsString) (acc : LoopState)
    (w : World) :
    Grows u [m] w (storeAndCount env u m t sender subject content receivedAt isRead snippet
      acc w).2 ∧
    (storeAndCount env u m t sender subject content receivedAt isRead snippet
      acc w).1.results = acc.results := by
  have h := store_grows env u m t sender subject content receivedAt isRead snippet w
  unfold storeAndCount
  split
  · rename_i w' heq
    rw [heq] at h
    exact ⟨h, rfl⟩
  · rename_i r w' hne heq
    rw [heq] at h
    exact ⟨h, rfl⟩

theorem classifyAndLabel_spec (env : Env) (client : GmailClient) (amurexLabels : Obj)
    (u : String) (messageId : String) (fromEmail subject body : JsString) (acc : LoopState)
    (w : World) :
    Grows u [messageId] w (classifyAndLabel env client amurexLabels messageId fromEmail
      subject body acc w).2 ∧
    ∀ acc', (classifyAndLabel env client amurexLabels messageId fromEmail subject body
      acc w).1 = .ok acc' → ResultsExtend [messageId] acc acc' := by
  have hlog : Grows u [messageId] w
      (w.log (.chatCompletion (chatRequest fromEmail subject (truncateBody body)))) :=
    Grows.grows_log u _ w _ (by intro row h; cases h)
  unfold classifyAndLabel
  simp only
  split
  · rename_i labelId _
    have hlog2 := hlog.grows_trans (Grows.grows_log u [messageId]
      (w.log (.chatCompletion (chatRequest fromEmail subject (truncateBody body))))
      (.messagesModify client messageId [labelId]) (by intro row h; cases h))
    split
    · exact ⟨hlog2, fun acc' h => by cases h⟩
    · refine ⟨hlog2, fun acc' h => ?_⟩
      simp only [Except.ok.injEq] at h
      subst h
      exact ⟨[_], rfl, by simp⟩
  · refine ⟨hlog, fun acc' h => ?_⟩
    simp only [Except.ok.injEq] at h
    subst h
    exact ⟨[_], rfl, by simp⟩

theorem processMessage_spec (env : Env) (client : GmailClient) (u : String)
    (amurexLabels : Obj) (sc : Bool) (message : MessageStub) (acc : LoopState) (w : World) :
    Grows u [message.id] w (processMessage env client u amurexLabels sc message acc w).2 ∧
    ∀ acc', (processMessage env client u amurexLabels sc message acc w).1 = .ok acc' →
      ResultsExtend [message.id] acc acc' := by
  have hlog : Grows u [message.id] w (w.log (.messagesGet client message.id)) :=
    Grows.grows_log u _ w _ (by intro row h; cases h)
  unfold processMessage
  split
  · exact ⟨hlog, fun acc' h => by cases h⟩
  · rename_i fullMessage _
    simp only
    split
    · exact ⟨hlog, fun acc' h => by cases h⟩
    · rename_i labelIds _
      split
      · refine ⟨hlog.grows_trans (storeAndCount_spec env u message.id _ _ _ _ _ _ _ _ _).1,
          fun acc' h => ?_⟩
        simp only [Except.ok.injEq] at h
        subst h
        exact ⟨[_], (storeAndCount_spec env u message.id _ _ _ _ _ _ _ _ _).2, by simp⟩
      · split
        · rename_i hclass
          split at hclass
          · have hc := classifyAndLabel_spec env client amurexLabels u message.id
              (headerOr fullMessage.headers "From" (utf16 "Unknown"))
              (headerOr fullMessage.headers "Subject" (utf16 "(No Subject)"))
              (extractBody env.decode fullMessage.payload fullMessage.snippet) acc
              (w.log (.messagesGet client message.id))
            rw [hclass] at hc
            exact ⟨hlog.grows_trans hc.1, fun acc' h => by cases h⟩
          · cases hclass
        · rename_i acc1 w1 hclass
          have hc : Grows u [message.id] (w.log (.messagesGet client message.id)) w1 ∧
              ResultsExtend [message.id] acc acc1 := by
            split at hclass
            · have hc := classifyAndLabel_spec env client amurexLabels u message.id
                (headerOr fullMessage.headers "From" (utf16 "Unknown"))
                (headerOr fullMessage.headers "Subject" (utf16 "(No Subject)"))
                (extractBody env.decode fullMessage.payload fullMessage.snippet) acc
                (w.log (.messagesGet client message.id))
              rw [hclass] at hc
              exact ⟨hc.1, hc.2 acc1 rfl⟩
            · simp only [Prod.mk.injEq, Except.ok.injEq] at hclass
              rw [← hclass.1, ← hclass.2]
              exact ⟨Grows.grows_refl _ _ _, ResultsExtend.extend_refl _ _⟩
          refine ⟨hlog.grows_trans (hc.1.grows_trans
            (storeAndCount_spec env u message.id _ _ _ _ _ _ _ _ w1).1), fun acc' h => ?_⟩
          simp only [Except.ok.injEq] at h
          subst h
          obtain ⟨es, hes, hmem⟩ := hc.2
          exact ⟨es, by rw [(storeAndCount_spec env u message.id _ _ _ _ _ _ _ _ w1).2, hes],
            hmem⟩

theorem processMessages_spec (env : Env) (client : GmailClient) (u : String)
    (amurexLabels : Obj) (cc : Nat) :
    ∀ (messages : List MessageStub) (i : Nat) (acc : LoopState) (w : World),
    Grows u (messages.map MessageStub.id) w
      (processMessages env client u amurexLabels cc i messages acc w).2 ∧
    ∀ acc', (processMessages env client u amurexLabels cc i messages acc w).1 = .ok acc' →
      ResultsExtend (messages.map MessageStub.id) acc acc' := by
  intro messages
  induction messages with
  | nil =>
    intro i acc w
    refine ⟨Grows.grows_refl _ _ _, fun acc' h => ?_⟩
    simp only [processMessages, Except.ok.injEq] at h
    subst h
    exact ResultsExtend.extend_refl _ _
  | cons message rest ih =>
    intro i acc w
    have hstep := processMessage_spec env client u amurexLabels (decide (i < cc)) message acc w
    have hsub1 : ∀ x ∈ [message.id], x ∈ (message :: rest).map MessageStub.id := by
      intro x hx; simp only [List.mem_singleton] at hx; simp [hx]
    have hsub2 : ∀ x ∈ rest.map MessageStub.id, x ∈ (message :: rest).map MessageStub.id := by
      intro x hx; simp only [List.map_cons, List.mem_cons]; exact Or.inr hx
    unfold processMessages
    split
    · rename_i acc1 w1 heq
      rw [heq] at hstep
      have hrest := ih (i + 1) acc1 w1
      refine ⟨(hstep.1.grows_mono hsub1).grows_trans (hrest.1.grows_mono hsub2), fun acc' h => ?_⟩
      exact ((hstep.2 acc1 rfl).extend_mono hsub1).extend_trans ((hrest.2 acc' h).extend_mono hsub2)
    · rename_i e w1 heq
      rw [heq] at hstep
      exact ⟨hstep.1.grows_mono hsub1, fun acc' h => by cases h⟩

/-! ## Theorems on deduplication -/

theorem contains_processed_iff (env : Env) (u : String) (w : World)
    (hlookup : env.emailsSelectIdsError w.time u = none) (id : String) :
    (processedMessageIds env u w).contains id = isStored w.emails u id := by
  simp only [processedMessageIds, hlookup, isStored]
  rw [Bool.eq_iff_iff]
  simp only [List.contains_iff_exists_mem_beq, List.mem_map, List.mem_filter,
    decide_eq_true_eq, beq_iff_eq, List.any_eq_true, Bool.decide_and, Bool.and_eq_true]
  constructor
  · rintro ⟨x, ⟨r, ⟨hr, hu⟩, rfl⟩, hx⟩
    exact ⟨r, hr, hu, hx.symm⟩
  · rintro ⟨r, hr, hu, hm⟩
    exact ⟨r.message_id, ⟨r, ⟨hr, hu⟩, rfl⟩, hm.symm⟩

theorem filterNew_eq (env : Env) (u : String) (w : World)
    (hlookup : env.emailsSelectIdsError w.time u = none) (messages : List MessageStub) :
    filterNew (processedMessageIds env u w) messages =
      messages.filter (fun m => !isStored w.emails u m.id) := by
  unfold filterNew
  congr 1
  funext m
  rw [contains_processed_iff env u w hlookup]

/-- C6, counterexample: the store holds the record of `msg-1` for `user-1`, the
mailbox lists `msg-1`, and the query for the stored ids fails. No listed
message is new, yet the invocation answers `total_found = 1` and has an entry
for `msg-1` in `results`. -/
theorem POST_lookup_failure_counterexample :
    isStored storedWorld.emails "user-1" "msg-1" = true ∧
    [MessageStub.mk "msg-1"].countP (fun m => !isStored storedWorld.emails "user-1" m.id) = 0 ∧
    (POST (lookupFailingEnv [⟨"msg-1"⟩]) { userId := some "user-1" } storedWorld).1.total_found
      = some 1 ∧
    ((POST (lookupFailingEnv [⟨"msg-1"⟩]) { userId := some "user-1" }
        storedWorld).1.results.getD []).map ResultEntry.messageId = ["msg-1"] := by
  refine ⟨rfl, rfl, rfl, rfl⟩

theorem ingest_skips_stored (env : Env) (client : GmailClient) (u : String)
    (amurexLabels : Obj) (messages : List MessageStub) (w : World)
    (hlookup : env.emailsSelectIdsError w.time u = none) :
    SkipsStored u messages w
      (responseOf (ingest env client u amurexLabels messages w).1,
       (ingest env client u amurexLabels messages w).2) := by
  have hnew := filterNew_eq env u w hlookup messages
  have hids : ∀ id ∈ (filterNew (processedMessageIds env u w) messages).map MessageStub.id,
      isStored w.emails u id = false := by
    intro id hid
    rw [hnew] at hid
    obtain ⟨m, hm, rfl⟩ := List.mem_map.mp hid
    have := (List.mem_filter.mp hm).2
    simpa using this
  have hlen : (filterNew (processedMessageIds env u w) messages).length =
      messages.countP (fun m => !isStored w.emails u m.id) := by
    rw [hnew, List.countP_eq_length_filter]
  have hlog : Grows u ((filterNew (processedMessageIds env u w) messages).map MessageStub.id)
      w (w.log (.emailsSelectIds u)) := Grows.grows_log u _ w _ (by intro row h; cases h)
  have hfinish : ∀ (r : Response) (w' : World),
      Grows u ((filterNew (processedMessageIds env u w) messages).map MessageStub.id) w w' →
      (∀ e ∈ r.results.getD [], isStored w.emails u e.messageId = false) →
      (∀ k, r.total_found = some k →
        k = messages.countP (fun m => !isStored w.emails u m.id)) →
      SkipsStored u messages w (r, w') := by
    intro r w' hg hres htot
    obtain ⟨_, extra, added, ht, he, hi, ha⟩ := hg
    exact ⟨hres, htot, extra, added, ht, he,
      fun row hr => ⟨(hi row hr).1, hids _ (hi row hr).2⟩,
      fun row hr => ⟨(ha row hr).1, hids _ (ha row hr).2⟩⟩
  unfold ingest
  simp only
  split
  · exact hfinish _ _ hlog (by simp [responseOf, nothingToProcess])
      (by simp [responseOf, nothingToProcess])
  · have hloop := processMessages_spec env client u amurexLabels
      (min 20 (filterNew (processedMessageIds env u w) messages).length)
      (filterNew (processedMessageIds env u w) messages) 0
      { results := [], totalStoredCount := 0 } (w.log (.emailsSelectIds u))
    split
    · rename_i e w' heq
      rw [heq] at hloop
      exact hfinish _ _ (hlog.grows_trans hloop.1) (by simp [responseOf, internalError])
        (by simp [responseOf, internalError])
    · rename_i acc w' heq
      rw [heq] at hloop
      obtain ⟨es, hes, hmem⟩ := hloop.2 acc rfl
      refine hfinish _ _ (hlog.grows_trans hloop.1) ?_ ?_
      · intro e he
        simp only [responseOf, Option.getD_some, hes, List.nil_append] at he
        exact hids _ (hmem e he)
      · intro k hk
        simp only [responseOf, Option.some.injEq] at hk
        rw [← hk, hlen]

theorem Quiet.quiet_refl (w : World) : Quiet w w := ⟨rfl, [], by simp, by simp⟩

theorem Quiet.quiet_trans {w1 w2 w3 : World} (h12 : Quiet w1 w2) (h23 : Quiet w2 w3) :
    Quiet w1 w3 := by
  obtain ⟨he1, e1, ht1, hi1⟩ := h12
  obtain ⟨he2, e2, ht2, hi2⟩ := h23
  refine ⟨he2.trans he1, e1 ++ e2, by rw [ht2, ht1, List.append_assoc], ?_⟩
  intro row hrow
  rcases List.mem_append.mp hrow with h | h
  · exact hi1 row h
  · exact hi2 row h

theorem Quiet.quiet_log (w : World) (c : Call) (hc : ∀ row, c ≠ .emailsInsert row) :
    Quiet w (w.log c) := by
  refine ⟨rfl, [c], rfl, ?_⟩
  intro row hrow
  simp only [List.mem_singleton] at hrow
  exact hc row hrow.symm

theorem labelsCreate_quiet (env : Env) (client : GmailClient) (r : CreateLabelRequest)
    (w : World) : Quiet w (labelsCreate env client r w).2 := by
  have hlog : Quiet w (w.log (.labelsCreate client r)) :=
    Quiet.quiet_log w _ (by intro row h; cases h)
  unfold labelsCreate
  split
  · exact hlog
  · exact ⟨hlog.1, hlog.2⟩

theorem reconcileLabel_quiet (env : Env) (client : GmailClient) (std : Bool) (ex : Obj)
    (n : String) (c : LabelColor) (m : Obj) (w : World) :
    Quiet w (reconcileLabel env client std ex n c m w).2 := by
  unfold reconcileLabel
  simp only
  split
  · exact Quiet.quiet_refl w
  · have h1 := labelsCreate_quiet env client (firstRequest std ("Amurex/" ++ n) c) w
    split
    · rename_i id w1 heq
      rw [heq] at h1
      exact h1
    · rename_i e w1 heq
      rw [heq] at h1
      split
      · exact h1
      · split
        · have h2 := labelsCreate_quiet env client (retryRequest ("Amurex/" ++ n)) w1
          split
          · rename_i id w2 heq2
            rw [heq2] at h2
            exact h1.quiet_trans h2
          · rename_i e2 w2 heq2
            rw [heq2] at h2
            exact h1.quiet_trans h2
        · exact h1

theorem reconcileLabels_quiet (env : Env) (client : GmailClient) (std : Bool) (ex : Obj) :
    ∀ (cat : List (String × LabelColor)) (m : Obj) (w : World),
    Quiet w (reconcileLabels env client std ex cat m w).2 := by
  intro cat
  induction cat with
  | nil => intro m w; exact Quiet.quiet_refl w
  | cons p rest ih =>
    intro m w
    obtain ⟨n, c⟩ := p
    have h1 := reconcileLabel_quiet env client std ex n c m w
    unfold reconcileLabels
    split
    · rename_i m1 w1 heq
      rw [heq] at h1
      exact h1.quiet_trans (ih m1 w1)
    · rename_i w1 heq
      rw [heq] at h1
      exact h1

theorem reconcile_quiet (env : Env) (client : GmailClient) (std : Bool) (w : World) :
    Quiet w (reconcile env client std w).2 := by
  have hlog : Quiet w (w.log (.labelsList client)) :=
    Quiet.quiet_log w _ (by intro row h; cases h)
  unfold reconcile
  split
  · exact hlog
  · exact hlog.quiet_trans (reconcileLabels_quiet env client std _ GMAIL_COLORS []
      (w.log (.labelsList client)))

theorem SkipsStored.of_quiet {u : String} {messages : List MessageStub} {w w1 : World}
    {out : Response × World} (hq : Quiet w w1) (h : SkipsStored u messages w1 out) :
    SkipsStored u messages w out := by
  obtain ⟨he, e1, ht, hi⟩ := hq
  obtain ⟨hres, htot, extra, added, ht2, he2, hins, hadd⟩ := h
  rw [he] at hres htot hins hadd he2
  refine ⟨hres, htot, e1 ++ extra, added, by rw [ht2, ht, List.append_assoc], he2, ?_, hadd⟩
  intro row hrow
  rcases List.mem_append.mp hrow with h | h
  · exact absurd h (hi row)
  · exact hins row h

theorem SkipsStored.of_plain (u : String) (messages : List MessageStub) (w : World)
    (r : Response) (hres : r.results = none) (htot : r.total_found = none) :
    SkipsStored u messages w (r, w) :=
  ⟨by simp [hres], by simp [htot], [], [], by simp, by simp, by simp, by simp⟩

theorem gmailBlock_skips_stored (env : Env) (client : GmailClient) (u : String) (std : Bool)
    (messages : List MessageStub) (w : World)
    (hlist : ∀ t c l, env.messagesList t c = .ok (some l) → l = messages)
    (hlookup : ∀ t, env.emailsSelectIdsError t u = none) :
    SkipsStored u messages w
      (responseOf (gmailBlock env client u std w).1, (gmailBlock env client u std w).2) := by
  have hrec := reconcile_quiet env client std w
  unfold gmailBlock
  split
  · rename_i e w1 heq
    rw [heq] at hrec
    exact (SkipsStored.of_plain u messages w1 _ rfl rfl).of_quiet hrec
  · rename_i w1 heq
    rw [heq] at hrec
    exact (SkipsStored.of_plain u messages w1 _ rfl rfl).of_quiet hrec
  · rename_i amurexLabels w1 heq
    rw [heq] at hrec
    have hlog : Quiet w (w1.log (.messagesList client "is:unread" 10)) :=
      hrec.quiet_trans (Quiet.quiet_log w1 _ (by intro row h; cases h))
    split
    · exact (SkipsStored.of_plain u messages _ _ rfl rfl).of_quiet hlog
    · rename_i listing hl
      simp only
      split
      · exact (SkipsStored.of_plain u messages _ _ rfl rfl).of_quiet hlog
      · exact (SkipsStored.of_plain u messages _ _ rfl rfl).of_quiet hlog
      · rename_i l _
        have hl' := hlist _ _ _ hl
        subst hl'
        exact (ingest_skips_stored env client u amurexLabels l _ (hlookup _)).of_quiet hlog

theorem authorized_skips_stored (env : Env) (u token : String) (std : Bool)
    (messages : List MessageStub) (w : World)
    (hlist : ∀ t c l, env.messagesList t c = .ok (some l) → l = messages)
    (hlookup : ∀ t, env.emailsSelectIdsError t u = none) :
    SkipsStored u messages w (authorized env u token std w) := by
  have hq : Quiet w (w.log (.usersCreatedAt u)) := Quiet.quiet_log w _ (by intro row h; cases h)
  have hb := gmailBlock_skips_stored env
    { config := selectConfig (env.usersCreatedAt w.time u), refresh_token := token } u std
    messages (w.log (.usersCreatedAt u)) hlist hlookup
  unfold authorized getOAuth2Client
  simp only
  split
  · rename_i r w1 heq
    rw [heq] at hb
    exact hb.of_quiet hq
  · rename_i e w1 heq
    rw [heq] at hb
    obtain ⟨_, _, extra, added, ht, he, hi, ha⟩ := hb
    have hplain : ∀ r : Response, r.results = none → r.total_found = none →
        SkipsStored u messages w (r, w1) := fun r hr htf =>
      SkipsStored.of_quiet hq ⟨by simp [hr], by simp [htf], extra, added, ht, he, hi, ha⟩
    split
    · exact hplain _ rfl rfl
    · exact hplain _ rfl rfl

/-- C6, amended: provided the query for the stored message ids succeeds, an
invocation for the account `u` over the listing `messages` has no entry in
`results` for a message already stored for `u`, issues no insert and adds no
record for such a message, and a reported `total_found` equals the number of
listed messages whose id is not yet stored for `u`. -/
theorem POST_skips_stored (env : Env) (requestData : RequestData) (w : World) (u : String)
    (messages : List MessageStub)
    (hid : requestData.userId = some u)
    (hlist : ∀ t c l, env.messagesList t c = .ok (some l) → l = messages)
    (hlookup : ∀ t, env.emailsSelectIdsError t u = none) :
    SkipsStored u messages w (POST env requestData w) := by
  have hq : Quiet w (w.log (.usersSelect u requestData.accessToken)) :=
    Quiet.quiet_log w _ (by intro row h; cases h)
  unfold POST
  rw [hid]
  simp only
  split
  · exact SkipsStored.of_plain u messages w _ rfl rfl
  · split
    · exact (SkipsStored.of_plain u messages _ _ rfl rfl).of_quiet hq
    · split
      · exact (SkipsStored.of_plain u messages _ _ rfl rfl).of_quiet hq
      · exact (authorized_skips_stored env u _ _ messages _ hlist hlookup).of_quiet hq

/-- Witness for the amended C6: the store holds `msg-1`, the mailbox lists
`msg-1` and `msg-2`; the invocation reports `total_found = 1`, the number of
listed messages that are not stored. -/
theorem POST_skips_stored_witness :
    (POST (healthyEnv [⟨"msg-1"⟩, ⟨"msg-2"⟩]) { userId := some "user-1" }
      storedWorld).1.total_found = some 1 ∧
    1 = [MessageStub.mk "msg-1", ⟨"msg-2"⟩].countP
      (fun m => !isStored storedWorld.emails "user-1" m.id) :=
  ⟨rfl, (POST_skips_stored (healthyEnv [⟨"msg-1"⟩, ⟨"msg-2"⟩]) { userId := some "user-1" }
      storedWorld "user-1" [⟨"msg-1"⟩, ⟨"msg-2"⟩] rfl
      (fun _ _ _ h => by cases h; rfl) (fun _ => rfl)).2.1 1 rfl⟩

/-! ## Theorems on the processing of a batch -/

theorem rowsFor_of_not_stored (emails : List EmailRow) (u m : String)
    (h : isStored emails u m = false) : rowsFor emails u m = [] := by
  simp only [isStored, List.any_eq_false, Bool.decide_and, Bool.and_eq_true,
    decide_eq_true_eq, not_and] at h
  simp only [rowsFor, List.filter_eq_nil_iff, Bool.decide_and, Bool.and_eq_true,
    decide_eq_true_eq, not_and]
  exact h

theorem isStored_append (a b : List EmailRow) (u m : String) :
    isStored (a ++ b) u m = (isStored a u m || isStored b u m) := by
  simp [isStored]

theorem classifyAndLabel_clean (env : Env) (client : GmailClient) (amurexLabels : Obj)
    (messageId : String) (fromEmail subject body : JsString) (acc : LoopState) (w : World)
    (hmod : ∀ t id labelIds, env.messagesModifyError t client id labelIds = none) :
    ∃ entry w', classifyAndLabel env client amurexLabels messageId fromEmail subject body
        acc w = (.ok { acc with results := acc.results ++ [entry] }, w') ∧
      entry.messageId = messageId ∧ w'.emails = w.emails := by
  unfold classifyAndLabel
  simp only
  split
  · simp only [hmod]
    exact ⟨_, _, rfl, rfl, rfl⟩
  · exact ⟨_, _, rfl, rfl, rfl⟩

theorem storeAndCount_clean (env : Env) (u m t : String) (sender subject content : JsString)
    (received : Int) (isRead : Bool) (snippet : JsString) (acc : LoopState) (w : World)
    (hins : ∀ t row, env.emailsInsertError t row = none)
    (hnew : isStored w.emails u m = false) :
    ∃ row w', storeAndCount env u m t sender subject content (some received) isRead snippet
        acc w = ({ acc with totalStoredCount := acc.totalStoredCount + 1 }, w') ∧
      w'.emails = w.emails ++ [row] ∧ row.user_id = u ∧ row.message_id = m := by
  obtain ⟨w', hw', _, _, _, _, hok⟩ := store_absent env u m t sender subject content received
    isRead snippet w (Or.inr (Or.inl (rowsFor_of_not_stored _ _ _ hnew)))
  unfold storeAndCount
  rw [hw']
  exact ⟨_, w', rfl, hok (hins _ _), rfl, rfl⟩

theorem processMessage_clean (env : Env) (client : GmailClient) (u : String)
    (amurexLabels : Obj) (sc : Bool) (message : MessageStub) (acc : LoopState) (w : World)
    (hclean : ProcessesCleanly env client amurexLabels [message])
    (hnew : isStored w.emails u message.id = false) :
    ∃ acc' row w', processMessage env client u amurexLabels sc message acc w = (.ok acc', w') ∧
      acc'.results.map ResultEntry.messageId =
        acc.results.map ResultEntry.messageId ++ (if sc then [message.id] else []) ∧
      acc'.totalStoredCount = acc.totalStoredCount + 1 ∧
      w'.emails = w.emails ++ [row] ∧ row.user_id = u ∧ row.message_id = message.id := by
  obtain ⟨hget, hmod, hins⟩ := hclean
  obtain ⟨fullMessage, labelIds, received, hfm, hlabels, hnone, hdate⟩ :=
    hget w.time message (List.mem_singleton.mpr rfl)
  unfold processMessage
  rw [hfm]
  simp only [hlabels, hnone, Option.isSome, Bool.and_false, Bool.false_eq_true, if_false,
    hdate]
  cases sc with
  | false =>
    simp only [Bool.false_eq_true, if_false]
    obtain ⟨row, w', hs, hemails, hu, hm⟩ := storeAndCount_clean env u message.id
      ((fullMessage.threadId.filter (fun t => t ≠ "")).getD message.id)
      (headerOr fullMessage.headers "From" (utf16 "Unknown"))
      (headerOr fullMessage.headers "Subject" (utf16 "(No Subject)"))
      (extractBody env.decode fullMessage.payload fullMessage.snippet) received
      (!labelIds.contains "UNREAD") fullMessage.snippet acc
      (w.log (.messagesGet client message.id)) hins hnew
    rw [hs]
    exact ⟨_, row, w', rfl, by simp, rfl, hemails, hu, hm⟩
  | true =>
    simp only [if_true]
    obtain ⟨entry, w1, hc, hentry, hemails1⟩ := classifyAndLabel_clean env client amurexLabels
      message.id (headerOr fullMessage.headers "From" (utf16 "Unknown"))
      (headerOr fullMessage.headers "Subject" (utf16 "(No Subject)"))
      (extractBody env.decode fullMessage.payload fullMessage.snippet) acc
      (w.log (.messagesGet client message.id)) hmod
    rw [hc]
    simp only
    obtain ⟨row, w', hs, hemails, hu, hm⟩ := storeAndCount_clean env u message.id
      ((fullMessage.threadId.filter (fun t => t ≠ "")).getD message.id)
      (headerOr fullMessage.headers "From" (utf16 "Unknown"))
      (headerOr fullMessage.headers "Subject" (utf16 "(No Subject)"))
      (extractBody env.decode fullMessage.payload fullMessage.snippet) received
      (!labelIds.contains "UNREAD") fullMessage.snippet
      { acc with results := acc.results ++ [entry] } w1 hins
      (by rw [hemails1]; exact hnew)
    rw [hs]
    refine ⟨_, row, w', rfl, by simp [hentry], rfl, ?_, hu, hm⟩
    rw [hemails, hemails1]
    rfl

theorem ProcessesCleanly.head {env : Env} {client : GmailClient} {labels : Obj}
    {m : MessageStub} {rest : List MessageStub}
    (h : ProcessesCleanly env client labels (m :: rest)) :
    ProcessesCleanly env client labels [m] :=
  ⟨fun t x hx => h.1 t x (by rw [List.mem_singleton.mp hx]; exact List.mem_cons_self _ _),
   h.2.1, h.2.2⟩

theorem ProcessesCleanly.tail {env : Env} {client : GmailClient} {labels : Obj}
    {m : MessageStub} {rest : List MessageStub}
    (h : ProcessesCleanly env client labels (m :: rest)) :
    ProcessesCleanly env client labels rest :=
  ⟨fun t x hx => h.1 t x (List.mem_cons_of_mem _ hx), h.2.1, h.2.2⟩

theorem processMessages_clean (env : Env) (client : GmailClient) (u : String)
    (amurexLabels : Obj) (cc : Nat) :
    ∀ (messages : List MessageStub) (i : Nat) (acc : LoopState) (w : World),
    ProcessesCleanly env client amurexLabels messages →
    (∀ m ∈ messages, isStored w.emails u m.id = false) →
    (messages.map MessageStub.id).Nodup →
    ∃ acc' w' rows,
      processMessages env client u amurexLabels cc i messages acc w = (.ok acc', w') ∧
      acc'.results.map ResultEntry.messageId =
        acc.results.map ResultEntry.messageId ++ (messages.take (cc - i)).map MessageStub.id ∧
      acc'.totalStoredCount = acc.totalStoredCount + messages.length ∧
      w'.emails = w.emails ++ rows ∧
      rows.map (fun r => (r.user_id, r.message_id)) = messages.map (fun m => (u, m.id)) := by
  intro messages
  induction messages with
  | nil =>
    intro i acc w _ _ _
    exact ⟨acc, w, [], rfl, by simp, rfl, by simp, rfl⟩
  | cons message rest ih =>
    intro i acc w hclean hnew hnodup
    obtain ⟨acc1, row, w1, hstep, hres1, hcount1, hemails1, hu, hm⟩ :=
      processMessage_clean env client u amurexLabels (decide (i < cc)) message acc w
        hclean.head (hnew message (List.mem_cons_self _ _))
    have hnodup' := List.nodup_cons.mp hnodup
    have hnew' : ∀ m ∈ rest, isStored w1.emails u m.id = false := by
      intro m hmem
      rw [hemails1, isStored_append, hnew m (List.mem_cons_of_mem _ hmem)]
      simp only [isStored, List.any_cons, List.any_nil, Bool.or_false, Bool.false_or,
        decide_eq_false_iff_not, not_and]
      intro _ hid
      apply hnodup'.1
      rw [← hm, hid]
      exact List.mem_map_of_mem _ hmem
    obtain ⟨acc', w', rows, hloop, hres, hcount, hemails, hrows⟩ :=
      ih (i + 1) acc1 w1 hclean.tail hnew' hnodup'.2
    refine ⟨acc', w', row :: rows, ?_, ?_, ?_, ?_, ?_⟩
    · simp only [processMessages, hstep, hloop]
    · rw [hres, hres1, List.append_assoc]
      congr 1
      by_cases hi : i < cc
      · have : cc - i = (cc - (i + 1)) + 1 := by omega
        simp [hi, this]
      · have h0 : cc - i = 0 := by omega
        have h1 : cc - (i + 1) = 0 := by omega
        simp [hi, h0, h1]
    · rw [hcount, hcount1]
      simp only [List.length_cons]
      omega
    · rw [hemails, hemails1, List.append_assoc]
      rfl
    · simp [hrows, hu, hm]

theorem take_min_length {α : Type} (l : List α) (k : Nat) :
    l.take (min k l.length) = l.take k := by
  by_cases h : k ≤ l.length
  · rw [Nat.min_eq_left h]
  · have h' : l.length ≤ k := by omega
    rw [Nat.min_eq_right h', List.take_length, List.take_of_length_le h']

/-- C8: a batch of `n ≥ 1` distinct new messages that is processed without
error, none of the messages carrying a reconciled label, yields the success
response with one entry of `results` for each of the first `min(20, n)`
candidates in listing order, `processed = min(20, n)`, `total_found = n` and
`total_stored = n`, and afterwards every message of the batch is stored. -/
theorem ingest_processes_batch (env : Env) (client : GmailClient) (u : String)
    (amurexLabels : Obj) (messages : List MessageStub) (w : World)
    (hne : messages ≠ [])
    (hnew : ∀ m ∈ messages, isStored w.emails u m.id = false)
    (hdistinct : (messages.map MessageStub.id).Nodup)
    (hclean : ProcessesCleanly env client amurexLabels messages) :
    ∃ response results,
      (ingest env client u amurexLabels messages w).1 = .ok response ∧
      response.status = 200 ∧ response.success = true ∧
      response.results = some results ∧
      results.map ResultEntry.messageId = (messages.take 20).map MessageStub.id ∧
      results.length = min 20 messages.length ∧
      response.processed = some (min 20 messages.length) ∧
      response.total_found = some messages.length ∧
      response.total_stored = some messages.length ∧
      ∀ m ∈ messages, isStored (ingest env client u amurexLabels messages w).2.emails u m.id
        = true := by
  have hfilter : filterNew (processedMessageIds env u w) messages = messages := by
    unfold filterNew
    rw [List.filter_eq_self]
    intro m hm
    have hns := hnew m hm
    unfold processedMessageIds
    split
    · simp
    · simp only [isStored, List.any_eq_false, Bool.decide_and, Bool.and_eq_true,
        decide_eq_true_eq, not_and] at hns
      simp only [Bool.not_eq_true', List.contains_eq_any_beq, List.any_eq_false, beq_iff_eq,
        List.mem_map, List.mem_filter, decide_eq_true_eq]
      rintro x ⟨r, ⟨hr, hur⟩, rfl⟩ hx
      exact hns r hr hur hx.symm
  have hlen : messages.length ≠ 0 := by
    intro h; exact hne (List.length_eq_zero.mp h)
  obtain ⟨acc', w', rows, hloop, hres, hcount, hemails, hrows⟩ :=
    processMessages_clean env client u amurexLabels (min 20 messages.length) messages 0
      { results := [], totalStoredCount := 0 } (w.log (.emailsSelectIds u)) hclean hnew
      hdistinct
  have hids : acc'.results.map ResultEntry.messageId =
      (messages.take 20).map MessageStub.id := by
    rw [hres]
    simp only [List.map_nil, List.nil_append, Nat.sub_zero]
    rw [take_min_length]
  have hrlen : acc'.results.length = min 20 messages.length := by
    have := congrArg List.length hids
    simpa [List.length_take] using this
  unfold ingest
  simp only [hfilter, hlen, if_false, hloop]
  refine ⟨_, acc'.results, rfl, rfl, rfl, rfl, hids, hrlen, by rw [hrlen], rfl, ?_, ?_⟩
  · simp [hcount]
  · intro m hm
    rw [hemails, isStored_append]
    have hmem : (u, m.id) ∈ rows.map (fun r => (r.user_id, r.message_id)) := by
      rw [hrows]
      exact List.mem_map_of_mem (fun m => (u, m.id)) hm
    obtain ⟨r, hr, hpair⟩ := List.mem_map.mp hmem
    simp only [Prod.mk.injEq] at hpair
    have : isStored rows u m.id = true := by
      simp only [isStored, List.any_eq_true, Bool.decide_and, Bool.and_eq_true,
        decide_eq_true_eq]
      exact ⟨r, hr, hpair.1, hpair.2⟩
    simp [this]

theorem healthyEnv_clean (listing messages : List MessageStub) :
    ProcessesCleanly (healthyEnv listing) sampleClient sampleLabels messages :=
  ⟨fun _ _ _ => ⟨sampleMessage, ["UNREAD", "INBOX"], 1700000000000, rfl, rfl, rfl, rfl⟩,
   fun _ _ _ => rfl, fun _ _ => rfl⟩

/-- Witness for C8: a batch of 3 gives `processed = 3`, `total_found = 3` and 3
stored; a batch of 25 gives 20 results, `processed = 20`, `total_found = 25`
and 25 stored. -/
theorem ingest_processes_batch_witness :
    (∃ response,
      (ingest (healthyEnv (batch 3)) sampleClient "user-1" sampleLabels (batch 3)
        emptyWorld).1 = .ok response ∧
      response.processed = some 3 ∧ response.total_found = some 3 ∧
      response.total_stored = some 3) ∧
    (∃ response results,
      (ingest (healthyEnv (batch 25)) sampleClient "user-1" sampleLabels (batch 25)
        emptyWorld).1 = .ok response ∧
      response.results = some results ∧ results.length = 20 ∧
      response.processed = some 20 ∧ response.total_found = some 25 ∧
      response.total_stored = some 25) := by
  constructor
  · obtain ⟨response, results, hok, _, _, _, _, _, hp, hf, hs, _⟩ :=
      ingest_processes_batch (healthyEnv (batch 3)) sampleClient "user-1" sampleLabels
        (batch 3) emptyWorld (by decide) (fun _ _ => rfl) (by decide) (healthyEnv_clean _ _)
    exact ⟨response, hok, hp, hf, hs⟩
  · obtain ⟨response, results, hok, _, _, hr, _, hl, hp, hf, hs, _⟩ :=
      ingest_processes_batch (healthyEnv (batch 25)) sampleClient "user-1" sampleLabels
        (batch 25) emptyWorld (by decide) (fun _ _ => rfl) (by decide) (healthyEnv_clean _ _)
    exact ⟨response, results, hok, hr, hl, hp, hf, hs⟩

/-! ## Lemmas on objects -/

theorem obj_get_cons (p : String × String) (o : Obj) (k : String) :
    Obj.get (p :: o) k = if p.1 = k then some p.2 else Obj.get o k := by
  unfold Obj.get
  by_cases h : p.1 = k <;> simp [List.find?, h]

theorem obj_get_nil (k : String) : Obj.get [] k = none := rfl

theorem obj_get_append_single (o : Obj) (k k' v : String) :
    Obj.get (o ++ [(k, v)]) k' =
      match Obj.get o k' with
      | some x => some x
      | none => if k = k' then some v else none := by
  induction o with
  | nil => simp [obj_get_cons, obj_get_nil]
  | cons p rest ih =>
    rw [List.cons_append, obj_get_cons, obj_get_cons]
    by_cases h : p.1 = k'
    · simp [h]
    · simp only [h, if_false]
      exact ih

theorem obj_get_none_of_not_any (o : Obj) (k : String)
    (h : o.any (fun p => p.1 = k) = false) : Obj.get o k = none := by
  induction o with
  | nil => rfl
  | cons p rest ih =>
    simp only [List.any_cons, Bool.or_eq_false_iff, decide_eq_false_iff_not] at h
    rw [obj_get_cons, if_neg h.1]
    exact ih h.2

theorem obj_get_map_same (o : Obj) (k v : String) (h : o.any (fun p => p.1 = k) = true) :
    Obj.get (o.map (fun p => if p.1 = k then (k, v) else p)) k = some v := by
  induction o with
  | nil => simp at h
  | cons p rest ih =>
    rw [List.map_cons, obj_get_cons]
    by_cases hp : p.1 = k
    · simp [hp]
    · simp only [hp, if_false]
      apply ih
      simpa [hp] using h

theorem obj_get_map_other (o : Obj) (k v k' : String) (hne : k' ≠ k) :
    Obj.get (o.map (fun p => if p.1 = k then (k, v) else p)) k' = Obj.get o k' := by
  induction o with
  | nil => rfl
  | cons p rest ih =>
    rw [List.map_cons, obj_get_cons, obj_get_cons, ih]
    by_cases hp : p.1 = k
    · have h1 : ¬ k = k' := fun h => hne h.symm
      have h2 : ¬ p.1 = k' := fun h => hne (h.symm.trans hp)
      simp [hp, h1, h2]
    · simp [hp]

/-- The read of a key right after its assignment. -/
theorem obj_get_set_same (o : Obj) (k v : String) : (o.set k v).get k = some v := by
  unfold Obj.set
  split
  · rename_i h
    exact obj_get_map_same o k v h
  · rename_i h
    rw [obj_get_append_single, obj_get_none_of_not_any o k (Bool.eq_false_iff.mpr h)]
    simp

/-- The read of a key after the assignment of another key. -/
theorem obj_get_set_other (o : Obj) (k v k' : String) (hne : k' ≠ k) :
    (o.set k v).get k' = o.get k' := by
  unfold Obj.set
  split
  · exact obj_get_map_other o k v k' hne
  · rw [obj_get_append_single]
    have h1 : ¬ k = k' := fun h => hne h.symm
    cases Obj.get o k' <;> simp [h1]

/-- The id that `existingLabels` holds for a name is the id of a listed label
with that name. -/
theorem existingLabelsOf_get_mem (labels : List GmailLabel) (name id : String)
    (h : (existingLabelsOf labels).get name = some id) :
    ∃ l ∈ labels, l.name = name ∧ l.id = id := by
  unfold existingLabelsOf at h
  induction labels using List.reverseRecOn with
  | nil => simp [obj_get_nil] at h
  | append_singleton rest last ih =>
    rw [List.foldl_append] at h
    simp only [List.foldl_cons, List.foldl_nil] at h
    by_cases hn : last.name = name
    · rw [hn, obj_get_set_same] at h
      exact ⟨last, by simp, hn, by simpa using h⟩
    · rw [obj_get_set_other _ _ _ _ (fun h' => hn h'.symm)] at h
      obtain ⟨l, hl, h1, h2⟩ := ih h
      exact ⟨l, List.mem_append_left _ hl, h1, h2⟩

/-- A listed name has an entry in `existingLabels`. -/
theorem existingLabelsOf_get_of_mem (labels : List GmailLabel) (name : String)
    (h : ∃ l ∈ labels, l.name = name) :
    ∃ id, (existingLabelsOf labels).get name = some id := by
  unfold existingLabelsOf
  induction labels using List.reverseRecOn with
  | nil => simp at h
  | append_singleton rest last ih =>
    rw [List.foldl_append]
    simp only [List.foldl_cons, List.foldl_nil]
    by_cases hn : last.name = name
    · rw [hn, obj_get_set_same]
      exact ⟨_, rfl⟩
    · rw [obj_get_set_other _ _ _ _ (fun h' => hn h'.symm)]
      apply ih
      obtain ⟨l, hl, hname⟩ := h
      rcases List.mem_append.mp hl with h1 | h1
      · exact ⟨l, h1, hname⟩
      · simp only [List.mem_singleton] at h1
        exact absurd (h1 ▸ hname) hn

/-- With non-empty ids, a listed name has a truthy entry in `existingLabels`,
which is the id of a listed label of that name. -/
theorem existingLabelsOf_getTruthy (labels : List GmailLabel) (name : String)
    (hids : ∀ l ∈ labels, l.id ≠ "") (h : ∃ l ∈ labels, l.name = name) :
    ∃ l ∈ labels, l.name = name ∧ (existingLabelsOf labels).getTruthy name = some l.id := by
  obtain ⟨id, hid⟩ := existingLabelsOf_get_of_mem labels name h
  obtain ⟨l, hl, hname, hlid⟩ := existingLabelsOf_get_mem labels name id hid
  refine ⟨l, hl, hname, ?_⟩
  have hne : id ≠ "" := hlid ▸ hids l hl
  simp [Obj.getTruthy, hid, Option.filter, hne, hlid]
/-! ## Lemmas on the reconciliation loop -/

theorem namespaced_injective (a b : String) (h : "Amurex/" ++ a = "Amurex/" ++ b) : a = b := by
  have h2 := congrArg String.data h
  rw [String.data_append, String.data_append] at h2
  exact String.ext (List.append_cancel_left h2)

/-- What one iteration of the reconciliation loop does, for the category `n`:
the calls it issues are creation requests for the namespaced name of a label
that is not listed, the labels it adds bear that name, and the mapping changes
at the key `n` only: it receives the listed id, or the id of the one label
created, or stays as it is when no creation succeeds. -/
theorem reconcileLabel_facts (env : Env) (client : GmailClient) (std : Bool) (ex : Obj)
    (n : String) (c : LabelColor) (m : Obj) (w : World) :
    ∃ extra added,
      (reconcileLabel env client std ex n c m w).2.trace = w.trace ++ extra ∧
      (reconcileLabel env client std ex n c m w).2.labels = w.labels ++ added ∧
      (∀ call ∈ extra, ∃ req, call = .labelsCreate client req ∧ req.name = "Amurex/" ++ n ∧
        ex.getTruthy ("Amurex/" ++ n) = none) ∧
      (∀ l ∈ added, l.name = "Amurex/" ++ n ∧ ex.getTruthy ("Amurex/" ++ n) = none) ∧
      ∀ m1, (reconcileLabel env client std ex n c m w).1 = some m1 →
        (∀ k, k ≠ n → m1.get k = m.get k) ∧
        ((∃ id, ex.getTruthy ("Amurex/" ++ n) = some id ∧ m1.get n = some id ∧ added = []) ∨
         (ex.getTruthy ("Amurex/" ++ n) = none ∧
            ∃ id, added = [⟨id, "Amurex/" ++ n⟩] ∧ m1.get n = some id) ∨
         (ex.getTruthy ("Amurex/" ++ n) = none ∧ added = [] ∧ m1 = m)) := by
  cases hex : ex.getTruthy ("Amurex/" ++ n) with
  | some id =>
    refine ⟨[], [], ?_, ?_, by simp, by simp, ?_⟩
    · simp [reconcileLabel, hex]
    · simp [reconcileLabel, hex]
    · intro m1 hm1
      simp only [reconcileLabel, hex, Option.some.injEq] at hm1
      subst hm1
      exact ⟨fun k hk => obj_get_set_other m n id k hk,
        Or.inl ⟨id, rfl, obj_get_set_same m n id, rfl⟩⟩
  | none =>
    simp only [reconcileLabel, hex]
    cases h1 : env.labelsCreateError w.time client (firstRequest std ("Amurex/" ++ n) c) with
    | none =>
      simp only [labelsCreate, h1]
      refine ⟨[.labelsCreate client (firstRequest std ("Amurex/" ++ n) c)],
        [⟨"Label_" ++ toString w.nextLabelId, "Amurex/" ++ n⟩], rfl, rfl, ?_, ?_, ?_⟩
      · intro call hcall
        simp only [List.mem_singleton] at hcall
        exact ⟨_, hcall, rfl, trivial⟩
      · intro l hl
        simp only [List.mem_singleton] at hl
        simp [hl]
      · intro m1 hm1
        simp only [Option.some.injEq] at hm1
        subst hm1
        exact ⟨fun k hk => obj_get_set_other m n _ k hk,
          Or.inr (Or.inl ⟨trivial, _, rfl, obj_get_set_same m n _⟩)⟩
    | some e =>
      simp only [labelsCreate, h1]
      by_cases h403 : e.hasStatus 403 = true
      · simp only [h403, if_true]
        refine ⟨[.labelsCreate client (firstRequest std ("Amurex/" ++ n) c)], [], rfl,
          by simp [World.log], ?_, by simp, ?_⟩
        · intro call hcall
          simp only [List.mem_singleton] at hcall
          exact ⟨_, hcall, rfl, trivial⟩
        · intro m1 hm1
          cases hm1
      · simp only [h403, Bool.false_eq_true, if_false]
        by_cases h400 : e.hasStatus 400 = true
        · simp only [h400, if_true]
          cases h2 : env.labelsCreateError
              (w.log (.labelsCreate client (firstRequest std ("Amurex/" ++ n) c))).time
              client (retryRequest ("Amurex/" ++ n)) with
          | none =>
            refine ⟨[.labelsCreate client (firstRequest std ("Amurex/" ++ n) c),
              .labelsCreate client (retryRequest ("Amurex/" ++ n))],
              [⟨"Label_" ++ toString w.nextLabelId, "Amurex/" ++ n⟩], ?_, ?_, ?_, ?_, ?_⟩
            · simp [World.log]
            · simp [World.log, retryRequest]
            · intro call hcall
              simp only [List.mem_cons, List.mem_singleton, List.not_mem_nil, or_false]
                at hcall
              rcases hcall with h | h
              · exact ⟨_, h, rfl, trivial⟩
              · exact ⟨_, h, rfl, trivial⟩
            · intro l hl
              simp only [List.mem_singleton] at hl
              simp [hl]
            · intro m1 hm1
              simp only [Option.some.injEq] at hm1
              subst hm1
              exact ⟨fun k hk => obj_get_set_other m n _ k hk,
                Or.inr (Or.inl ⟨trivial, _, rfl, obj_get_set_same m n _⟩)⟩
          | some e2 =>
            refine ⟨[.labelsCreate client (firstRequest std ("Amurex/" ++ n) c),
              .labelsCreate client (retryRequest ("Amurex/" ++ n))], [], ?_, ?_, ?_,
              by simp, ?_⟩
            · simp [World.log]
            · simp [World.log]
            · intro call hcall
              simp only [List.mem_cons, List.mem_singleton, List.not_mem_nil, or_false]
                at hcall
              rcases hcall with h | h
              · exact ⟨_, h, rfl, trivial⟩
              · exact ⟨_, h, rfl, trivial⟩
            · intro m1 hm1
              simp only [Option.some.injEq] at hm1
              subst hm1
              exact ⟨fun k _ => rfl, Or.inr (Or.inr ⟨trivial, rfl, rfl⟩)⟩
        · simp only [h400, Bool.false_eq_true, if_false]
          refine ⟨[.labelsCreate client (firstRequest std ("Amurex/" ++ n) c)], [], rfl,
            by simp [World.log], ?_, by simp, ?_⟩
          · intro call hcall
            simp only [List.mem_singleton] at hcall
            exact ⟨_, hcall, rfl, trivial⟩
          · intro m1 hm1
            simp only [Option.some.injEq] at hm1
            subst hm1
            exact ⟨fun k _ => rfl, Or.inr (Or.inr ⟨trivial, rfl, rfl⟩)⟩

/-- What the reconciliation loop over the categories `cat` does: it issues only
creation requests for namespaced names of categories of `cat` that are not
listed, adds only labels of such names, and, when it ends without permission
error, leaves the other keys of the mapping alone and maps a category of `cat`
to an id exactly when that id is the listed one, or the label is not listed and
a label of that id and name was created. -/
theorem reconcileLabels_facts (env : Env) (client : GmailClient) (std : Bool) (ex : Obj) :
    ∀ (cat : List (String × LabelColor)) (m : Obj) (w : World),
    (cat.map Prod.fst).Nodup → (∀ n ∈ cat.map Prod.fst, m.get n = none) →
    ∃ extra added,
      (reconcileLabels env client std ex cat m w).2.trace = w.trace ++ extra ∧
      (reconcileLabels env client std ex cat m w).2.labels = w.labels ++ added ∧
      (∀ call ∈ extra, ∃ req n, call = .labelsCreate client req ∧ n ∈ cat.map Prod.fst ∧
        req.name = "Amurex/" ++ n ∧ ex.getTruthy ("Amurex/" ++ n) = none) ∧
      (∀ l ∈ added, ∃ n, n ∈ cat.map Prod.fst ∧ l.name = "Amurex/" ++ n ∧
        ex.getTruthy ("Amurex/" ++ n) = none) ∧
      ∀ m', (reconcileLabels env client std ex cat m w).1 = some m' →
        (∀ k, k ∉ cat.map Prod.fst → m'.get k = m.get k) ∧
        ∀ n ∈ cat.map Prod.fst, ∀ id, m'.get n = some id ↔
          (ex.getTruthy ("Amurex/" ++ n) = some id ∨
           (ex.getTruthy ("Amurex/" ++ n) = none ∧ (⟨id, "Amurex/" ++ n⟩ : GmailLabel) ∈ added))
    := by
  intro cat
  induction cat with
  | nil =>
    intro m w _ _
    refine ⟨[], [], by simp [reconcileLabels], by simp [reconcileLabels], by simp, by simp, ?_⟩
    intro m' hm'
    simp only [reconcileLabels, Option.some.injEq] at hm'
    subst hm'
    exact ⟨fun _ _ => rfl, fun n hn => by simp at hn⟩
  | cons p rest ih =>
    intro m w hnodup hfresh
    obtain ⟨n, c⟩ := p
    simp only [List.map_cons, List.nodup_cons] at hnodup
    obtain ⟨hn_rest, hnodup_rest⟩ := hnodup
    obtain ⟨extra1, added1, ht1, hl1, hcalls1, hadded1, hmap1⟩ :=
      reconcileLabel_facts env client std ex n c m w
    cases hstep : reconcileLabel env client std ex n c m w with
    | mk r1 w1 =>
      rw [hstep] at ht1 hl1 hmap1
      simp only at ht1 hl1 hmap1
      cases r1 with
      | none =>
        refine ⟨extra1, added1, ?_, ?_, ?_, ?_, ?_⟩
        · simp only [reconcileLabels, hstep]; exact ht1
        · simp only [reconcileLabels, hstep]; exact hl1
        · intro call hcall
          obtain ⟨req, h1, h2, h3⟩ := hcalls1 call hcall
          exact ⟨req, n, h1, by simp, h2, h3⟩
        · intro l hl
          exact ⟨n, by simp, hadded1 l hl⟩
        · intro m' hm'
          simp [reconcileLabels, hstep] at hm'
      | some m1 =>
        obtain ⟨hother1, hcase1⟩ := hmap1 m1 rfl
        have hfresh1 : ∀ k ∈ rest.map Prod.fst, m1.get k = none := by
          intro k hk
          have hkn : k ≠ n := fun h => hn_rest (h ▸ hk)
          rw [hother1 k hkn]
          exact hfresh k (by simp [hk])
        obtain ⟨extra2, added2, ht2, hl2, hcalls2, hadded2, hmap2⟩ :=
          ih m1 w1 hnodup_rest hfresh1
        have hname_rest : ∀ l ∈ added2, l.name ≠ "Amurex/" ++ n := by
          intro l hl hname
          obtain ⟨k, hk, hlk, _⟩ := hadded2 l hl
          have := namespaced_injective _ _ (hname.symm.trans hlk)
          exact hn_rest (this ▸ hk)
        refine ⟨extra1 ++ extra2, added1 ++ added2, ?_, ?_, ?_, ?_, ?_⟩
        · simp only [reconcileLabels, hstep]
          rw [ht2, ht1, List.append_assoc]
        · simp only [reconcileLabels, hstep]
          rw [hl2, hl1, List.append_assoc]
        · intro call hcall
          rcases List.mem_append.mp hcall with h | h
          · obtain ⟨req, h1, h2, h3⟩ := hcalls1 call h
            exact ⟨req, n, h1, by simp, h2, h3⟩
          · obtain ⟨req, k, h1, hk, h2, h3⟩ := hcalls2 call h
            exact ⟨req, k, h1, by simp [hk], h2, h3⟩
        · intro l hl
          rcases List.mem_append.mp hl with h | h
          · exact ⟨n, by simp, hadded1 l h⟩
          · obtain ⟨k, hk, h2, h3⟩ := hadded2 l h
            exact ⟨k, by simp [hk], h2, h3⟩
        · intro m' hm'
          simp only [reconcileLabels, hstep] at hm'
          obtain ⟨hother2, hiff2⟩ := hmap2 m' hm'
          refine ⟨?_, ?_⟩
          · intro k hk
            simp only [List.map_cons, List.mem_cons, not_or] at hk
            rw [hother2 k hk.2, hother1 k hk.1]
          · intro k hk id
            simp only [List.map_cons, List.mem_cons] at hk
            rcases hk with hk | hk
            · subst hk
              rw [hother2 k hn_rest]
              rcases hcase1 with ⟨id0, hex, hget, hadd⟩ | ⟨hex, id0, hadd, hget⟩ |
                ⟨hex, hadd, hm⟩
              · rw [hget, hex]
                constructor
                · intro h; exact Or.inl h
                · rintro (h | ⟨h, _⟩)
                  · exact h
                  · cases h
              · rw [hget, hex, hadd]
                constructor
                · intro h
                  simp only [Option.some.injEq] at h
                  subst h
                  exact Or.inr ⟨rfl, by simp⟩
                · rintro (h | ⟨_, h⟩)
                  · cases h
                  · rcases List.mem_append.mp h with h | h
                    · simp only [List.mem_singleton, GmailLabel.mk.injEq] at h
                      rw [h.1]
                    · exact absurd rfl (hname_rest _ h)
              · rw [hm, hfresh k (by simp), hex, hadd]
                constructor
                · intro h; cases h
                · rintro (h | ⟨_, h⟩)
                  · cases h
                  · simp only [List.nil_append] at h
                    exact absurd rfl (hname_rest _ h)
            · have hkn : k ≠ n := fun h => hn_rest (h ▸ hk)
              rw [hiff2 k hk id]
              have hnot1 : (⟨id, "Amurex/" ++ k⟩ : GmailLabel) ∉ added1 := by
                intro h
                have := (hadded1 _ h).1
                exact hkn (namespaced_injective _ _ this)
              constructor
              · rintro (h | ⟨h1, h2⟩)
                · exact Or.inl h
                · exact Or.inr ⟨h1, List.mem_append_right _ h2⟩
              · rintro (h | ⟨h1, h2⟩)
                · exact Or.inl h
                · rcases List.mem_append.mp h2 with h | h
                  · exact absurd h hnot1
                  · exact Or.inr ⟨h1, h⟩

theorem catalog_nodup : (GMAIL_COLORS.map Prod.fst).Nodup := by decide

theorem reconcileLabels_append (env : Env) (client : GmailClient) (std : Bool) (ex : Obj)
    (pre rest : List (String × LabelColor)) (m : Obj) (w : World) :
    reconcileLabels env client std ex (pre ++ rest) m w =
      match reconcileLabels env client std ex pre m w with
      | (some m1, w1) => reconcileLabels env client std ex rest m1 w1
      | (none, w1) => (none, w1) := by
  induction pre generalizing m w with
  | nil => rfl
  | cons p pre ih =>
    obtain ⟨n, c⟩ := p
    simp only [List.cons_append, reconcileLabels]
    cases hstep : reconcileLabel env client std ex n c m w with
    | mk r1 w1 =>
      cases r1 with
      | none => rfl
      | some m1 => exact ih m1 w1

/-- The run of `reconcile` when the listing succeeds. -/
theorem reconcile_listed (env : Env) (client : GmailClient) (std : Bool) (w : World)
    (hlist : env.labelsListError w.time client = none) :
    reconcile env client std w =
      (.ok (reconcileLabels env client std (existingLabelsOf w.labels) GMAIL_COLORS []
        (w.log (.labelsList client))).1,
       (reconcileLabels env client std (existingLabelsOf w.labels) GMAIL_COLORS []
        (w.log (.labelsList client))).2) := by
  simp only [reconcile, hlist]

/-- C11: when the listing holds a label of the namespaced name of a category
(label ids being non-empty), reconciliation issues no creation request for that
name, and when it returns a mapping, the mapping sends the category to the id
of a listed label of that name. -/
theorem reconcile_reuses_existing (env : Env) (client : GmailClient) (std : Bool) (w : World)
    (category : String) (hcat : category ∈ categoryNames)
    (hids : ∀ l ∈ w.labels, l.id ≠ "")
    (hpresent : ∃ l ∈ w.labels, l.name = "Amurex/" ++ category) :
    (∀ c req, Call.labelsCreate c req ∈
        (reconcile env client std w).2.trace.drop w.trace.length →
      req.name ≠ "Amurex/" ++ category) ∧
    (∀ mapping, (reconcile env client std w).1 = .ok (some mapping) →
      ∃ l ∈ w.labels, l.name = "Amurex/" ++ category ∧ mapping.get category = some l.id) := by
  obtain ⟨l, hl, hname, htruthy⟩ :=
    existingLabelsOf_getTruthy w.labels ("Amurex/" ++ category) hids hpresent
  cases hlist : env.labelsListError w.time client with
  | some e =>
    simp only [reconcile, hlist, World.log, List.drop_left]
    refine ⟨?_, fun mapping h => by cases h⟩
    intro c req hmem
    simp at hmem
  | none =>
    rw [reconcile_listed env client std w hlist]
    obtain ⟨extra, added, ht, _, hcalls, _, hmap⟩ := reconcileLabels_facts env client std
      (existingLabelsOf w.labels) GMAIL_COLORS [] (w.log (.labelsList client)) catalog_nodup
      (fun n _ => obj_get_nil n)
    constructor
    · intro c req hmem
      rw [ht] at hmem
      simp only [World.log, List.append_assoc, List.drop_left, List.singleton_append,
        List.mem_cons] at hmem
      rcases hmem with h | h
      · cases h
      · obtain ⟨req', n, heq, _, hreq, hnone⟩ := hcalls _ h
        simp only [Call.labelsCreate.injEq] at heq
        intro hname'
        rw [← heq.2, hname'] at hreq
        rw [← hreq, htruthy] at hnone
        cases hnone
    · intro mapping hm
      simp only [Except.ok.injEq] at hm
      obtain ⟨_, hiff⟩ := hmap mapping hm
      exact ⟨l, hl, hname, (hiff category hcat l.id).mpr (Or.inl htruthy)⟩

/-- One iteration of the loop when every creation succeeds: the category gets
an entry. -/
theorem reconcileLabel_covers (env : Env) (client : GmailClient) (std : Bool) (ex : Obj)
    (n : String) (c : LabelColor) (m : Obj) (w : World)
    (hcreate : ∀ t cl r, env.labelsCreateError t cl r = none) :
    ∃ m1 id, (reconcileLabel env client std ex n c m w).1 = some m1 ∧ m1.get n = some id := by
  cases hex : ex.getTruthy ("Amurex/" ++ n) with
  | some id =>
    exact ⟨_, id, by simp only [reconcileLabel, hex], obj_get_set_same m n id⟩
  | none =>
    exact ⟨_, "Label_" ++ toString w.nextLabelId,
      by simp only [reconcileLabel, hex, labelsCreate, hcreate], obj_get_set_same m n _⟩

/-- The loop leaves the keys of other categories alone. -/
theorem reconcileLabels_get_other (env : Env) (client : GmailClient) (std : Bool) (ex : Obj) :
    ∀ (cat : List (String × LabelColor)) (m : Obj) (w : World) (m' : Obj),
    (reconcileLabels env client std ex cat m w).1 = some m' →
    ∀ k, k ∉ cat.map Prod.fst → m'.get k = m.get k := by
  intro cat
  induction cat with
  | nil =>
    intro m w m' hm' k _
    simp only [reconcileLabels, Option.some.injEq] at hm'
    rw [hm']
  | cons p rest ih =>
    intro m w m' hm' k hk
    obtain ⟨n, c⟩ := p
    simp only [List.map_cons, List.mem_cons, not_or] at hk
    obtain ⟨_, _, _, _, _, _, hmap1⟩ := reconcileLabel_facts env client std ex n c m w
    cases hs : reconcileLabel env client std ex n c m w with
    | mk r1 w1 =>
      rw [hs] at hmap1
      cases r1 with
      | none => simp [reconcileLabels, hs] at hm'
      | some m1 =>
        simp only [reconcileLabels, hs] at hm'
        rw [ih m1 w1 m' hm' k hk.2, (hmap1 m1 rfl).1 k hk.1]

/-- C14: when reconciliation returns a mapping (label ids being non-empty), a
category has an entry exactly when a label of its namespaced name was listed or
was created during the run, and the entry is the id of such a label; keys other
than the nine categories have no entry; when no creation fails, all nine
categories have an entry. -/
theorem reconcile_mapping_exact (env : Env) (client : GmailClient) (std : Bool) (w : World)
    (mapping : Obj) (hids : ∀ l ∈ w.labels, l.id ≠ "")
    (hfinish : (reconcile env client std w).1 = .ok (some mapping)) :
    (∀ category ∈ categoryNames,
      ((mapping.get category).isSome ↔
        ((∃ l ∈ w.labels, l.name = "Amurex/" ++ category) ∨
         (∃ l ∈ (reconcile env client std w).2.labels.drop w.labels.length,
            l.name = "Amurex/" ++ category))) ∧
      (∀ id, mapping.get category = some id →
        (∃ l ∈ w.labels, l.name = "Amurex/" ++ category ∧ l.id = id) ∨
        (⟨id, "Amurex/" ++ category⟩ : GmailLabel) ∈
          (reconcile env client std w).2.labels.drop w.labels.length)) ∧
    (∀ k, k ∉ categoryNames → mapping.get k = none) ∧
    ((∀ t cl r, env.labelsCreateError t cl r = none) →
      ∀ category ∈ categoryNames, (mapping.get category).isSome) := by
  cases hlist : env.labelsListError w.time client with
  | some e => simp [reconcile, hlist] at hfinish
  | none =>
    rw [reconcile_listed env client std w hlist] at hfinish ⊢
    simp only [Except.ok.injEq] at hfinish
    obtain ⟨extra, added, _, hl, _, hadded, hmap⟩ := reconcileLabels_facts env client std
      (existingLabelsOf w.labels) GMAIL_COLORS [] (w.log (.labelsList client)) catalog_nodup
      (fun n _ => obj_get_nil n)
    obtain ⟨hother, hiff⟩ := hmap mapping hfinish
    have hdrop : (reconcileLabels env client std (existingLabelsOf w.labels) GMAIL_COLORS []
        (w.log (.labelsList client))).2.labels.drop w.labels.length = added := by
      rw [hl]
      simp [World.log]
    simp only [hdrop]
    have hlisted : ∀ category id,
        (existingLabelsOf w.labels).getTruthy ("Amurex/" ++ category) = some id →
        ∃ l ∈ w.labels, l.name = "Amurex/" ++ category ∧ l.id = id := by
      intro category id h
      apply existingLabelsOf_get_mem
      simp only [Obj.getTruthy] at h
      cases hg : (existingLabelsOf w.labels).get ("Amurex/" ++ category) with
      | none => simp [hg, Option.filter] at h
      | some x =>
        simp only [hg, Option.filter] at h
        split at h
        · exact h
        · cases h
    refine ⟨?_, ?_, ?_⟩
    · intro category hcat
      constructor
      · constructor
        · intro hsome
          obtain ⟨id, hid⟩ := Option.isSome_iff_exists.mp hsome
          rcases (hiff category hcat id).mp hid with h | ⟨_, h⟩
          · obtain ⟨l, hl', hname, _⟩ := hlisted category id h
            exact Or.inl ⟨l, hl', hname⟩
          · exact Or.inr ⟨_, h, rfl⟩
        · rintro (hex | ⟨l, hl', hname⟩)
          · obtain ⟨l, _, _, htruthy⟩ :=
              existingLabelsOf_getTruthy w.labels ("Amurex/" ++ category) hids hex
            rw [(hiff category hcat l.id).mpr (Or.inl htruthy)]
            rfl
          · obtain ⟨n, hn, hname', hnone⟩ := hadded l hl'
            have hnc : n = category := namespaced_injective _ _ (hname'.symm.trans hname)
            subst hnc
            have : (⟨l.id, "Amurex/" ++ n⟩ : GmailLabel) = l := by
              cases l; simp only [GmailLabel.mk.injEq, true_and]; exact hname.symm
            rw [(hiff n hcat l.id).mpr (Or.inr ⟨hnone, this ▸ hl'⟩)]
            rfl
      · intro id hid
        rcases (hiff category hcat id).mp hid with h | ⟨_, h⟩
        · exact Or.inl (hlisted category id h)
        · exact Or.inr h
    · intro k hk
      rw [hother k hk]
      rfl
    · intro hcreate
      have hcover : ∀ (cat : List (String × LabelColor)) (m : Obj) (w0 : World),
          (cat.map Prod.fst).Nodup →
          ∀ m', (reconcileLabels env client std (existingLabelsOf w.labels) cat m w0).1
            = some m' → ∀ n ∈ cat.map Prod.fst, (m'.get n).isSome := by
        intro cat
        induction cat with
        | nil => intro m w0 _ m' _ n hn; simp at hn
        | cons p rest ih =>
          intro m w0 hnodup m' hm' k hk
          obtain ⟨n, c⟩ := p
          simp only [List.map_cons, List.nodup_cons] at hnodup
          obtain ⟨m1, id, hstep, hget⟩ := reconcileLabel_covers env client std
            (existingLabelsOf w.labels) n c m w0 hcreate
          cases hs : reconcileLabel env client std (existingLabelsOf w.labels) n c m w0 with
          | mk r1 w1 =>
            rw [hs] at hstep
            simp only at hstep
            subst hstep
            simp only [reconcileLabels, hs] at hm'
            simp only [List.map_cons, List.mem_cons] at hk
            rcases hk with hk | hk
            · subst hk
              rw [reconcileLabels_get_other env client std (existingLabelsOf w.labels) rest
                m1 w1 m' hm' k hnodup.1, hget]
              rfl
            · exact ih m1 w1 hnodup.2 m' hm' k hk
      exact hcover GMAIL_COLORS [] _ catalog_nodup mapping hfinish

/-- Witness for C11: the mailbox lists `Amurex/comment` with the id `Label_77`;
no creation request for that name is issued and `comment` is mapped to
`Label_77`. -/
theorem reconcile_reuses_existing_witness :
    (∀ c req, Call.labelsCreate c req ∈
        (reconcile (healthyEnv []) sampleClient false labelledWorld).2.trace.drop
          labelledWorld.trace.length →
      req.name ≠ "Amurex/" ++ "comment") ∧
    (∃ l ∈ labelledWorld.labels, l.name = "Amurex/" ++ "comment" ∧
      Obj.get [("to respond", "Label_100"), ("FYI", "Label_101"), ("comment", "Label_77"),
        ("notification", "Label_102"), ("meeting update", "Label_103"),
        ("awaiting reply", "Label_104"), ("actioned", "Label_105"),
        ("promotions", "Label_106"), ("none", "Label_107")] "comment" = some l.id) :=
  ⟨(reconcile_reuses_existing (healthyEnv []) sampleClient false labelledWorld "comment"
      (by decide) (by decide) (by decide)).1,
   (reconcile_reuses_existing (healthyEnv []) sampleClient false labelledWorld "comment"
      (by decide) (by decide) (by decide)).2 _ rfl⟩

/-- Witness for C14: every creation of `Amurex/promotions` fails with status
500; the mapping has an entry for `comment`, for which a label was created,
and none for `promotions`. -/
theorem reconcile_mapping_exact_witness :
    (Obj.get [("to respond", "Label_0"), ("FYI", "Label_1"), ("comment", "Label_2"),
        ("notification", "Label_3"), ("meeting update", "Label_4"),
        ("awaiting reply", "Label_5"), ("actioned", "Label_6"), ("none", "Label_7")]
        "promotions").isSome = false ∧
    ((∃ l ∈ emptyWorld.labels, l.name = "Amurex/" ++ "comment") ∨
      (∃ l ∈ (reconcile (promotionsFailingEnv []) sampleClient false emptyWorld).2.labels.drop
          emptyWorld.labels.length, l.name = "Amurex/" ++ "comment")) :=
  ⟨rfl, ((reconcile_mapping_exact (promotionsFailingEnv []) sampleClient false emptyWorld
      [("to respond", "Label_0"), ("FYI", "Label_1"), ("comment", "Label_2"),
        ("notification", "Label_3"), ("meeting update", "Label_4"),
        ("awaiting reply", "Label_5"), ("actioned", "Label_6"), ("none", "Label_7")]
      (by decide) rfl).1 "comment" (by decide)).1.mp rfl⟩


/-! ## Theorems on the creation failures of the reconciler -/

theorem log_time (w : World) (c : Call) : (w.log c).time = w.time + 1 := by
  simp [World.log, World.time]

/-- One iteration of the reconciliation loop when the label is missing and the
first creation attempt is rejected with status 400 and not 403. -/
theorem reconcileLabel_bad_request (env : Env) (client : GmailClient) (std : Bool) (ex : Obj)
    (n : String) (c : LabelColor) (m : Obj) (w : World) (e : JsError)
    (hmissing : ex.getTruthy ("Amurex/" ++ n) = none)
    (hfirst : env.labelsCreateError w.time client (firstRequest std ("Amurex/" ++ n) c) = some e)
    (h400 : e.hasStatus 400 = true) (h403 : e.hasStatus 403 = false) :
    reconcileLabel env client std ex n c m w =
      match labelsCreate env client (retryRequest ("Amurex/" ++ n))
          (w.log (.labelsCreate client (firstRequest std ("Amurex/" ++ n) c))) with
      | (.ok id, w2) => (some (m.set n id), w2)
      | (.error _, w2) => (some m, w2) := by
  simp only [reconcileLabel, hmissing, labelsCreate, hfirst, h403, h400, if_true,
    Bool.false_eq_true, if_false]

/-- The category that follows a prefix of the catalog is not among the
categories after it. -/
theorem catalog_split_fresh (pre post : List (String × LabelColor)) (n : String)
    (c : LabelColor) (hsplit : GMAIL_COLORS = pre ++ (n, c) :: post) :
    n ∉ post.map Prod.fst := by
  have h := catalog_nodup
  rw [hsplit] at h
  simp only [List.map_append, List.map_cons] at h
  exact (List.nodup_cons.mp (List.nodup_append.mp h).2.1).1

/-- C13: when the label of a category is missing and its creation request is
rejected with status 400 (and not 403), the reconciler issues exactly one more
creation request for it, with the same name and visibility flags and without
color; when that retry succeeds, the step reports no permission error, the
provider holds the new label, and every mapping that reconciliation returns
sends the category to the id of the new label. -/
theorem reconcile_retries_without_color (env : Env) (client : GmailClient) (std : Bool)
    (w : World) (pre post : List (String × LabelColor)) (n : String) (c : LabelColor)
    (m : Obj) (w1 : World) (e : JsError)
    (hsplit : GMAIL_COLORS = pre ++ (n, c) :: post)
    (hlist : env.labelsListError w.time client = none)
    (hpre : reconcileLabels env client std (existingLabelsOf w.labels) pre []
      (w.log (.labelsList client)) = (some m, w1))
    (hmissing : (existingLabelsOf w.labels).getTruthy ("Amurex/" ++ n) = none)
    (hfirst : env.labelsCreateError w1.time client (firstRequest std ("Amurex/" ++ n) c) = some e)
    (h400 : e.hasStatus 400 = true) (h403 : e.hasStatus 403 = false) :
    (reconcileLabel env client std (existingLabelsOf w.labels) n c m w1).2.trace =
      w1.trace ++ [.labelsCreate client (firstRequest std ("Amurex/" ++ n) c),
                   .labelsCreate client (retryRequest ("Amurex/" ++ n))] ∧
    (retryRequest ("Amurex/" ++ n)).name = (firstRequest std ("Amurex/" ++ n) c).name ∧
    (retryRequest ("Amurex/" ++ n)).labelListVisibility =
      (firstRequest std ("Amurex/" ++ n) c).labelListVisibility ∧
    (retryRequest ("Amurex/" ++ n)).messageListVisibility =
      (firstRequest std ("Amurex/" ++ n) c).messageListVisibility ∧
    (retryRequest ("Amurex/" ++ n)).color = none ∧
    (env.labelsCreateError (w1.time + 1) client (retryRequest ("Amurex/" ++ n)) = none →
      reconcileLabel env client std (existingLabelsOf w.labels) n c m w1 =
        (some (m.set n ("Label_" ++ toString w1.nextLabelId)),
         { labels := w1.labels ++ [⟨"Label_" ++ toString w1.nextLabelId, "Amurex/" ++ n⟩],
           nextLabelId := w1.nextLabelId + 1,
           emails := w1.emails,
           trace := w1.trace ++ [.labelsCreate client (firstRequest std ("Amurex/" ++ n) c),
                                 .labelsCreate client (retryRequest ("Amurex/" ++ n))] }) ∧
      ∀ mapping, (reconcile env client std w).1 = .ok (some mapping) →
        mapping.get n = some ("Label_" ++ toString w1.nextLabelId)) := by
  have hstep := reconcileLabel_bad_request env client std (existingLabelsOf w.labels) n c m w1 e
    hmissing hfirst h400 h403
  have htime := log_time w1 (.labelsCreate client (firstRequest std ("Amurex/" ++ n) c))
  refine ⟨?_, rfl, rfl, rfl, rfl, ?_⟩
  · rw [hstep]
    cases hretry : env.labelsCreateError (w1.time + 1) client (retryRequest ("Amurex/" ++ n)) with
    | none =>
      rw [labelsCreate, htime, hretry]
      simp [World.log]
    | some e2 =>
      rw [labelsCreate, htime, hretry]
      simp [World.log]
  · intro hretry
    have hdone : reconcileLabel env client std (existingLabelsOf w.labels) n c m w1 =
        (some (m.set n ("Label_" ++ toString w1.nextLabelId)),
         { labels := w1.labels ++ [⟨"Label_" ++ toString w1.nextLabelId, "Amurex/" ++ n⟩],
           nextLabelId := w1.nextLabelId + 1,
           emails := w1.emails,
           trace := w1.trace ++ [.labelsCreate client (firstRequest std ("Amurex/" ++ n) c),
                                 .labelsCreate client (retryRequest ("Amurex/" ++ n))] }) := by
      rw [hstep, labelsCreate, htime, hretry]
      simp [World.log, retryRequest]
    refine ⟨hdone, ?_⟩
    intro mapping hfinish
    rw [reconcile_listed env client std w hlist] at hfinish
    simp only [Except.ok.injEq] at hfinish
    rw [hsplit, reconcileLabels_append, hpre] at hfinish
    simp only [reconcileLabels, hdone] at hfinish
    rw [reconcileLabels_get_other env client std (existingLabelsOf w.labels) post _ _ mapping
      hfinish n (catalog_split_fresh pre post n c hsplit)]
    exact obj_get_set_same m n _

/-- Witness for C13: in a mailbox without labels the creation of
`Amurex/promotions` with a color is rejected with status 400 and every other
creation succeeds; the retry creates `Label_7` and the mapping sends
`promotions` to it. -/
theorem reconcile_retries_without_color_witness :
    (reconcile (promotionsColorEnv []) sampleClient false emptyWorld).1 =
      .ok (some (sevenLabels ++ [("promotions", "Label_7"), ("none", "Label_8")])) ∧
    Obj.get (sevenLabels ++ [("promotions", "Label_7"), ("none", "Label_8")]) "promotions" =
      some ("Label_" ++ toString sevenLabelsWorld.nextLabelId) :=
  ⟨rfl, (reconcile_retries_without_color (promotionsColorEnv []) sampleClient false emptyWorld
    beforePromotions [("none", ⟨"#999999", "#ffffff"⟩)] "promotions" ⟨"#2da2bb", "#ffffff"⟩
    sevenLabels sevenLabelsWorld { status := some 400 } rfl rfl rfl rfl rfl rfl rfl).2.2.2.2.2
      rfl |>.2 _ rfl⟩


/-! ## Theorems on the permission failures of label creation -/

/-- The run of the handler on an admitted request. -/
theorem POST_admitted (env : Env) (requestData : RequestData) (w : World) (u token : String)
    (hadm : Admitted env requestData w u token) :
    POST env requestData w =
      match gmailBlock env (handlerClient env w u token) u
          (requestData.useStandardColors == some true) (blockStart requestData w u) with
      | (.ok response, w2) => (response, w2)
      | (.error gmailError, w2) =>
        if gmailError.hasStatus 403 then (insufficientPermissions, w2)
        else (internalError gmailError, w2) := by
  obtain ⟨hu, hne, row, hrow, htag⟩ := hadm
  simp only [POST, hu, hne, if_false, hrow, htag, Bool.not_true, Bool.false_eq_true,
    authorized, getOAuth2Client, log_time, handlerClient, blockStart]

/-- One iteration of the reconciliation loop when the label is missing and the
first creation attempt is rejected with status 403. -/
theorem reconcileLabel_forbidden (env : Env) (client : GmailClient) (std : Bool) (ex : Obj)
    (n : String) (c : LabelColor) (m : Obj) (w : World) (e : JsError)
    (hmissing : ex.getTruthy ("Amurex/" ++ n) = none)
    (hfirst : env.labelsCreateError w.time client (firstRequest std ("Amurex/" ++ n) c) = some e)
    (h403 : e.hasStatus 403 = true) :
    reconcileLabel env client std ex n c m w =
      (none, w.log (.labelsCreate client (firstRequest std ("Amurex/" ++ n) c))) := by
  simp only [reconcileLabel, hmissing, labelsCreate, hfirst, h403, if_true]

/-- The reconciliation loop adds only label creations to the trace. -/
theorem reconcileLabels_trace (env : Env) (client : GmailClient) (std : Bool) (ex : Obj)
    (cat : List (String × LabelColor)) (m : Obj) (w : World) :
    ∃ extra, (reconcileLabels env client std ex cat m w).2.trace = w.trace ++ extra ∧
      ∀ call ∈ extra, call.touchesMessages = false := by
  induction cat generalizing m w with
  | nil => exact ⟨[], by simp [reconcileLabels], by simp⟩
  | cons p rest ih =>
    obtain ⟨n, c⟩ := p
    obtain ⟨extra1, added1, ht1, -, hcalls1, -, -⟩ :=
      reconcileLabel_facts env client std ex n c m w
    have hquiet1 : ∀ call ∈ extra1, call.touchesMessages = false := by
      intro call hcall
      obtain ⟨req, hreq, -, -⟩ := hcalls1 call hcall
      rw [hreq]
      rfl
    cases hstep : reconcileLabel env client std ex n c m w with
    | mk r1 w1 =>
      rw [hstep] at ht1
      cases r1 with
      | none =>
        exact ⟨extra1, by simpa only [reconcileLabels, hstep] using ht1, hquiet1⟩
      | some m1 =>
        obtain ⟨extra2, ht2, hquiet2⟩ := ih m1 w1
        refine ⟨extra1 ++ extra2, ?_, ?_⟩
        · simp only [reconcileLabels, hstep]
          rw [ht2]
          simp only at ht1
          rw [ht1, List.append_assoc]
        · intro call hcall
          rcases List.mem_append.mp hcall with h | h
          · exact hquiet1 call h
          · exact hquiet2 call h

/-- Counterexample for C12: a creation request with a color is rejected with
status 400 and the retry without color with status 403; the fifth call of the
run is such a retry, yet the handler answers status 200 with `success = true`,
lists the messages and stores a record. -/
theorem POST_retry_forbidden_counterexample :
    (POST (retryForbiddenEnv [⟨"msg-1"⟩]) { userId := some "user-1" } emptyWorld).2.trace.get? 4 =
      some (.labelsCreate sampleClient (retryRequest "Amurex/to respond")) ∧
    ((retryForbiddenEnv [⟨"msg-1"⟩]).labelsCreateError 4 sampleClient
      (retryRequest "Amurex/to respond")).map (fun e => e.hasStatus 403) = some true ∧
    (POST (retryForbiddenEnv [⟨"msg-1"⟩]) { userId := some "user-1" } emptyWorld).1.status = 200 ∧
    (POST (retryForbiddenEnv [⟨"msg-1"⟩]) { userId := some "user-1" } emptyWorld).1.success = true ∧
    (POST (retryForbiddenEnv [⟨"msg-1"⟩]) { userId := some "user-1" } emptyWorld).1.errorType = none ∧
    (POST (retryForbiddenEnv [⟨"msg-1"⟩]) { userId := some "user-1" } emptyWorld).2.trace.any
      Call.touchesMessages = true ∧
    (POST (retryForbiddenEnv [⟨"msg-1"⟩]) { userId := some "user-1" } emptyWorld).2.emails.length = 1 :=
  ⟨rfl, rfl, rfl, rfl, rfl, rfl, rfl⟩

/-- C12 (amended): for an admitted request, when the label of a category is
missing and the first creation attempt for it is rejected with status 403,
the handler answers status 403 with `success = false` and the error type
`insufficient_permissions`, no call of the run lists, fetches, classifies,
labels or stores a message, and the record store is unchanged. -/
theorem POST_first_attempt_forbidden (env : Env) (requestData : RequestData) (w : World)
    (u token : String) (pre post : List (String × LabelColor)) (n : String) (c : LabelColor)
    (m : Obj) (w1 : World) (e : JsError)
    (hadm : Admitted env requestData w u token)
    (hsplit : GMAIL_COLORS = pre ++ (n, c) :: post)
    (hlist : env.labelsListError (blockStart requestData w u).time
      (handlerClient env w u token) = none)
    (hpre : reconcileLabels env (handlerClient env w u token)
      (requestData.useStandardColors == some true)
      (existingLabelsOf (blockStart requestData w u).labels) pre []
      ((blockStart requestData w u).log (.labelsList (handlerClient env w u token))) =
        (some m, w1))
    (hmissing : (existingLabelsOf (blockStart requestData w u).labels).getTruthy
      ("Amurex/" ++ n) = none)
    (hfirst : env.labelsCreateError w1.time (handlerClient env w u token)
      (firstRequest (requestData.useStandardColors == some true) ("Amurex/" ++ n) c) = some e)
    (h403 : e.hasStatus 403 = true) :
    (POST env requestData w).1.status = 403 ∧
    (POST env requestData w).1.success = false ∧
    (POST env requestData w).1.errorType = some "insufficient_permissions" ∧
    (∃ extra, (POST env requestData w).2.trace = w.trace ++ extra ∧
      ∀ call ∈ extra, call.touchesMessages = false) ∧
    (POST env requestData w).2.emails = w.emails := by
  have hrun : POST env requestData w =
      (insufficientPermissions,
       w1.log (.labelsCreate (handlerClient env w u token)
        (firstRequest (requestData.useStandardColors == some true) ("Amurex/" ++ n) c))) := by
    rw [POST_admitted env requestData w u token hadm]
    simp only [gmailBlock]
    rw [reconcile_listed env _ _ _ hlist, hsplit, reconcileLabels_append, hpre]
    simp only [reconcileLabels]
    rw [reconcileLabel_forbidden env _ _ _ n c m w1 e hmissing hfirst h403]
  obtain ⟨extra, htrace, hquiet⟩ := reconcileLabels_trace env (handlerClient env w u token)
    (requestData.useStandardColors == some true)
    (existingLabelsOf (blockStart requestData w u).labels) pre []
    ((blockStart requestData w u).log (.labelsList (handlerClient env w u token)))
  have hemails := (reconcileLabels_quiet env (handlerClient env w u token)
    (requestData.useStandardColors == some true)
    (existingLabelsOf (blockStart requestData w u).labels) pre []
    ((blockStart requestData w u).log (.labelsList (handlerClient env w u token)))).1
  rw [hpre] at htrace hemails
  rw [hrun]
  refine ⟨rfl, rfl, rfl, ⟨[.usersSelect u requestData.accessToken, .usersCreatedAt u,
    .labelsList (handlerClient env w u token)] ++ extra ++
    [.labelsCreate (handlerClient env w u token)
      (firstRequest (requestData.useStandardColors == some true) ("Amurex/" ++ n) c)], ?_, ?_⟩, ?_⟩
  · simp only [World.log] at htrace ⊢
    rw [htrace]
    simp [blockStart, World.log]
  · intro call hcall
    simp only [List.mem_append, List.mem_cons, List.mem_singleton, List.not_mem_nil,
      or_false] at hcall
    rcases hcall with ((h | h | h) | h) | h
    · rw [h]; rfl
    · rw [h]; rfl
    · rw [h]; rfl
    · exact hquiet call h
    · rw [h]; rfl
  · simp only [World.log] at hemails ⊢
    rw [hemails]
    rfl

/-- Witness for C12 (amended): the first two labels are created, then the
first creation attempt for `Amurex/comment` is rejected with status 403. -/
theorem POST_first_attempt_forbidden_witness :
    (POST (commentForbiddenEnv [⟨"msg-1"⟩]) { userId := some "user-1" } emptyWorld).1.status = 403 ∧
    (POST (commentForbiddenEnv [⟨"msg-1"⟩]) { userId := some "user-1" } emptyWorld).1.success =
      false ∧
    (POST (commentForbiddenEnv [⟨"msg-1"⟩]) { userId := some "user-1" } emptyWorld).1.errorType =
      some "insufficient_permissions" ∧
    (∃ extra, (POST (commentForbiddenEnv [⟨"msg-1"⟩]) { userId := some "user-1" }
        emptyWorld).2.trace = emptyWorld.trace ++ extra ∧
      ∀ call ∈ extra, call.touchesMessages = false) ∧
    (POST (commentForbiddenEnv [⟨"msg-1"⟩]) { userId := some "user-1" } emptyWorld).2.emails =
      emptyWorld.emails :=
  POST_first_attempt_forbidden (commentForbiddenEnv [⟨"msg-1"⟩]) { userId := some "user-1" }
    emptyWorld "user-1" "refresh-1" beforeComment (GMAIL_COLORS.drop 3) "comment"
    ⟨"#ffad47", "#ffffff"⟩ [("to respond", "Label_0"), ("FYI", "Label_1")] twoLabelsWorld
    { status := some 403 }
    ⟨rfl, by decide, ⟨_, rfl, rfl⟩⟩ rfl rfl rfl rfl rfl rfl


/-! ## Theorems on the credential selector -/

/-- C15: the selector answers the legacy configuration exactly when the lookup
of the creation date fails or the creation date is strictly before the cutoff
2025-03-28T08:33:14.696Z, and the current configuration otherwise, in
particular for a creation date at the cutoff; the choice depends only on the
result of the lookup, and the selector always answers, after one read of the
creation date. -/
theorem getOAuth2Client_choice (env : Env) (userId : String) (w : World) :
    cutoffDate = utcInstant 2025 3 28 8 33 14 696 ∧
    ((getOAuth2Client env userId w).1 = .old ↔
      (lookupFails (env.usersCreatedAt w.time userId) ∨
       ∃ t, (env.usersCreatedAt w.time userId).data = some (some t) ∧ t < cutoffDate)) ∧
    ((getOAuth2Client env userId w).1 = .new ↔
      ¬ (lookupFails (env.usersCreatedAt w.time userId) ∨
       ∃ t, (env.usersCreatedAt w.time userId).data = some (some t) ∧ t < cutoffDate)) ∧
    ((env.usersCreatedAt w.time userId).error = none →
      (env.usersCreatedAt w.time userId).data = some (some cutoffDate) →
      (getOAuth2Client env userId w).1 = .new) ∧
    (∀ (env2 : Env) (w2 : World),
      env2.usersCreatedAt w2.time userId = env.usersCreatedAt w.time userId →
      (getOAuth2Client env2 userId w2).1 = (getOAuth2Client env userId w).1) ∧
    (getOAuth2Client env userId w).2 = w.log (.usersCreatedAt userId) := by
  have hold : (getOAuth2Client env userId w).1 = .old ↔
      (lookupFails (env.usersCreatedAt w.time userId) ∨
       ∃ t, (env.usersCreatedAt w.time userId).data = some (some t) ∧ t < cutoffDate) := by
    simp only [getOAuth2Client, selectConfig, lookupFails]
    cases herr : (env.usersCreatedAt w.time userId).error with
    | some e => simp
    | none =>
      cases hdata : (env.usersCreatedAt w.time userId).data with
      | none => simp
      | some d =>
        cases d with
        | none => simp
        | some t =>
          by_cases ht : t < cutoffDate
          · simp [ht]
          · simp [ht]
  refine ⟨by decide, hold, ?_, ?_, ?_, rfl⟩
  · rw [← hold]
    cases (getOAuth2Client env userId w).1 <;> simp
  · intro herr hdata
    simp only [getOAuth2Client, selectConfig, herr, hdata, lt_self_iff_false, if_false]
  · intro env2 w2 h
    simp only [getOAuth2Client, h]

/-- Witness for C15: the account of `healthyEnv` was created after the cutoff
and gets the current configuration, in every environment that answers the
lookup alike. -/
theorem getOAuth2Client_choice_witness :
    (getOAuth2Client (healthyEnv []) "user-1" emptyWorld).1 = .new ∧
    (getOAuth2Client (insertFailingEnv []) "user-1" storedWorld).1 =
      (getOAuth2Client (healthyEnv []) "user-1" emptyWorld).1 :=
  ⟨(getOAuth2Client_choice (healthyEnv []) "user-1" emptyWorld).2.2.1.mpr (by
      simp [lookupFails, healthyEnv, cutoffDate]),
   (getOAuth2Client_choice (healthyEnv []) "user-1" emptyWorld).2.2.2.2.1
      (insertFailingEnv []) storedWorld rfl⟩

/-! ## Theorems on the stored count -/

/-- C17: with every insert failing, the store operation answers `true` for a
message without record although it inserts nothing, and the handler reports
`total_stored = 1` for a run that leaves the record store empty. -/
theorem POST_counts_failed_insert :
    (storeSample (insertFailingEnv []) emptyWorld).1.toOption = some true ∧
    (storeSample (insertFailingEnv []) emptyWorld).2.emails = [] ∧
    (POST (insertFailingEnv [⟨"msg-1"⟩]) { userId := some "user-1" } emptyWorld).1.status = 200 ∧
    (POST (insertFailingEnv [⟨"msg-1"⟩]) { userId := some "user-1" } emptyWorld).1.processed =
      some 1 ∧
    (POST (insertFailingEnv [⟨"msg-1"⟩]) { userId := some "user-1" } emptyWorld).1.total_stored =
      some 1 ∧
    (POST (insertFailingEnv [⟨"msg-1"⟩]) { userId := some "user-1" } emptyWorld).2.emails = [] :=
  ⟨rfl, rfl, rfl, rfl, rfl, rfl⟩


/-! ## Lemmas on the calls of the store operation -/

/-- The store operation issues the existence check and then only inserts of
rows for the pair with the given content; the rows it adds have that content. -/
theorem store_calls (env : Env) (u m t : String) (sender subject content : JsString)
    (receivedAt : Option Int) (isRead : Bool) (snippet : JsString) (w : World) :
    ∃ extra added,
      (storeEmailInDatabase env u m t sender subject content receivedAt isRead
        snippet w).2.trace = w.trace ++ .emailsSelectOne u m :: extra ∧
      (storeEmailInDatabase env u m t sender subject content receivedAt isRead
        snippet w).2.emails = w.emails ++ added ∧
      (∀ call ∈ extra, ∃ row, call = .emailsInsert row ∧ row.content = content ∧
        row.user_id = u ∧ row.message_id = m) ∧
      (∀ row ∈ added, row.content = content ∧ row.user_id = u ∧ row.message_id = m) := by
  have htime : (w.log (.emailsSelectOne u m)).time = w.time + 1 := by
    simp [World.log, World.time]
  cases hex : (if env.emailsSelectOneFails w.time u m = true then none
      else maybeSingle (rowsFor w.emails u m)) with
  | some row =>
    refine ⟨[], [], ?_, ?_, by simp, by simp⟩ <;>
      simp [storeEmailInDatabase, hex, World.log]
  | none =>
    cases receivedAt with
    | none =>
      refine ⟨[], [], ?_, ?_, by simp, by simp⟩ <;>
        simp [storeEmailInDatabase, hex, World.log]
    | some received =>
      simp only [storeEmailInDatabase, hex, htime, emailsInsert]
      cases hins : env.emailsInsertError (w.time + 1) (emailDataOf u m t sender subject content
          received (env.now (w.time + 1)) isRead snippet) with
      | none =>
        refine ⟨[.emailsInsert (emailDataOf u m t sender subject content
          received (env.now (w.time + 1)) isRead snippet)],
          [emailDataOf u m t sender subject content
          received (env.now (w.time + 1)) isRead snippet], ?_, ?_, ?_, ?_⟩ <;>
          simp [World.log, emailDataOf]
      | some e =>
        by_cases hm : mentionsOptionalColumn e = true
        · simp only [hm, if_true]
          cases hins2 : env.emailsInsertError
              ((w.log (.emailsSelectOne u m)).log (.emailsInsert (emailDataOf u m t sender subject
                content received (env.now (w.time + 1)) isRead snippet))).time
              (emailDataOf u m t sender subject content received (env.now (w.time + 1))
                isRead snippet) with
          | none =>
            refine ⟨[.emailsInsert (emailDataOf u m t sender subject content
              received (env.now (w.time + 1)) isRead snippet),
              .emailsInsert (emailDataOf u m t sender subject content
              received (env.now (w.time + 1)) isRead snippet)],
              [emailDataOf u m t sender subject content
              received (env.now (w.time + 1)) isRead snippet], ?_, ?_, ?_, ?_⟩ <;>
              simp [World.log, emailDataOf]
          | some e2 =>
            refine ⟨[.emailsInsert (emailDataOf u m t sender subject content
              received (env.now (w.time + 1)) isRead snippet),
              .emailsInsert (emailDataOf u m t sender subject content
              received (env.now (w.time + 1)) isRead snippet)], [], ?_, ?_, ?_, ?_⟩ <;>
              simp [World.log, emailDataOf]
        · simp only [hm, Bool.false_eq_true, if_false]
          refine ⟨[.emailsInsert (emailDataOf u m t sender subject content
              received (env.now (w.time + 1)) isRead snippet)], [], ?_, ?_, ?_, ?_⟩ <;>
            simp [World.log, emailDataOf]

/-- The world after `storeAndCount` is the world after the store operation. -/
theorem storeAndCount_world (env : Env) (u m t : String) (sender subject content : JsString)
    (receivedAt : Option Int) (isRead : Bool) (snippet : JsString) (acc : LoopState)
    (w : World) :
    (storeAndCount env u m t sender subject content receivedAt isRead snippet acc w).2 =
      (storeEmailInDatabase env u m t sender subject content receivedAt isRead snippet w).2 := by
  unfold storeAndCount
  split
  · rename_i w2 heq
    rw [heq]
  · rename_i r w2 _ heq
    rw [heq]

/-- The results after `storeAndCount` are the results before it. -/
theorem storeAndCount_results (env : Env) (u m t : String) (sender subject content : JsString)
    (receivedAt : Option Int) (isRead : Bool) (snippet : JsString) (acc : LoopState)
    (w : World) :
    (storeAndCount env u m t sender subject content receivedAt isRead snippet acc w).1.results =
      acc.results := by
  unfold storeAndCount
  split <;> rfl


/-! ## Theorems on messages that carry a category label -/

/-- Counterexample for C16: the listed message carries the label of `comment`
and has the plain text `Hello`; its entry of `results` has the category
`already_labeled`, and the record stored for it has an empty content. -/
theorem POST_already_labeled_counterexample :
    (POST (labeledEnv [⟨"msg-1"⟩]) { userId := some "user-1" } emptyWorld).1.results =
      some [⟨"msg-1", utf16 "Greetings", "already_labeled", true⟩] ∧
    (POST (labeledEnv [⟨"msg-1"⟩]) { userId := some "user-1" } emptyWorld).2.emails.map
      (fun row => (row.message_id, row.content)) = [("msg-1", [])] ∧
    extractBody (labeledEnv [⟨"msg-1"⟩]).decode labeledMessage.payload labeledMessage.snippet =
      utf16 "Hello" :=
  ⟨rfl, rfl, rfl⟩

/-- C16 (amended): for a message that is to be categorized and carries one of
the reconciled category labels, the iteration issues no classifier call and no
label application, adds to `results` the entry with the category
`already_labeled`, and runs the store operation with an empty content: every
insert it issues and every record it adds has an empty content, and when no
record of the message exists, the date is valid and the insert succeeds, the
record with the empty content is added. -/
theorem processMessage_already_labeled (env : Env) (client : GmailClient) (u : String)
    (amurexLabels : Obj) (message : MessageStub) (acc : LoopState) (w : World)
    (fullMessage : FullMessage) (labelIds : List String)
    (hget : env.messagesGet w.time client message.id = .ok fullMessage)
    (hids : fullMessage.labelIds = some labelIds)
    (hlabeled : (findAmurexLabel amurexLabels labelIds).isSome = true) :
    ∃ acc1 w1 extra added,
      processMessage env client u amurexLabels true message acc w = (.ok acc1, w1) ∧
      acc1.results = acc.results ++
        [⟨message.id, headerOr fullMessage.headers "Subject" (utf16 "(No Subject)"),
          "already_labeled", true⟩] ∧
      w1.trace = w.trace ++ .messagesGet client message.id ::
        .emailsSelectOne u message.id :: extra ∧
      w1.emails = w.emails ++ added ∧
      (∀ call ∈ extra, call.classifiesOrLabels = false ∧
        ∃ row, call = .emailsInsert row ∧ row.content = [] ∧ row.message_id = message.id) ∧
      (∀ row ∈ added, row.content = [] ∧ row.message_id = message.id) ∧
      (∀ received, receivedDate fullMessage.internalDate = some received →
        env.emailsSelectOneFails (w.time + 1) u message.id = false →
        rowsFor w.emails u message.id = [] →
        env.emailsInsertError (w.time + 2)
          (emailDataOf u message.id ((fullMessage.threadId.filter (fun t => t ≠ "")).getD
            message.id) (headerOr fullMessage.headers "From" (utf16 "Unknown"))
            (headerOr fullMessage.headers "Subject" (utf16 "(No Subject)")) [] received
            (env.now (w.time + 2)) (!labelIds.contains "UNREAD") fullMessage.snippet) = none →
        w1.emails = w.emails ++
          [emailDataOf u message.id ((fullMessage.threadId.filter (fun t => t ≠ "")).getD
            message.id) (headerOr fullMessage.headers "From" (utf16 "Unknown"))
            (headerOr fullMessage.headers "Subject" (utf16 "(No Subject)")) [] received
            (env.now (w.time + 2)) (!labelIds.contains "UNREAD") fullMessage.snippet]) := by
  have hrun : processMessage env client u amurexLabels true message acc w =
      (.ok (storeAndCount env u message.id
          ((fullMessage.threadId.filter (fun t => t ≠ "")).getD message.id)
          (headerOr fullMessage.headers "From" (utf16 "Unknown"))
          (headerOr fullMessage.headers "Subject" (utf16 "(No Subject)")) []
          (receivedDate fullMessage.internalDate) (!labelIds.contains "UNREAD")
          fullMessage.snippet
          { acc with results := acc.results ++
            [⟨message.id, headerOr fullMessage.headers "Subject" (utf16 "(No Subject)"),
              "already_labeled", true⟩] }
          (w.log (.messagesGet client message.id))).1,
       (storeAndCount env u message.id
          ((fullMessage.threadId.filter (fun t => t ≠ "")).getD message.id)
          (headerOr fullMessage.headers "From" (utf16 "Unknown"))
          (headerOr fullMessage.headers "Subject" (utf16 "(No Subject)")) []
          (receivedDate fullMessage.internalDate) (!labelIds.contains "UNREAD")
          fullMessage.snippet
          { acc with results := acc.results ++
            [⟨message.id, headerOr fullMessage.headers "Subject" (utf16 "(No Subject)"),
              "already_labeled", true⟩] }
          (w.log (.messagesGet client message.id))).2) := by
    simp only [processMessage, hget, hids, hlabeled, Bool.true_and, if_true]
  obtain ⟨extra, added, htrace, hemails, hcalls, hadded⟩ := store_calls env u message.id
    ((fullMessage.threadId.filter (fun t => t ≠ "")).getD message.id)
    (headerOr fullMessage.headers "From" (utf16 "Unknown"))
    (headerOr fullMessage.headers "Subject" (utf16 "(No Subject)")) []
    (receivedDate fullMessage.internalDate) (!labelIds.contains "UNREAD") fullMessage.snippet
    (w.log (.messagesGet client message.id))
  refine ⟨_, _, extra, added, hrun, ?_, ?_, ?_, ?_, ?_, ?_⟩
  · rw [storeAndCount_results]
  · rw [storeAndCount_world, htrace]
    simp [World.log]
  · rw [storeAndCount_world, hemails]
    rfl
  · intro call hcall
    obtain ⟨row, hrow, hcontent, -, hid⟩ := hcalls call hcall
    refine ⟨?_, row, hrow, hcontent, hid⟩
    rw [hrow]
    rfl
  · intro row hrow
    exact ⟨(hadded row hrow).1, (hadded row hrow).2.2⟩
  · intro received hdate hcheck hnone hins
    rw [storeAndCount_world, hdate]
    have htime : (w.log (.messagesGet client message.id)).time = w.time + 1 := log_time _ _
    obtain ⟨w2, hstore, -, -, -, -, hok⟩ := store_absent env u message.id
      ((fullMessage.threadId.filter (fun t => t ≠ "")).getD message.id)
      (headerOr fullMessage.headers "From" (utf16 "Unknown"))
      (headerOr fullMessage.headers "Subject" (utf16 "(No Subject)")) []
      received (!labelIds.contains "UNREAD") fullMessage.snippet
      (w.log (.messagesGet client message.id)) (Or.inr (Or.inl hnone))
    rw [hstore]
    rw [htime] at hok
    exact hok hins

/-- Witness for C16 (amended): the message `labeledMessage` carries the label
`Label_2` of `comment`; its record is added with an empty content. -/
theorem processMessage_already_labeled_witness :
    ∃ acc1 w1 extra added,
      processMessage (labeledEnv [⟨"msg-1"⟩]) sampleClient "user-1" sampleLabels true
        ⟨"msg-1"⟩ { results := [], totalStoredCount := 0 } emptyWorld = (.ok acc1, w1) ∧
      acc1.results = [] ++ [⟨"msg-1", utf16 "Greetings", "already_labeled", true⟩] ∧
      w1.trace = emptyWorld.trace ++ .messagesGet sampleClient "msg-1" ::
        .emailsSelectOne "user-1" "msg-1" :: extra ∧
      w1.emails = emptyWorld.emails ++ added ∧
      (∀ call ∈ extra, call.classifiesOrLabels = false ∧
        ∃ row, call = .emailsInsert row ∧ row.content = [] ∧ row.message_id = "msg-1") ∧
      (∀ row ∈ added, row.content = [] ∧ row.message_id = "msg-1") :=
  match processMessage_already_labeled (labeledEnv [⟨"msg-1"⟩]) sampleClient "user-1"
      sampleLabels ⟨"msg-1"⟩ { results := [], totalStoredCount := 0 } emptyWorld labeledMessage
      ["UNREAD", "Label_2"] rfl rfl rfl with
  | ⟨acc1, w1, extra, added, h1, h2, h3, h4, h5, h6, _⟩ =>
    ⟨acc1, w1, extra, added, h1, h2, h3, h4, h5, h6⟩


/-! ## Theorems on the failures of one message -/

/-- Counterexample for C18: the fetch of the first of two listed messages
fails with status 500; the handler answers status 500 with `success = false`
and without results, the second message is never fetched and nothing is
stored. -/
theorem POST_fetch_failure_counterexample :
    (POST (fetchFailingEnv [⟨"msg-1"⟩, ⟨"msg-2"⟩]) { userId := some "user-1" }
      emptyWorld).1.status = 500 ∧
    (POST (fetchFailingEnv [⟨"msg-1"⟩, ⟨"msg-2"⟩]) { userId := some "user-1" }
      emptyWorld).1.success = false ∧
    (POST (fetchFailingEnv [⟨"msg-1"⟩, ⟨"msg-2"⟩]) { userId := some "user-1" }
      emptyWorld).1.results = none ∧
    (POST (fetchFailingEnv [⟨"msg-1"⟩, ⟨"msg-2"⟩]) { userId := some "user-1" }
      emptyWorld).2.trace.contains (.messagesGet sampleClient "msg-2") = false ∧
    (POST (fetchFailingEnv [⟨"msg-1"⟩, ⟨"msg-2"⟩]) { userId := some "user-1" }
      emptyWorld).2.emails = [] :=
  ⟨rfl, rfl, rfl, by decide, rfl⟩

/-- The classifier answers `none` when the completion call fails. -/
theorem categorizeWithAI_error (groq : ChatRequest → Except JsError ChatCompletion)
    (fromEmail subject body : JsString) (e : JsError)
    (h : groq (chatRequest fromEmail subject body) = .error e) :
    categorizeWithAI groq fromEmail subject body = "none" := by
  simp only [categorizeWithAI, h]

/-- C18 (amended): in the processing loop, a failure of the fetch of a message
and a failure of the label application end the loop with that failure, the
remaining messages being left alone; a failure of the classifier call is
contained: the message is recorded with the category `none`, no label is
applied, the store operation is run with the extracted body, and the loop
goes on with the remaining messages. -/
theorem processMessages_failure_containment (env : Env) (client : GmailClient) (u : String)
    (amurexLabels : Obj) (cc i : Nat) (message : MessageStub) (rest : List MessageStub)
    (acc : LoopState) (w : World) :
    (∀ e, env.messagesGet w.time client message.id = .error e →
      processMessages env client u amurexLabels cc i (message :: rest) acc w =
        (.error e, w.log (.messagesGet client message.id))) ∧
    (∀ fullMessage labelIds labelId e,
      env.messagesGet w.time client message.id = .ok fullMessage →
      fullMessage.labelIds = some labelIds → i < cc →
      findAmurexLabel amurexLabels labelIds = none →
      categorizeWithAI (env.groq (w.time + 1)) (senderOf fullMessage) (subjectOf fullMessage)
        (truncateBody (bodyOf env fullMessage)) ≠ "none" →
      amurexLabels.getTruthy (categorizeWithAI (env.groq (w.time + 1)) (senderOf fullMessage)
        (subjectOf fullMessage) (truncateBody (bodyOf env fullMessage))) = some labelId →
      env.messagesModifyError (w.time + 2) client message.id [labelId] = some e →
      processMessages env client u amurexLabels cc i (message :: rest) acc w =
        (.error e, ((w.log (.messagesGet client message.id)).log
          (.chatCompletion (classifierRequest env fullMessage))).log
          (.messagesModify client message.id [labelId]))) ∧
    (∀ fullMessage labelIds e,
      env.messagesGet w.time client message.id = .ok fullMessage →
      fullMessage.labelIds = some labelIds → i < cc →
      findAmurexLabel amurexLabels labelIds = none →
      env.groq (w.time + 1) (classifierRequest env fullMessage) = .error e →
      ∃ acc1 w1 extra,
        processMessage env client u amurexLabels (decide (i < cc)) message acc w =
          (.ok acc1, w1) ∧
        acc1.results = acc.results ++ [⟨message.id, subjectOf fullMessage, "none", true⟩] ∧
        w1.trace = w.trace ++ .messagesGet client message.id ::
          .chatCompletion (classifierRequest env fullMessage) ::
          .emailsSelectOne u message.id :: extra ∧
        (∀ call ∈ extra, ∃ row, call = .emailsInsert row ∧ row.content = bodyOf env fullMessage ∧
          row.message_id = message.id) ∧
        processMessages env client u amurexLabels cc i (message :: rest) acc w =
          processMessages env client u amurexLabels cc (i + 1) rest acc1 w1) := by
  have htime : (w.log (.messagesGet client message.id)).time = w.time + 1 := log_time _ _
  refine ⟨?_, ?_, ?_⟩
  · intro e hget
    simp only [processMessages, processMessage, hget]
  · intro fullMessage labelIds labelId e hget hids hi hnot hcat hlabel hmod
    have htime2 : ((w.log (.messagesGet client message.id)).log
        (.chatCompletion (classifierRequest env fullMessage))).time = w.time + 2 := by
      rw [log_time, htime]
    simp only [senderOf, subjectOf, bodyOf] at hcat hlabel
    simp only [classifierRequest, senderOf, subjectOf, bodyOf] at htime2 ⊢
    simp only [processMessages, processMessage, hget, hids, hi, hnot, decide_True,
      Option.isSome_none, Bool.and_false, Bool.false_eq_true, if_false, if_true,
      classifyAndLabel, htime, htime2, hcat, hlabel, hmod, ne_eq, not_false_eq_true]
  · intro fullMessage labelIds e hget hids hi hnot hgroq
    have hnone := categorizeWithAI_error (env.groq (w.time + 1)) (senderOf fullMessage)
      (subjectOf fullMessage) (truncateBody (bodyOf env fullMessage)) e hgroq
    simp only [classifierRequest, senderOf, subjectOf, bodyOf] at hnone ⊢
    have hrun : processMessage env client u amurexLabels (decide (i < cc)) message acc w =
        (.ok (storeAndCount env u message.id
            ((fullMessage.threadId.filter (fun t => t ≠ "")).getD message.id)
            (headerOr fullMessage.headers "From" (utf16 "Unknown"))
            (headerOr fullMessage.headers "Subject" (utf16 "(No Subject)"))
            (extractBody env.decode fullMessage.payload fullMessage.snippet)
            (receivedDate fullMessage.internalDate) (!labelIds.contains "UNREAD")
            fullMessage.snippet
            { acc with results := acc.results ++
              [⟨message.id, headerOr fullMessage.headers "Subject" (utf16 "(No Subject)"),
                "none", true⟩] }
            ((w.log (.messagesGet client message.id)).log (.chatCompletion
              (chatRequest (headerOr fullMessage.headers "From" (utf16 "Unknown"))
                (headerOr fullMessage.headers "Subject" (utf16 "(No Subject)"))
                (truncateBody (extractBody env.decode fullMessage.payload
                  fullMessage.snippet)))))).1,
         (storeAndCount env u message.id
            ((fullMessage.threadId.filter (fun t => t ≠ "")).getD message.id)
            (headerOr fullMessage.headers "From" (utf16 "Unknown"))
            (headerOr fullMessage.headers "Subject" (utf16 "(No Subject)"))
            (extractBody env.decode fullMessage.payload fullMessage.snippet)
            (receivedDate fullMessage.internalDate) (!labelIds.contains "UNREAD")
            fullMessage.snippet
            { acc with results := acc.results ++
              [⟨message.id, headerOr fullMessage.headers "Subject" (utf16 "(No Subject)"),
                "none", true⟩] }
            ((w.log (.messagesGet client message.id)).log (.chatCompletion
              (chatRequest (headerOr fullMessage.headers "From" (utf16 "Unknown"))
                (headerOr fullMessage.headers "Subject" (utf16 "(No Subject)"))
                (truncateBody (extractBody env.decode fullMessage.payload
                  fullMessage.snippet)))))).2) := by
      simp only [processMessage, hget, hids, hi, hnot, decide_True,
        Option.isSome_none, Bool.and_false, Bool.false_eq_true, if_false, if_true,
        classifyAndLabel, htime, hnone, ne_eq, not_true_eq_false]
    obtain ⟨extra, added, htrace, -, hcalls, -⟩ := store_calls env u message.id
      ((fullMessage.threadId.filter (fun t => t ≠ "")).getD message.id)
      (headerOr fullMessage.headers "From" (utf16 "Unknown"))
      (headerOr fullMessage.headers "Subject" (utf16 "(No Subject)"))
      (extractBody env.decode fullMessage.payload fullMessage.snippet)
      (receivedDate fullMessage.internalDate) (!labelIds.contains "UNREAD")
      fullMessage.snippet
      ((w.log (.messagesGet client message.id)).log (.chatCompletion
        (chatRequest (headerOr fullMessage.headers "From" (utf16 "Unknown"))
          (headerOr fullMessage.headers "Subject" (utf16 "(No Subject)"))
          (truncateBody (extractBody env.decode fullMessage.payload fullMessage.snippet)))))
    refine ⟨_, _, extra, hrun, ?_, ?_, ?_, ?_⟩
    · rw [storeAndCount_results]
    · rw [storeAndCount_world, htrace]
      simp [World.log]
    · intro call hcall
      obtain ⟨row, hrow, hcontent, -, hid⟩ := hcalls call hcall
      exact ⟨row, hrow, hcontent, hid⟩
    · rw [processMessages, hrun]

/-- Witness for C18 (amended): the fetch of `msg-1` fails and ends the loop;
with a failing classifier the message `msg-1` is recorded with the category
`none`. -/
theorem processMessages_failure_containment_witness :
    processMessages (fetchFailingEnv []) sampleClient "user-1" sampleLabels 2 0
        [⟨"msg-1"⟩, ⟨"msg-2"⟩] { results := [], totalStoredCount := 0 } emptyWorld =
      (.error { status := some 500, message := some "Backend Error" },
       emptyWorld.log (.messagesGet sampleClient "msg-1")) ∧
    ∃ acc1 w1 extra,
      processMessage (classifierFailingEnv []) sampleClient "user-1" sampleLabels
        (decide (0 < 2)) ⟨"msg-1"⟩ { results := [], totalStoredCount := 0 } emptyWorld =
          (.ok acc1, w1) ∧
      acc1.results = [] ++ [⟨"msg-1", subjectOf sampleMessage, "none", true⟩] ∧
      w1.trace = emptyWorld.trace ++ .messagesGet sampleClient "msg-1" ::
        .chatCompletion (classifierRequest (classifierFailingEnv []) sampleMessage) ::
        .emailsSelectOne "user-1" "msg-1" :: extra ∧
      (∀ call ∈ extra, ∃ row, call = .emailsInsert row ∧
        row.content = bodyOf (classifierFailingEnv []) sampleMessage ∧
        row.message_id = "msg-1") ∧
      processMessages (classifierFailingEnv []) sampleClient "user-1" sampleLabels 2 0
        [⟨"msg-1"⟩, ⟨"msg-2"⟩] { results := [], totalStoredCount := 0 } emptyWorld =
        processMessages (classifierFailingEnv []) sampleClient "user-1" sampleLabels 2 (0 + 1)
          [⟨"msg-2"⟩] acc1 w1 :=
  ⟨(processMessages_failure_containment (fetchFailingEnv []) sampleClient "user-1" sampleLabels
      2 0 ⟨"msg-1"⟩ [⟨"msg-2"⟩] { results := [], totalStoredCount := 0 } emptyWorld).1 _ rfl,
   (processMessages_failure_containment (classifierFailingEnv []) sampleClient "user-1"
      sampleLabels 2 0 ⟨"msg-1"⟩ [⟨"msg-2"⟩] { results := [], totalStoredCount := 0 }
      emptyWorld).2.2 sampleMessage ["UNREAD", "INBOX"] { message := some "rate limit" }
      rfl rfl (by decide) rfl rfl⟩


/-! ## Lemmas on the independence of the results from the record store -/

theorem outsideStore_append (a b : List Call) :
    outsideStore (a ++ b) = outsideStore a ++ outsideStore b := by
  simp [outsideStore]

/-- The calls of `storeAndCount` are calls of the record store. -/
theorem storeAndCount_outside (env : Env) (u m t : String) (sender subject content : JsString)
    (receivedAt : Option Int) (isRead : Bool) (snippet : JsString) (acc : LoopState)
    (w : World) :
    ∃ extra, (storeAndCount env u m t sender subject content receivedAt isRead snippet
        acc w).2.trace = w.trace ++ extra ∧ outsideStore extra = [] := by
  obtain ⟨extra, added, htrace, -, hcalls, -⟩ :=
    store_calls env u m t sender subject content receivedAt isRead snippet w
  refine ⟨.emailsSelectOne u m :: extra, ?_, ?_⟩
  · rw [storeAndCount_world, htrace]
  · simp only [outsideStore, List.filter_eq_nil_iff, List.mem_cons]
    intro call hcall
    rcases hcall with h | h
    · rw [h]; simp [Call.isStore]
    · obtain ⟨row, hrow, -⟩ := hcalls call h
      rw [hrow]; simp [Call.isStore]

/-- The classification of a message is the same in two environments that
answer the mailbox and the classifier alike. -/
theorem classifyAndLabel_same (env1 env2 : Env) (hsame : SameMailbox env1 env2)
    (client : GmailClient) (amurexLabels : Obj) (messageId : String)
    (fromEmail subject body : JsString) (acc1 acc2 : LoopState) (w1 w2 : World)
    (hacc : acc1.results = acc2.results) :
    SameOutcome w1 w2
      (classifyAndLabel env1 client amurexLabels messageId fromEmail subject body acc1 w1)
      (classifyAndLabel env2 client amurexLabels messageId fromEmail subject body acc2 w2) := by
  obtain ⟨-, hgroq, hmod, -⟩ := hsame
  simp only [classifyAndLabel]
  have hg : env1.groq w1.time = env2.groq w2.time := funext (hgroq w1.time w2.time)
  rw [hg]
  cases hlabel : (if categorizeWithAI (env2.groq w2.time) fromEmail subject (truncateBody body)
      ≠ "none" then amurexLabels.getTruthy (categorizeWithAI (env2.groq w2.time) fromEmail
        subject (truncateBody body)) else none) with
  | none =>
    refine ⟨?_, [.chatCompletion (chatRequest fromEmail subject (truncateBody body))],
      [.chatCompletion (chatRequest fromEmail subject (truncateBody body))], ?_, ?_, rfl⟩
    · simp only [SameResults, hacc]
    · simp [World.log]
    · simp [World.log]
  | some labelId =>
    simp only
    rw [hmod (w1.log (.chatCompletion (chatRequest fromEmail subject (truncateBody body)))).time
      (w2.log (.chatCompletion (chatRequest fromEmail subject (truncateBody body)))).time]
    cases hm : env2.messagesModifyError
        (w2.log (.chatCompletion (chatRequest fromEmail subject (truncateBody body)))).time
        client messageId [labelId] with
    | none =>
      refine ⟨?_, [.chatCompletion (chatRequest fromEmail subject (truncateBody body)),
          .messagesModify client messageId [labelId]],
        [.chatCompletion (chatRequest fromEmail subject (truncateBody body)),
          .messagesModify client messageId [labelId]], ?_, ?_, rfl⟩
      · simp only [SameResults, hacc]
      · simp [World.log]
      · simp [World.log]
    | some e =>
      refine ⟨?_, [.chatCompletion (chatRequest fromEmail subject (truncateBody body)),
          .messagesModify client messageId [labelId]],
        [.chatCompletion (chatRequest fromEmail subject (truncateBody body)),
          .messagesModify client messageId [labelId]], ?_, ?_, rfl⟩
      · simp only [SameResults]
      · simp [World.log]
      · simp [World.log]

/-- One iteration of the loop has the same outcome, up to the record store, in
two environments that answer the mailbox and the classifier alike. -/
theorem processMessage_same (env1 env2 : Env) (hsame : SameMailbox env1 env2)
    (client : GmailClient) (u : String) (amurexLabels : Obj) (sc : Bool)
    (message : MessageStub) (acc1 acc2 : LoopState) (w1 w2 : World)
    (hacc : acc1.results = acc2.results) :
    SameOutcome w1 w2
      (processMessage env1 client u amurexLabels sc message acc1 w1)
      (processMessage env2 client u amurexLabels sc message acc2 w2) := by
  have hget := hsame.1 w1.time w2.time client message.id
  have hdec := hsame.2.2.2
  simp only [processMessage]
  rw [hget, hdec]
  cases hg : env2.messagesGet w2.time client message.id with
  | error e =>
    exact ⟨by simp only [SameResults], [.messagesGet client message.id],
      [.messagesGet client message.id], by simp [World.log], by simp [World.log], rfl⟩
  | ok fm =>
    simp only
    cases hids : fm.labelIds with
    | none =>
      exact ⟨by simp only [SameResults], [.messagesGet client message.id],
        [.messagesGet client message.id], by simp [World.log], by simp [World.log], rfl⟩
    | some ids =>
      simp only
      by_cases hl : (sc && (findAmurexLabel amurexLabels ids).isSome) = true
      · simp only [hl, if_true]
        obtain ⟨x1, ht1, ho1⟩ := storeAndCount_outside env1 u message.id
          ((fm.threadId.filter (fun t => t ≠ "")).getD message.id)
          (headerOr fm.headers "From" (utf16 "Unknown"))
          (headerOr fm.headers "Subject" (utf16 "(No Subject)")) []
          (receivedDate fm.internalDate) (!ids.contains "UNREAD") fm.snippet
          { acc1 with results := acc1.results ++
            [⟨message.id, headerOr fm.headers "Subject" (utf16 "(No Subject)"),
              "already_labeled", true⟩] }
          (w1.log (.messagesGet client message.id))
        obtain ⟨x2, ht2, ho2⟩ := storeAndCount_outside env2 u message.id
          ((fm.threadId.filter (fun t => t ≠ "")).getD message.id)
          (headerOr fm.headers "From" (utf16 "Unknown"))
          (headerOr fm.headers "Subject" (utf16 "(No Subject)")) []
          (receivedDate fm.internalDate) (!ids.contains "UNREAD") fm.snippet
          { acc2 with results := acc2.results ++
            [⟨message.id, headerOr fm.headers "Subject" (utf16 "(No Subject)"),
              "already_labeled", true⟩] }
          (w2.log (.messagesGet client message.id))
        refine ⟨?_, .messagesGet client message.id :: x1, .messagesGet client message.id :: x2,
          ?_, ?_, ?_⟩
        · simp only [SameResults, storeAndCount_results, hacc]
        · rw [ht1]; simp [World.log]
        · rw [ht2]; simp [World.log]
        · simp only [outsideStore, List.filter_cons] at ho1 ho2 ⊢
          rw [ho1, ho2]
      · simp only [hl, Bool.false_eq_true, if_false]
        have hstore : ∀ (a1 a2 : LoopState) (v1 v2 : World) (y1 y2 : List Call),
            a1.results = a2.results →
            v1.trace = w1.trace ++ y1 → v2.trace = w2.trace ++ y2 →
            outsideStore y1 = outsideStore y2 →
            SameOutcome w1 w2
              (match storeAndCount env1 u message.id
                  ((fm.threadId.filter (fun t => t ≠ "")).getD message.id)
                  (headerOr fm.headers "From" (utf16 "Unknown"))
                  (headerOr fm.headers "Subject" (utf16 "(No Subject)"))
                  (extractBody env2.decode fm.payload fm.snippet)
                  (receivedDate fm.internalDate) (!ids.contains "UNREAD") fm.snippet a1 v1 with
                | (acc, w) => (Except.ok acc, w))
              (match storeAndCount env2 u message.id
                  ((fm.threadId.filter (fun t => t ≠ "")).getD message.id)
                  (headerOr fm.headers "From" (utf16 "Unknown"))
                  (headerOr fm.headers "Subject" (utf16 "(No Subject)"))
                  (extractBody env2.decode fm.payload fm.snippet)
                  (receivedDate fm.internalDate) (!ids.contains "UNREAD") fm.snippet a2 v2 with
                | (acc, w) => (Except.ok acc, w)) := by
          intro a1 a2 v1 v2 y1 y2 ha hv1 hv2 hy
          obtain ⟨x1, ht1, ho1⟩ := storeAndCount_outside env1 u message.id
            ((fm.threadId.filter (fun t => t ≠ "")).getD message.id)
            (headerOr fm.headers "From" (utf16 "Unknown"))
            (headerOr fm.headers "Subject" (utf16 "(No Subject)"))
            (extractBody env2.decode fm.payload fm.snippet)
            (receivedDate fm.internalDate) (!ids.contains "UNREAD") fm.snippet a1 v1
          obtain ⟨x2, ht2, ho2⟩ := storeAndCount_outside env2 u message.id
            ((fm.threadId.filter (fun t => t ≠ "")).getD message.id)
            (headerOr fm.headers "From" (utf16 "Unknown"))
            (headerOr fm.headers "Subject" (utf16 "(No Subject)"))
            (extractBody env2.decode fm.payload fm.snippet)
            (receivedDate fm.internalDate) (!ids.contains "UNREAD") fm.snippet a2 v2
          refine ⟨?_, y1 ++ x1, y2 ++ x2, ?_, ?_, ?_⟩
          · simp only [SameResults, storeAndCount_results, ha]
          · simp only; rw [ht1, hv1, List.append_assoc]
          · simp only; rw [ht2, hv2, List.append_assoc]
          · rw [outsideStore_append, outsideStore_append, ho1, ho2, hy]
        cases sc with
        | false =>
          simp only [Bool.false_eq_true, if_false]
          exact hstore acc1 acc2 _ _ [.messagesGet client message.id]
            [.messagesGet client message.id] hacc (by simp [World.log]) (by simp [World.log]) rfl
        | true =>
          simp only [if_true]
          obtain ⟨hres, e1, e2, ht1, ht2, hout⟩ := classifyAndLabel_same env1 env2 hsame client
            amurexLabels message.id (headerOr fm.headers "From" (utf16 "Unknown"))
            (headerOr fm.headers "Subject" (utf16 "(No Subject)"))
            (extractBody env2.decode fm.payload fm.snippet) acc1 acc2
            (w1.log (.messagesGet client message.id)) (w2.log (.messagesGet client message.id))
            hacc
          cases hc1 : classifyAndLabel env1 client amurexLabels message.id
              (headerOr fm.headers "From" (utf16 "Unknown"))
              (headerOr fm.headers "Subject" (utf16 "(No Subject)"))
              (extractBody env2.decode fm.payload fm.snippet) acc1
              (w1.log (.messagesGet client message.id)) with
          | mk r1 v1 =>
            cases hc2 : classifyAndLabel env2 client amurexLabels message.id
                (headerOr fm.headers "From" (utf16 "Unknown"))
                (headerOr fm.headers "Subject" (utf16 "(No Subject)"))
                (extractBody env2.decode fm.payload fm.snippet) acc2
                (w2.log (.messagesGet client message.id)) with
            | mk r2 v2 =>
              rw [hc1, hc2] at hres
              rw [hc1] at ht1
              rw [hc2] at ht2
              simp only [World.log] at ht1 ht2
              cases r1 with
              | error err1 =>
                cases r2 with
                | error err2 =>
                  refine ⟨hres, .messagesGet client message.id :: e1,
                    .messagesGet client message.id :: e2, ?_, ?_, ?_⟩
                  · simp only; rw [ht1]; simp
                  · simp only; rw [ht2]; simp
                  · simp only [outsideStore, List.filter_cons] at hout ⊢
                    rw [hout]
                | ok a2 => simp [SameResults] at hres
              | ok a1 =>
                cases r2 with
                | error err2 => simp [SameResults] at hres
                | ok a2 =>
                  refine hstore a1 a2 v1 v2 (.messagesGet client message.id :: e1)
                    (.messagesGet client message.id :: e2) hres ?_ ?_ ?_
                  · rw [ht1]; simp
                  · rw [ht2]; simp
                  · simp only [outsideStore, List.filter_cons] at hout ⊢
                    rw [hout]

/-- The processing loop has the same outcome, up to the record store, in two
environments that answer the mailbox and the classifier alike. -/
theorem processMessages_same (env1 env2 : Env) (hsame : SameMailbox env1 env2)
    (client : GmailClient) (u : String) (amurexLabels : Obj) (cc : Nat) :
    ∀ (messages : List MessageStub) (i : Nat) (acc1 acc2 : LoopState) (w1 w2 : World),
    acc1.results = acc2.results →
    SameOutcome w1 w2
      (processMessages env1 client u amurexLabels cc i messages acc1 w1)
      (processMessages env2 client u amurexLabels cc i messages acc2 w2) := by
  intro messages
  induction messages with
  | nil =>
    intro i acc1 acc2 w1 w2 hacc
    exact ⟨by simp only [processMessages, SameResults, hacc], [], [],
      by simp [processMessages], by simp [processMessages], rfl⟩
  | cons message rest ih =>
    intro i acc1 acc2 w1 w2 hacc
    obtain ⟨hres, e1, e2, ht1, ht2, hout⟩ := processMessage_same env1 env2 hsame client u
      amurexLabels (decide (i < cc)) message acc1 acc2 w1 w2 hacc
    simp only [processMessages]
    cases hp1 : processMessage env1 client u amurexLabels (decide (i < cc)) message acc1 w1 with
    | mk r1 v1 =>
      cases hp2 : processMessage env2 client u amurexLabels (decide (i < cc)) message
          acc2 w2 with
      | mk r2 v2 =>
        rw [hp1, hp2] at hres
        rw [hp1] at ht1
        rw [hp2] at ht2
        cases r1 with
        | error err1 =>
          cases r2 with
          | error err2 => exact ⟨hres, e1, e2, ht1, ht2, hout⟩
          | ok a2 => simp [SameResults] at hres
        | ok a1 =>
          cases r2 with
          | error err2 => simp [SameResults] at hres
          | ok a2 =>
            obtain ⟨hres2, f1, f2, hu1, hu2, hout2⟩ := ih (i + 1) a1 a2 v1 v2 hres
            refine ⟨hres2, e1 ++ f1, e2 ++ f2, ?_, ?_, ?_⟩
            · simp only at ht1 ⊢; rw [hu1, ht1, List.append_assoc]
            · simp only at ht2 ⊢; rw [hu2, ht2, List.append_assoc]
            · rw [outsideStore_append, outsideStore_append, hout, hout2]

/-! ## Theorems on the failures of the record store -/

/-- C19: take two environments that answer the fetches, the classifier calls
and the label applications alike and that differ at will in the answers of
the record store (failed inserts, failed existence checks), and two record
stores that yield the same new messages. The two runs raise the same
exception or answer responses with the same status, success flag, message,
results, `processed` and `total_found`, and they issue the same calls outside
the record store. -/
theorem ingest_independent_of_store (env1 env2 : Env) (hsame : SameMailbox env1 env2)
    (client : GmailClient) (u : String) (amurexLabels : Obj) (messages : List MessageStub)
    (w1 w2 : World)
    (hnew : filterNew (processedMessageIds env1 u w1) messages =
      filterNew (processedMessageIds env2 u w2) messages) :
    (∀ e, (ingest env1 client u amurexLabels messages w1).1 = .error e ↔
      (ingest env2 client u amurexLabels messages w2).1 = .error e) ∧
    (∀ r1, (ingest env1 client u amurexLabels messages w1).1 = .ok r1 →
      ∃ r2, (ingest env2 client u amurexLabels messages w2).1 = .ok r2 ∧
        r2.status = r1.status ∧ r2.success = r1.success ∧ r2.message = r1.message ∧
        r2.results = r1.results ∧ r2.processed = r1.processed ∧
        r2.total_found = r1.total_found ∧ r2.error = r1.error ∧
        r2.errorType = r1.errorType) ∧
    ∃ extra1 extra2,
      (ingest env1 client u amurexLabels messages w1).2.trace = w1.trace ++ extra1 ∧
      (ingest env2 client u amurexLabels messages w2).2.trace = w2.trace ++ extra2 ∧
      outsideStore extra1 = outsideStore extra2 := by
  simp only [ingest]
  rw [hnew]
  by_cases hlen : (filterNew (processedMessageIds env2 u w2) messages).length = 0
  · simp only [hlen, if_true]
    refine ⟨fun e => by simp, ?_, [.emailsSelectIds u], [.emailsSelectIds u],
      by simp [World.log], by simp [World.log], rfl⟩
    intro r1 hr1
    simp only [Except.ok.injEq] at hr1
    subst hr1
    exact ⟨_, rfl, rfl, rfl, rfl, rfl, rfl, rfl, rfl, rfl⟩
  · simp only [hlen, if_false]
    obtain ⟨hres, e1, e2, ht1, ht2, hout⟩ := processMessages_same env1 env2 hsame client u
      amurexLabels (min 20 (filterNew (processedMessageIds env2 u w2) messages).length)
      (filterNew (processedMessageIds env2 u w2) messages) 0
      { results := [], totalStoredCount := 0 } { results := [], totalStoredCount := 0 }
      (w1.log (.emailsSelectIds u)) (w2.log (.emailsSelectIds u)) rfl
    cases hp1 : processMessages env1 client u amurexLabels
        (min 20 (filterNew (processedMessageIds env2 u w2) messages).length) 0
        (filterNew (processedMessageIds env2 u w2) messages)
        { results := [], totalStoredCount := 0 } (w1.log (.emailsSelectIds u)) with
    | mk r1 v1 =>
      cases hp2 : processMessages env2 client u amurexLabels
          (min 20 (filterNew (processedMessageIds env2 u w2) messages).length) 0
          (filterNew (processedMessageIds env2 u w2) messages)
          { results := [], totalStoredCount := 0 } (w2.log (.emailsSelectIds u)) with
      | mk r2 v2 =>
        rw [hp1, hp2] at hres
        rw [hp1] at ht1
        rw [hp2] at ht2
        simp only [World.log] at ht1 ht2
        have htraces : ∃ extra1 extra2, v1.trace = w1.trace ++ extra1 ∧
            v2.trace = w2.trace ++ extra2 ∧ outsideStore extra1 = outsideStore extra2 := by
          refine ⟨.emailsSelectIds u :: e1, .emailsSelectIds u :: e2, ?_, ?_, ?_⟩
          · rw [ht1]; simp
          · rw [ht2]; simp
          · simp only [outsideStore, List.filter_cons] at hout ⊢
            simpa [Call.isStore] using hout
        cases r1 with
        | error err1 =>
          cases r2 with
          | error err2 =>
            simp only [SameResults] at hres
            subst hres
            exact ⟨fun e => Iff.rfl, fun r1 h => by simp at h, htraces⟩
          | ok a2 => simp [SameResults] at hres
        | ok a1 =>
          cases r2 with
          | error err2 => simp [SameResults] at hres
          | ok a2 =>
            simp only [SameResults] at hres
            refine ⟨fun e => by simp, ?_, htraces⟩
            intro r1 hr1
            simp only [Except.ok.injEq] at hr1
            subst hr1
            exact ⟨_, rfl, rfl, rfl, rfl, by simp only [hres], by simp only [hres], rfl, rfl,
              rfl⟩

/-- Witness for C19: two new messages, every insert failing in the second
run; both runs answer the same results with status 200. -/
theorem ingest_independent_of_store_witness :
    ∃ r2, (ingest (insertFailingEnv []) sampleClient "user-1" sampleLabels
        [⟨"msg-1"⟩, ⟨"msg-2"⟩] emptyWorld).1 = .ok r2 ∧
      r2.status = 200 ∧ r2.success = true ∧
      r2.message = some "Emails processed successfully" ∧
      r2.results = some [⟨"msg-1", utf16 "Greetings", "comment", true⟩,
        ⟨"msg-2", utf16 "Greetings", "comment", true⟩] ∧
      r2.processed = some 2 ∧ r2.total_found = some 2 ∧ r2.error = none ∧
      r2.errorType = none :=
  (ingest_independent_of_store (healthyEnv []) (insertFailingEnv [])
    ⟨fun _ _ _ _ => rfl, fun _ _ _ => rfl, fun _ _ _ _ _ => rfl, rfl⟩ sampleClient "user-1"
    sampleLabels [⟨"msg-1"⟩, ⟨"msg-2"⟩] emptyWorld emptyWorld rfl).2.1
    { status := 200, success := true, message := some "Emails processed successfully",
      processed := some 2, total_stored := some 2, total_found := some 2,
      results := some [⟨"msg-1", utf16 "Greetings", "comment", true⟩,
        ⟨"msg-2", utf16 "Greetings", "comment", true⟩] } rfl


/-! ## Lemmas on the failures recorded in the trace -/

theorem faithful_refl (env : Env) (t : List Call) : Faithful env t t none :=
  ⟨[], by simp, fun i _ hlo hhi _ => absurd hhi (Nat.not_lt.mpr hlo)⟩

/-- Calls that are no mailbox calls keep the trace faithful. -/
theorem faithful_of_silent (env : Env) (t extra : List Call)
    (h : ∀ call ∈ extra, ∀ i, env.mailboxFailure i call = none) :
    Faithful env t (t ++ extra) none := by
  refine ⟨extra, rfl, ?_⟩
  intro i call hlo hhi hget
  rw [List.get?_eq_getElem?, List.getElem?_append_right hlo] at hget
  exact h call (List.getElem?_mem hget) i

theorem faithful_log_ok (env : Env) (t : List Call) (call : Call)
    (h : env.mailboxFailure t.length call = none) : Faithful env t (t ++ [call]) none := by
  refine ⟨[call], rfl, ?_⟩
  intro i c hlo hhi hget
  simp only [List.length_append, List.length_singleton] at hhi
  have hi : i = t.length := by omega
  subst hi
  simp only [List.get?_eq_getElem?, List.getElem?_concat_length, Option.some.injEq] at hget
  rw [← hget]
  exact h

theorem faithful_log_raise (env : Env) (t : List Call) (call : Call) (e : JsError)
    (h : RaisedBy env t.length call e) : Faithful env t (t ++ [call]) (some e) :=
  ⟨[call], rfl, [], call, rfl, fun i _ hlo hhi _ => by
    simp only [List.length_nil, Nat.add_zero] at hhi
    exact absurd hhi (Nat.not_lt.mpr hlo), by simpa using h⟩

theorem unfailing_prefix (env : Env) (t extra : List Call) (lo hi : Nat)
    (hhi : hi ≤ t.length) (h : Unfailing env t lo hi) : Unfailing env (t ++ extra) lo hi := by
  intro i call hlo hi' hget
  have hlt : i < t.length := by omega
  rw [List.get?_eq_getElem?, List.getElem?_append_left hlt] at hget
  exact h i call hlo hi' (by rw [List.get?_eq_getElem?]; exact hget)

theorem faithful_trans (env : Env) (t1 t2 t3 : List Call) (failure : Option JsError)
    (h12 : Faithful env t1 t2 none) (h23 : Faithful env t2 t3 failure) :
    Faithful env t1 t3 failure := by
  obtain ⟨x1, ht2, hu1⟩ := h12
  obtain ⟨x2, ht3, hu2⟩ := h23
  simp only at hu1
  refine ⟨x1 ++ x2, by rw [ht3, ht2, List.append_assoc], ?_⟩
  cases failure with
  | none =>
    simp only at hu2 ⊢
    intro i call hlo hhi hget
    by_cases hi : i < t2.length
    · have := unfailing_prefix env t2 x2 t1.length t2.length (le_refl _) hu1
      rw [← ht3] at this
      exact this i call hlo hi hget
    · exact hu2 i call (Nat.le_of_not_lt hi) hhi hget
  | some e =>
    simp only at hu2 ⊢
    obtain ⟨init, call, hx2, hu, hraise⟩ := hu2
    have hlen : t2.length = t1.length + x1.length := by rw [ht2, List.length_append]
    refine ⟨x1 ++ init, call, by rw [hx2, List.append_assoc], ?_, ?_⟩
    · intro i c hlo hhi hget
      by_cases hi : i < t2.length
      · have := unfailing_prefix env t2 x2 t1.length t2.length (le_refl _) hu1
        rw [← ht3] at this
        exact this i c hlo hi hget
      · refine hu i c (Nat.le_of_not_lt hi) ?_ hget
        simp only [List.length_append] at hhi
        omega
    · simp only [List.length_append]
      rw [hlen, Nat.add_assoc] at hraise
      exact hraise

/-- What a failing mailbox call of a faithful trace says about the outcome:
the outcome is the exception raised by that call. -/
theorem faithful_failure (env : Env) (t1 t2 : List Call) (failure : Option JsError)
    (h : Faithful env t1 t2 failure) (i : Nat) (call : Call) (e : JsError)
    (hlo : t1.length ≤ i) (hget : t2.get? i = some call)
    (hfail : env.mailboxFailure i call = some e) : failure = some e := by
  obtain ⟨extra, ht2, hu⟩ := h
  have hlt : i < t2.length := by
    rw [List.get?_eq_getElem?] at hget
    exact (List.getElem?_eq_some_iff.mp hget).1
  cases failure with
  | none =>
    simp only at hu
    rw [hu i call hlo hlt hget] at hfail
    exact absurd hfail (by simp)
  | some e2 =>
    simp only at hu
    obtain ⟨init, last, hx, hun, hraise⟩ := hu
    by_cases hi : i < t1.length + init.length
    · rw [hun i call hlo hi hget] at hfail
      exact absurd hfail (by simp)
    · have hlen : t2.length = t1.length + init.length + 1 := by
        rw [ht2, hx]; simp [Nat.add_assoc]
      have hieq : i = t1.length + init.length := by omega
      have hlast : t2.get? (t1.length + init.length) = some last := by
        rw [ht2, hx, ← List.append_assoc, List.get?_eq_getElem?]
        have : t1.length + init.length = (t1 ++ init).length := by simp
        rw [this, List.getElem?_concat_length]
      rw [hieq, hlast, Option.some.injEq] at hget
      rw [hieq, ← hget] at hfail
      rcases hraise with h | ⟨h, -⟩
      · rw [h] at hfail
        exact hfail
      · rw [h] at hfail
        exact absurd hfail (by simp)

theorem log_trace (w : World) (c : Call) : (w.log c).trace = w.trace ++ [c] := rfl

/-- The calls of `storeAndCount` keep the trace faithful. -/
theorem storeAndCount_faithful (env : Env) (u m t : String) (sender subject content : JsString)
    (receivedAt : Option Int) (isRead : Bool) (snippet : JsString) (acc : LoopState)
    (w : World) :
    Faithful env w.trace
      (storeAndCount env u m t sender subject content receivedAt isRead snippet acc w).2.trace
      none := by
  obtain ⟨extra, added, htrace, -, hcalls, -⟩ :=
    store_calls env u m t sender subject content receivedAt isRead snippet w
  rw [storeAndCount_world, htrace]
  apply faithful_of_silent
  intro call hcall i
  rcases List.mem_cons.mp hcall with h | h
  · rw [h]; rfl
  · obtain ⟨row, hrow, -⟩ := hcalls call h
    rw [hrow]; rfl

/-- The trace of the classification of a message is faithful to its outcome. -/
theorem classifyAndLabel_faithful (env : Env) (client : GmailClient) (amurexLabels : Obj)
    (messageId : String) (fromEmail subject body : JsString) (acc : LoopState) (w : World) :
    Faithful env w.trace
      (classifyAndLabel env client amurexLabels messageId fromEmail subject body acc w).2.trace
      (failureOf (classifyAndLabel env client amurexLabels messageId fromEmail subject body
        acc w).1) := by
  have hchat : Faithful env w.trace
      (w.log (.chatCompletion (chatRequest fromEmail subject (truncateBody body)))).trace none :=
    faithful_log_ok env w.trace _ rfl
  simp only [classifyAndLabel]
  cases hlabel : (if categorizeWithAI (env.groq w.time) fromEmail subject (truncateBody body)
      ≠ "none" then amurexLabels.getTruthy (categorizeWithAI (env.groq w.time) fromEmail
        subject (truncateBody body)) else none) with
  | none => exact hchat
  | some labelId =>
    simp only
    cases hm : env.messagesModifyError
        (w.log (.chatCompletion (chatRequest fromEmail subject (truncateBody body)))).time
        client messageId [labelId] with
    | none =>
      exact faithful_trans env _ _ _ _ hchat (faithful_log_ok env _ _ hm)
    | some e =>
      exact faithful_trans env _ _ _ _ hchat (faithful_log_raise env _ _ e (Or.inl hm))

/-- The trace of one iteration of the loop is faithful to its outcome. -/
theorem processMessage_faithful (env : Env) (client : GmailClient) (u : String)
    (amurexLabels : Obj) (sc : Bool) (message : MessageStub) (acc : LoopState) (w : World) :
    Faithful env w.trace (processMessage env client u amurexLabels sc message acc w).2.trace
      (failureOf (processMessage env client u amurexLabels sc message acc w).1) := by
  simp only [processMessage]
  cases hg : env.messagesGet w.time client message.id with
  | error e =>
    exact faithful_log_raise env w.trace _ e (Or.inl (by
      simp only [Env.mailboxFailure]
      rw [show w.trace.length = w.time from rfl, hg]))
  | ok fm =>
    have hgot : env.mailboxFailure w.trace.length (.messagesGet client message.id) = none := by
      simp only [Env.mailboxFailure]
      rw [show w.trace.length = w.time from rfl, hg]
    have hfetch : Faithful env w.trace (w.log (.messagesGet client message.id)).trace none :=
      faithful_log_ok env w.trace _ hgot
    simp only
    cases hids : fm.labelIds with
    | none => exact faithful_log_raise env w.trace _ _ (Or.inr ⟨hgot, rfl⟩)
    | some ids =>
      simp only
      by_cases hl : (sc && (findAmurexLabel amurexLabels ids).isSome) = true
      · simp only [hl, if_true]
        exact faithful_trans env _ _ _ _ hfetch (storeAndCount_faithful env _ _ _ _ _ _ _ _ _ _ _)
      · simp only [hl, Bool.false_eq_true, if_false]
        cases sc with
        | false =>
          simp only [Bool.false_eq_true, if_false]
          exact faithful_trans env _ _ _ _ hfetch
            (storeAndCount_faithful env _ _ _ _ _ _ _ _ _ _ _)
        | true =>
          simp only [if_true]
          have hclass := classifyAndLabel_faithful env client amurexLabels message.id
            (headerOr fm.headers "From" (utf16 "Unknown"))
            (headerOr fm.headers "Subject" (utf16 "(No Subject)"))
            (extractBody env.decode fm.payload fm.snippet) acc
            (w.log (.messagesGet client message.id))
          cases hc : classifyAndLabel env client amurexLabels message.id
              (headerOr fm.headers "From" (utf16 "Unknown"))
              (headerOr fm.headers "Subject" (utf16 "(No Subject)"))
              (extractBody env.decode fm.payload fm.snippet) acc
              (w.log (.messagesGet client message.id)) with
          | mk r v =>
            rw [hc] at hclass
            cases r with
            | error e => exact faithful_trans env _ _ _ _ hfetch hclass
            | ok a =>
              exact faithful_trans env _ _ _ _ (faithful_trans env _ _ _ _ hfetch hclass)
                (storeAndCount_faithful env _ _ _ _ _ _ _ _ _ _ _)

/-- The trace of the processing loop is faithful to its outcome. -/
theorem processMessages_faithful (env : Env) (client : GmailClient) (u : String)
    (amurexLabels : Obj) (cc : Nat) :
    ∀ (messages : List MessageStub) (i : Nat) (acc : LoopState) (w : World),
    Faithful env w.trace
      (processMessages env client u amurexLabels cc i messages acc w).2.trace
      (failureOf (processMessages env client u amurexLabels cc i messages acc w).1) := by
  intro messages
  induction messages with
  | nil => intro i acc w; exact faithful_refl env w.trace
  | cons message rest ih =>
    intro i acc w
    have h1 := processMessage_faithful env client u amurexLabels (decide (i < cc)) message acc w
    simp only [processMessages]
    cases hp : processMessage env client u amurexLabels (decide (i < cc)) message acc w with
    | mk r v =>
      rw [hp] at h1
      cases r with
      | error e => exact h1
      | ok a => exact faithful_trans env _ _ _ _ h1 (ih (i + 1) a v)

/-- The trace of the statements from the dedup query on is faithful to their
outcome. -/
theorem ingest_faithful (env : Env) (client : GmailClient) (u : String) (amurexLabels : Obj)
    (messages : List MessageStub) (w : World) :
    Faithful env w.trace (ingest env client u amurexLabels messages w).2.trace
      (failureOf (ingest env client u amurexLabels messages w).1) := by
  have hquery : Faithful env w.trace (w.log (.emailsSelectIds u)).trace none :=
    faithful_log_ok env w.trace _ rfl
  simp only [ingest]
  by_cases hlen : (filterNew (processedMessageIds env u w) messages).length = 0
  · simp only [hlen, if_true]
    exact hquery
  · simp only [hlen, if_false]
    have hloop := processMessages_faithful env client u amurexLabels
      (min 20 (filterNew (processedMessageIds env u w) messages).length)
      (filterNew (processedMessageIds env u w) messages) 0
      { results := [], totalStoredCount := 0 } (w.log (.emailsSelectIds u))
    cases hp : processMessages env client u amurexLabels
        (min 20 (filterNew (processedMessageIds env u w) messages).length) 0
        (filterNew (processedMessageIds env u w) messages)
        { results := [], totalStoredCount := 0 } (w.log (.emailsSelectIds u)) with
    | mk r v =>
      rw [hp] at hloop
      cases r with
      | error e => exact faithful_trans env _ _ _ _ hquery hloop
      | ok a => exact faithful_trans env _ _ _ _ hquery hloop

/-- The reconciliation loop adds only label creations to the trace. -/
theorem reconcileLabels_creates (env : Env) (client : GmailClient) (std : Bool) (ex : Obj)
    (cat : List (String × LabelColor)) (m : Obj) (w : World) :
    ∃ extra, (reconcileLabels env client std ex cat m w).2.trace = w.trace ++ extra ∧
      ∀ call ∈ extra, call.isLabelsCreate = true := by
  induction cat generalizing m w with
  | nil => exact ⟨[], by simp [reconcileLabels], by simp⟩
  | cons p rest ih =>
    obtain ⟨n, c⟩ := p
    obtain ⟨extra1, added1, ht1, -, hcalls1, -, -⟩ :=
      reconcileLabel_facts env client std ex n c m w
    have hcreate1 : ∀ call ∈ extra1, call.isLabelsCreate = true := by
      intro call hcall
      obtain ⟨req, hreq, -, -⟩ := hcalls1 call hcall
      rw [hreq]
      rfl
    cases hstep : reconcileLabel env client std ex n c m w with
    | mk r1 w1 =>
      rw [hstep] at ht1
      cases r1 with
      | none =>
        exact ⟨extra1, by simpa only [reconcileLabels, hstep] using ht1, hcreate1⟩
      | some m1 =>
        obtain ⟨extra2, ht2, hcreate2⟩ := ih m1 w1
        refine ⟨extra1 ++ extra2, ?_, ?_⟩
        · simp only [reconcileLabels, hstep]
          rw [ht2]
          simp only at ht1
          rw [ht1, List.append_assoc]
        · intro call hcall
          rcases List.mem_append.mp hcall with h | h
          · exact hcreate1 call h
          · exact hcreate2 call h

/-- The trace of label reconciliation is faithful to its outcome. -/
theorem reconcile_faithful (env : Env) (client : GmailClient) (std : Bool) (w : World) :
    Faithful env w.trace (reconcile env client std w).2.trace
      (failureOf (reconcile env client std w).1) := by
  cases hlist : env.labelsListError w.time client with
  | some e =>
    simp only [reconcile, hlist]
    exact faithful_log_raise env w.trace _ e (Or.inl hlist)
  | none =>
    rw [reconcile_listed env client std w hlist]
    obtain ⟨extra, htrace, hcreate⟩ := reconcileLabels_creates env client std
      (existingLabelsOf w.labels) GMAIL_COLORS [] (w.log (.labelsList client))
    simp only
    rw [htrace]
    refine faithful_trans env _ _ _ _ (faithful_log_ok env w.trace (.labelsList client) hlist) ?_
    apply faithful_of_silent
    intro call hcall i
    have := hcreate call hcall
    cases call <;> first | rfl | simp [Call.isLabelsCreate] at this

/-- The trace of the inner block of the handler is faithful to its outcome. -/
theorem gmailBlock_faithful (env : Env) (client : GmailClient) (u : String) (std : Bool)
    (w : World) :
    Faithful env w.trace (gmailBlock env client u std w).2.trace
      (failureOf (gmailBlock env client u std w).1) := by
  have hrec := reconcile_faithful env client std w
  simp only [gmailBlock]
  cases hr : reconcile env client std w with
  | mk r v =>
    rw [hr] at hrec
    cases r with
    | error e => exact hrec
    | ok mapping =>
      cases mapping with
      | none => exact hrec
      | some amurexLabels =>
        simp only
        cases hl : env.messagesList v.time client with
        | error e =>
          exact faithful_trans env _ _ _ _ hrec (faithful_log_raise env v.trace _ e (Or.inl (by
            simp only [Env.mailboxFailure]
            rw [show v.trace.length = v.time from rfl, hl])))
        | ok listing =>
          have hlisted : Faithful env w.trace
              (v.log (.messagesList client "is:unread" 10)).trace none :=
            faithful_trans env _ _ _ _ hrec (faithful_log_ok env v.trace _ (by
              simp only [Env.mailboxFailure]
              rw [show v.trace.length = v.time from rfl, hl]))
          cases listing with
          | none => exact hlisted
          | some messages =>
            cases messages with
            | nil => exact hlisted
            | cons message rest =>
              simp only
              have hin := ingest_faithful env client u amurexLabels (message :: rest)
                (v.log (.messagesList client "is:unread" 10))
              cases hi : ingest env client u amurexLabels (message :: rest)
                  (v.log (.messagesList client "is:unread" 10)) with
              | mk r2 v2 =>
                rw [hi] at hin
                cases r2 with
                | error e => exact faithful_trans env _ _ _ _ hlisted hin
                | ok response => exact faithful_trans env _ _ _ _ hlisted hin

/-! ## Theorems on the status of the response -/

/-- A response of the statements from the dedup query on is a success
response. -/
theorem ingest_ok_success (env : Env) (client : GmailClient) (u : String) (amurexLabels : Obj)
    (messages : List MessageStub) (w : World) (r : Response)
    (h : (ingest env client u amurexLabels messages w).1 = .ok r) : r.isSuccessResponse := by
  simp only [ingest] at h
  by_cases hlen : (filterNew (processedMessageIds env u w) messages).length = 0
  · simp only [hlen, if_true, Except.ok.injEq] at h
    rw [← h]
    exact ⟨rfl, rfl⟩
  · simp only [hlen, if_false] at h
    cases hp : processMessages env client u amurexLabels
        (min 20 (filterNew (processedMessageIds env u w) messages).length) 0
        (filterNew (processedMessageIds env u w) messages)
        { results := [], totalStoredCount := 0 } (w.log (.emailsSelectIds u)) with
    | mk r2 v =>
      rw [hp] at h
      cases r2 with
      | error e => simp at h
      | ok a =>
        simp only [Except.ok.injEq] at h
        rw [← h]
        exact ⟨rfl, rfl⟩

/-- A response of the inner block is the permission response of a rejected
label creation or a success response. -/
theorem gmailBlock_ok_response (env : Env) (client : GmailClient) (u : String) (std : Bool)
    (w : World) (r : Response) (h : (gmailBlock env client u std w).1 = .ok r) :
    ((reconcile env client std w).1 = .ok none ∧ r = insufficientPermissions) ∨
    r.isSuccessResponse := by
  simp only [gmailBlock] at h
  cases hr : reconcile env client std w with
  | mk r1 v =>
    rw [hr] at h
    cases r1 with
    | error e => simp at h
    | ok mapping =>
      cases mapping with
      | none =>
        simp only [Except.ok.injEq] at h
        exact Or.inl ⟨rfl, h.symm⟩
      | some amurexLabels =>
        right
        simp only at h
        cases hl : env.messagesList v.time client with
        | error e => rw [hl] at h; simp at h
        | ok listing =>
          rw [hl] at h
          cases listing with
          | none =>
            simp only [Except.ok.injEq] at h
            rw [← h]; exact ⟨rfl, rfl⟩
          | some messages =>
            cases messages with
            | nil =>
              simp only [Except.ok.injEq] at h
              rw [← h]; exact ⟨rfl, rfl⟩
            | cons message rest =>
              exact ingest_ok_success env client u amurexLabels (message :: rest) _ r h

/-- C20: for an admitted request, when a mailbox call of the run (label list,
message list, message get, label application) fails with an error of status
403 the response is the permission response, and when it fails with another
error the response is the failure response with status 500; the same holds
for every exception that leaves the inner block; and when the inner block
answers a response, this is the response of the handler, and it is a success
response with status 200 unless it is the permission response of a rejected
label creation. -/
theorem POST_status_by_outcome (env : Env) (requestData : RequestData) (w : World)
    (u token : String) (hadm : Admitted env requestData w u token) :
    (∀ i call e, w.time ≤ i → (POST env requestData w).2.trace.get? i = some call →
      env.mailboxFailure i call = some e →
      (e.hasStatus 403 = true → (POST env requestData w).1.isPermissionResponse) ∧
      (e.hasStatus 403 = false → (POST env requestData w).1 = internalError e ∧
        (POST env requestData w).1.isFailureResponse)) ∧
    (∀ e, (gmailBlock env (handlerClient env w u token) u
        (requestData.useStandardColors == some true) (blockStart requestData w u)).1 = .error e →
      (e.hasStatus 403 = true → (POST env requestData w).1.isPermissionResponse) ∧
      (e.hasStatus 403 = false → (POST env requestData w).1 = internalError e ∧
        (POST env requestData w).1.isFailureResponse)) ∧
    (∀ r, (gmailBlock env (handlerClient env w u token) u
        (requestData.useStandardColors == some true) (blockStart requestData w u)).1 = .ok r →
      (POST env requestData w).1 = r ∧
      (((reconcile env (handlerClient env w u token)
          (requestData.useStandardColors == some true) (blockStart requestData w u)).1 =
            .ok none ∧ r = insufficientPermissions) ∨
        r.isSuccessResponse)) := by
  have hrun := POST_admitted env requestData w u token hadm
  have hraised : ∀ e, (gmailBlock env (handlerClient env w u token) u
        (requestData.useStandardColors == some true) (blockStart requestData w u)).1 = .error e →
      (e.hasStatus 403 = true → (POST env requestData w).1.isPermissionResponse) ∧
      (e.hasStatus 403 = false → (POST env requestData w).1 = internalError e ∧
        (POST env requestData w).1.isFailureResponse) := by
    intro e he
    rw [hrun]
    cases hb : gmailBlock env (handlerClient env w u token) u
        (requestData.useStandardColors == some true) (blockStart requestData w u) with
    | mk r v =>
      rw [hb] at he
      simp only at he
      subst he
      refine ⟨fun h403 => ?_, fun h403 => ?_⟩
      · simp only [h403]
        exact ⟨rfl, rfl, rfl⟩
      · simp only [h403]
        exact ⟨rfl, rfl, rfl, rfl⟩
  have htrace : (POST env requestData w).2.trace =
      (gmailBlock env (handlerClient env w u token) u
        (requestData.useStandardColors == some true) (blockStart requestData w u)).2.trace := by
    rw [hrun]
    cases hb : gmailBlock env (handlerClient env w u token) u
        (requestData.useStandardColors == some true) (blockStart requestData w u) with
    | mk r v =>
      cases r with
      | ok response => rfl
      | error e =>
        simp only
        split <;> rfl
  refine ⟨?_, hraised, ?_⟩
  · intro i call e hlo hget hfail
    have hstart : Faithful env w.trace (blockStart requestData w u).trace none := by
      have : (blockStart requestData w u).trace =
          w.trace ++ [.usersSelect u requestData.accessToken, .usersCreatedAt u] := by
        simp [blockStart, World.log]
      rw [this]
      apply faithful_of_silent
      intro c hc j
      rcases List.mem_cons.mp hc with h | h
      · rw [h]; rfl
      · rw [List.mem_singleton.mp h]; rfl
    have hfaith := faithful_trans env _ _ _ _ hstart
      (gmailBlock_faithful env (handlerClient env w u token) u
        (requestData.useStandardColors == some true) (blockStart requestData w u))
    rw [htrace] at hget
    have hout := faithful_failure env _ _ _ hfaith i call e hlo hget hfail
    apply hraised
    cases hb : (gmailBlock env (handlerClient env w u token) u
        (requestData.useStandardColors == some true) (blockStart requestData w u)).1 with
    | ok response => rw [hb] at hout; simp [failureOf] at hout
    | error e2 =>
      rw [hb] at hout
      simp only [failureOf, Option.some.injEq] at hout
      rw [hout]
  · intro r hr
    refine ⟨?_, gmailBlock_ok_response env _ u _ _ r hr⟩
    rw [hrun]
    cases hb : gmailBlock env (handlerClient env w u token) u
        (requestData.useStandardColors == some true) (blockStart requestData w u) with
    | mk r2 v =>
      rw [hb] at hr
      simp only at hr
      subst hr
      rfl

/-- Witness for C20: the fetch of the listed message, the fifteenth call of
the run, fails with status 403 in one run and with status 500 in another. -/
theorem POST_status_by_outcome_witness :
    (POST (fetchForbiddenEnv [⟨"msg-1"⟩]) { userId := some "user-1" }
      emptyWorld).1.isPermissionResponse ∧
    (POST (fetchFailingEnv [⟨"msg-1"⟩]) { userId := some "user-1" }
      emptyWorld).1.isFailureResponse :=
  ⟨((POST_status_by_outcome (fetchForbiddenEnv [⟨"msg-1"⟩]) { userId := some "user-1" }
      emptyWorld "user-1" "refresh-1" ⟨rfl, by decide, ⟨_, rfl, rfl⟩⟩).1 14
      (.messagesGet sampleClient "msg-1") { status := some 403, message := some "Forbidden" }
      (by decide) rfl rfl).1 rfl,
   (((POST_status_by_outcome (fetchFailingEnv [⟨"msg-1"⟩]) { userId := some "user-1" }
      emptyWorld "user-1" "refresh-1" ⟨rfl, by decide, ⟨_, rfl, rfl⟩⟩).1 14
      (.messagesGet sampleClient "msg-1") { status := some 500, message := some "Backend Error" }
      (by decide) rfl rfl).2 rfl).2⟩


/-! ## Theorems on the fallbacks of the body extraction -/

theorem utf16_append (a b : String) : utf16 (a ++ b) = utf16 a ++ utf16 b := by
  simp [utf16, String.toList, String.data_append]

theorem truthy_eq_false_iff (s : JsString) : truthy s = false ↔ s = [] := by
  cases s <;> simp [truthy]

theorem truthy_eq_true_iff (s : JsString) : truthy s = true ↔ s ≠ [] := by
  cases s <;> simp [truthy]

/-- The value of `withFallbacks` in its three cases. -/
theorem withFallbacks_cases (body snippet : JsString) :
    (body ≠ [] → withFallbacks body snippet = body) ∧
    (body = [] → snippet ≠ [] →
      withFallbacks body snippet = decodeNumericRefs snippet ++ snippetMarker) ∧
    (body = [] → snippet = [] → withFallbacks body snippet = noContentPlaceholder) := by
  refine ⟨fun hb => ?_, fun hb hs => ?_, fun hb hs => ?_⟩
  · have := (truthy_eq_true_iff body).mpr hb
    simp [withFallbacks, this]
  · subst hb
    have := (truthy_eq_true_iff snippet).mpr hs
    have hm : truthy (decodeNumericRefs snippet ++ utf16 " [Extracted from snippet]") = true := by
      rw [truthy_eq_true_iff]
      intro h
      have := congrArg List.length h
      rw [List.length_append, show (utf16 " [Extracted from snippet]").length = 25 by decide] at this
      simp at this
    simp only [withFallbacks, show truthy ([] : JsString) = false from rfl, this,
      Bool.not_false, Bool.and_self, if_true, hm, Bool.not_true, Bool.false_eq_true, if_false,
      snippetMarker]
  · subst hb; subst hs
    rfl

/-- C21, evaluation at the failing input: for a payload that yields no text
and the snippet `&#128512;`, the extracted body is the single code unit 62976
(128512 modulo 65536) followed by the marker, which is not the character whose
code is 128512 followed by the marker; a reference below 65536 is replaced by
its character, and an empty snippet gives the placeholder. -/
theorem extractBody_snippet_astral_reference :
    (bodyFromPayload bufferDecode barePayload).toOption = some [] ∧
    extractBody bufferDecode barePayload (utf16 "&#128512;") = 62976 :: snippetMarker ∧
    characterOfCode 128512 = [55357, 56832] ∧
    extractBody bufferDecode barePayload (utf16 "&#128512;") ≠
      characterOfCode 128512 ++ snippetMarker ∧
    extractBody bufferDecode barePayload (utf16 "It&#39;s") =
      utf16 "It" ++ characterOfCode 39 ++ utf16 "s" ++ snippetMarker ∧
    extractBody bufferDecode barePayload [] = noContentPlaceholder := by
  refine ⟨rfl, rfl, rfl, ?_, rfl, rfl⟩
  decide

/-- C22: for a payload without parts array whose inline data decodes to a
non-empty string, whatever its MIME type, the extracted body is that
decoding. -/
theorem extractBody_inline_body (decode : Decoder) (payload : MimePart) (snippet : JsString)
    (data : String) (text : JsString)
    (hparts : payload.parts = none) (hdata : inlineData payload.body = some data)
    (hdecode : decode data = .ok text) (htext : text ≠ []) :
    extractBody decode payload snippet = text := by
  simp only [extractBody, bodyFromPayload, hparts, hdata, hdecode]
  exact (withFallbacks_cases text snippet).1 htext

/-- Witness for C22: the single-part payload of `sampleMessage` decodes to
`Hello`. -/
theorem extractBody_inline_body_witness :
    extractBody bufferDecode sampleMessage.payload (utf16 "Hello there") = utf16 "Hello" :=
  extractBody_inline_body bufferDecode sampleMessage.payload (utf16 "Hello there") "SGVsbG8="
    (utf16 "Hello") rfl rfl rfl (by decide)

/-- C29: for a payload without parts array and without inline data, whatever
its MIME type, the walk of the payload node yields the empty string, the
payload yields no text, and the extracted body is the snippet-derived text
when the snippet is not empty and the placeholder otherwise. -/
theorem extractBody_bare_payload (decode : Decoder) (payload : MimePart) (snippet : JsString)
    (hparts : payload.parts = none) (hdata : inlineData payload.body = none) :
    extractTextFromParts decode [] payload = [] ∧
    bodyFromPayload decode payload = .ok [] ∧
    (snippet ≠ [] →
      extractBody decode payload snippet = decodeNumericRefs snippet ++ snippetMarker) ∧
    (snippet = [] → extractBody decode payload snippet = noContentPlaceholder) := by
  obtain ⟨mimeType, partBody, parts⟩ := payload
  simp only [MimePart.parts] at hparts
  simp only [MimePart.body] at hdata
  subst hparts
  have hwalk : extractTextFromParts decode [] (.mk mimeType partBody none) = [] := by
    rw [extractTextFromParts_mk]
    simp [hdata]
  have hbody : bodyFromPayload decode (.mk mimeType partBody none) = .ok [] := by
    simp only [bodyFromPayload, MimePart.parts, MimePart.body, hdata, hwalk]
    split <;> rfl
  refine ⟨hwalk, hbody, fun hs => ?_, fun hs => ?_⟩
  · simp only [extractBody, hbody]
    exact (withFallbacks_cases [] snippet).2.1 rfl hs
  · simp only [extractBody, hbody]
    exact (withFallbacks_cases [] snippet).2.2 rfl hs

/-- Witness for C29: the bare payload with the snippet `Hi` and with an empty
snippet. -/
theorem extractBody_bare_payload_witness :
    extractBody bufferDecode barePayload (utf16 "Hi") =
      decodeNumericRefs (utf16 "Hi") ++ snippetMarker ∧
    extractBody bufferDecode barePayload [] = noContentPlaceholder :=
  ⟨(extractBody_bare_payload bufferDecode barePayload (utf16 "Hi") rfl rfl).2.2.1 (by decide),
   (extractBody_bare_payload bufferDecode barePayload [] rfl rfl).2.2.2 rfl⟩

/-- C28: the extracted body is never empty; it is the non-empty text that the
payload yields, or a text that ends with the snippet marker, or the
placeholder, or a text that starts with the error marker. -/
theorem extractBody_nonempty (decode : Decoder) (payload : MimePart) (snippet : JsString) :
    extractBody decode payload snippet ≠ [] ∧
    ((∃ body, bodyFromPayload decode payload = .ok body ∧ body ≠ [] ∧
        extractBody decode payload snippet = body) ∨
     (∃ text, bodyFromPayload decode payload = .ok [] ∧ snippet ≠ [] ∧
        extractBody decode payload snippet = text ++ snippetMarker) ∨
     (bodyFromPayload decode payload = .ok [] ∧ snippet = [] ∧
        extractBody decode payload snippet = noContentPlaceholder) ∨
     (∃ e text, bodyFromPayload decode payload = .error e ∧
        extractBody decode payload snippet = errorMarkerStart ++ text)) := by
  have hmarker : ∀ text : JsString, text ++ snippetMarker ≠ [] := by
    intro text h
    have := congrArg List.length h
    rw [List.length_append, show snippetMarker.length = 25 by decide] at this
    simp at this
  cases hb : bodyFromPayload decode payload with
  | error e =>
    have hrun : extractBody decode payload snippet =
        errorMarkerStart ++ utf16 (e.messageOr "Unknown error" ++ "]") := by
      simp only [extractBody, hb, errorMarkerStart]
      rw [String.append_assoc, utf16_append]
    refine ⟨?_, Or.inr (Or.inr (Or.inr ⟨e, _, rfl, hrun⟩))⟩
    rw [hrun]
    intro h
    have := congrArg List.length h
    rw [List.length_append, show errorMarkerStart.length = 27 by decide] at this
    simp at this
  | ok body =>
    have hrun : extractBody decode payload snippet = withFallbacks body snippet := by
      simp only [extractBody, hb]
    by_cases hbody : body = []
    · by_cases hs : snippet = []
      · have := (withFallbacks_cases body snippet).2.2 hbody hs
        refine ⟨?_, Or.inr (Or.inr (Or.inl ⟨by rw [hbody], hs, by rw [hrun, this]⟩))⟩
        rw [hrun, this]
        decide
      · have := (withFallbacks_cases body snippet).2.1 hbody hs
        refine ⟨?_, Or.inr (Or.inl ⟨_, by rw [hbody], hs, by rw [hrun, this]⟩)⟩
        rw [hrun, this]
        exact hmarker _
    · have := (withFallbacks_cases body snippet).1 hbody
      refine ⟨?_, Or.inl ⟨body, rfl, hbody, by rw [hrun, this]⟩⟩
      rw [hrun, this]
      exact hbody


/-! ## Theorems on the walk of the part tree -/

theorem leafTexts_mk (decode : Decoder) (mimeType : Option String)
    (partBody : Option PartBody) (parts : Option (List (Option MimePart))) :
    leafTexts decode (.mk mimeType partBody parts) =
      match (if mimeType = some "text/plain" ∨ mimeType = some "text/html"
             then inlineData partBody else none) with
      | some data =>
        match decode data with
        | .ok text => [if mimeType = some "text/plain" then text else stripHtml text]
        | .error _ => [[]]
      | none =>
        match parts with
        | some subParts => leafTextsOfParts decode subParts
        | none => [] := by
  cases parts <;> rfl

theorem leafTextsOfParts_nil (decode : Decoder) : leafTextsOfParts decode [] = [] := rfl

theorem leafTextsOfParts_none (decode : Decoder) (rest : List (Option MimePart)) :
    leafTextsOfParts decode (none :: rest) = leafTextsOfParts decode rest := rfl

theorem leafTextsOfParts_some (decode : Decoder) (part : MimePart)
    (rest : List (Option MimePart)) :
    leafTextsOfParts decode (some part :: rest) =
      leafTexts decode part ++ leafTextsOfParts decode rest := rfl

theorem firstNonEmpty_nil : firstNonEmpty [] = [] := rfl

theorem firstNonEmpty_singleton (text : JsString) : firstNonEmpty [text] = text := by
  cases text <;> simp [firstNonEmpty, truthy]

theorem firstNonEmpty_append (a b : List JsString) :
    firstNonEmpty (a ++ b) =
      if truthy (firstNonEmpty a) then firstNonEmpty a else firstNonEmpty b := by
  induction a with
  | nil => simp [firstNonEmpty, truthy]
  | cons t rest ih =>
    by_cases ht : truthy t = true
    · simp [firstNonEmpty, ht]
    · simp only [firstNonEmpty, List.cons_append, List.find?_cons, ht] at ih ⊢
      exact ih

/-- The walk of a node, given the walk of its sub-parts. -/
theorem extractTextFromParts_mk_first (decode : Decoder) (mimeType : Option String)
    (partBody : Option PartBody) (parts : Option (List (Option MimePart)))
    (ih : ∀ subParts, parts = some subParts →
      extractFromSubParts decode [] subParts = firstNonEmpty (leafTextsOfParts decode subParts)) :
    extractTextFromParts decode [] (.mk mimeType partBody parts) =
      firstNonEmpty (leafTexts decode (.mk mimeType partBody parts)) := by
  rw [extractTextFromParts_mk, leafTexts_mk]
  by_cases hplain : mimeType = some "text/plain"
  · subst hplain
    cases hd : inlineData partBody with
    | some data =>
      simp only [if_true, true_or]
      cases decode data with
      | ok text => simp only [firstNonEmpty_singleton]
      | error e => simp only [firstNonEmpty_singleton]
    | none =>
      simp only [if_true, true_or, reduceCtorEq, false_and, if_false]
      cases parts with
      | none => rfl
      | some subParts => exact ih subParts rfl
  · by_cases hhtml : mimeType = some "text/html"
    · subst hhtml
      cases hd : inlineData partBody with
      | some data =>
        simp only [reduceCtorEq, if_false, true_and, if_true, or_true, Option.some.injEq,
          String.reduceEq]
        cases decode data with
        | ok text => simp only [firstNonEmpty_singleton]
        | error e => simp only [firstNonEmpty_singleton]
      | none =>
        simp only [reduceCtorEq, if_false, true_and, if_true, or_true, Option.some.injEq,
          String.reduceEq]
        cases parts with
        | none => rfl
        | some subParts => exact ih subParts rfl
    · simp only [hplain, hhtml, if_false, false_and, or_self]
      cases parts with
      | none => rfl
      | some subParts => exact ih subParts rfl

/-- The loop over sub-parts, given the walk of its first entry and of the
rest. -/
theorem extractFromSubParts_cons_first (decode : Decoder) (subPart : Option MimePart)
    (rest : List (Option MimePart))
    (ihPart : ∀ part, subPart = some part →
      extractTextFromParts decode [] part = firstNonEmpty (leafTexts decode part))
    (ihRest : extractFromSubParts decode [] rest =
      firstNonEmpty (leafTextsOfParts decode rest)) :
    extractFromSubParts decode [] (subPart :: rest) =
      firstNonEmpty (leafTextsOfParts decode (subPart :: rest)) := by
  cases subPart with
  | none =>
    rw [extractFromSubParts_cons, extractFromOptionalPart_none, leafTextsOfParts_none]
    simp only [truthy, List.isEmpty_nil, Bool.not_true, Bool.false_eq_true, if_false]
    exact ihRest
  | some part =>
    rw [extractFromSubParts_cons, extractFromOptionalPart_some, leafTextsOfParts_some,
      firstNonEmpty_append, ihPart part rfl, ihRest]

mutual
theorem extractTextFromParts_first (decode : Decoder) :
    ∀ (part : MimePart),
      extractTextFromParts decode [] part = firstNonEmpty (leafTexts decode part)
  | .mk mimeType partBody parts =>
    extractTextFromParts_mk_first decode mimeType partBody parts
      (fun subParts hp => by
        subst hp
        exact extractFromSubParts_first decode subParts)
theorem extractFromSubParts_first (decode : Decoder) :
    ∀ (subParts : List (Option MimePart)),
      extractFromSubParts decode [] subParts = firstNonEmpty (leafTextsOfParts decode subParts)
  | [] => by rw [extractFromSubParts_nil, leafTextsOfParts_nil, firstNonEmpty_nil]
  | subPart :: rest =>
    extractFromSubParts_cons_first decode subPart rest
      (fun part hp => by
        subst hp
        exact extractTextFromParts_first decode part)
      (extractFromSubParts_first decode rest)
end

/-- C27: every walk that the handler starts runs with an empty enclosing
body, and its result is the first non-empty leaf text of the tree in
pre-order, the empty string if there is none: this holds for the walk of a
node, for the loop over the parts array, and so for the body that the payload
yields; for the parts `text/html` then `text/plain`, both with text, the
result is the stripped HTML. -/
theorem extractTextFromParts_first_leaf_text (decode : Decoder) (payload : MimePart) :
    extractTextFromParts decode [] payload = firstNonEmpty (leafTexts decode payload) ∧
    (∀ parts, payloadPartsLoop decode [] parts =
      firstNonEmpty (leafTextsOfParts decode parts)) ∧
    bodyFromPayload decode payload =
      (match payload.parts with
       | some parts => .ok (firstNonEmpty (leafTextsOfParts decode parts))
       | none =>
         match inlineData payload.body with
         | some data => decode data
         | none =>
           if isMultipart payload.mimeType then .ok (firstNonEmpty (leafTexts decode payload))
           else .ok []) ∧
    (∀ htmlData plainData html plain rest,
      decode htmlData = .ok html → decode plainData = .ok plain →
      htmlData ≠ "" → plainData ≠ "" → stripHtml html ≠ [] → plain ≠ [] →
      payloadPartsLoop decode []
        (some (.mk (some "text/html") (some ⟨some htmlData⟩) none) ::
         some (.mk (some "text/plain") (some ⟨some plainData⟩) none) :: rest) =
        stripHtml html) := by
  refine ⟨extractTextFromParts_first decode payload, ?_, ?_, ?_⟩
  · intro parts
    rw [payloadPartsLoop_eq, extractFromSubParts_first]
  · simp only [bodyFromPayload]
    cases payload.parts with
    | some parts => simp only [payloadPartsLoop_eq, extractFromSubParts_first]
    | none => simp only [extractTextFromParts_first]
  · intro htmlData plainData html plain rest hh hp hhd hpd hstrip hplain
    rw [payloadPartsLoop_eq, extractFromSubParts_cons, extractFromOptionalPart_some,
      extractTextFromParts_mk]
    simp [inlineData, hhd, hh, (truthy_eq_true_iff _).mpr hstrip]

/-- Witness for C27: the parts `<p>Hi</p>` as `text/html` and `Hello` as
`text/plain` yield `Hi`. -/
theorem extractTextFromParts_first_leaf_text_witness :
    payloadPartsLoop bufferDecode []
      [some (.mk (some "text/html") (some ⟨some "PHA+SGk8L3A+"⟩) none),
       some (.mk (some "text/plain") (some ⟨some "SGVsbG8="⟩) none)] =
      stripHtml (utf16 "<p>Hi</p>") :=
  (extractTextFromParts_first_leaf_text bufferDecode htmlThenPlain).2.2.2 "PHA+SGk8L3A+"
    "SGVsbG8=" (utf16 "<p>Hi</p>") (utf16 "Hello") [] rfl rfl (by decide) (by decide)
    (by decide) (by decide)


/-! ## Theorems on decoding failures and on markup stripping -/

/-- C23: an exception of the decoding at the top of the payload is turned
into the error marker, so that the extraction always answers a string; a
`text/plain` or `text/html` part whose inline data cannot be decoded yields
the empty string, and the loops over the sub-parts and over the parts array
go on with the parts after it. -/
theorem extractBody_contains_decode_failures (decode : Decoder) :
    (∀ payload snippet e, bodyFromPayload decode payload = .error e →
      extractBody decode payload snippet =
        utf16 ("[Error extracting content: " ++ e.messageOr "Unknown error" ++ "]")) ∧
    (∀ payload snippet body, bodyFromPayload decode payload = .ok body →
      extractBody decode payload snippet = withFallbacks body snippet) ∧
    (∀ mimeType partBody parts data e,
      mimeType = some "text/plain" ∨ mimeType = some "text/html" →
      inlineData partBody = some data → decode data = .error e →
      extractTextFromParts decode [] (.mk mimeType partBody parts) = [] ∧
      ∀ rest,
        extractFromSubParts decode [] (some (.mk mimeType partBody parts) :: rest) =
          extractFromSubParts decode [] rest ∧
        payloadPartsLoop decode [] (some (.mk mimeType partBody parts) :: rest) =
          payloadPartsLoop decode [] rest) := by
  refine ⟨fun payload snippet e h => by simp only [extractBody, h],
    fun payload snippet body h => by simp only [extractBody, h], ?_⟩
  intro mimeType partBody parts data e hm hd he
  have hwalk : extractTextFromParts decode [] (.mk mimeType partBody parts) = [] := by
    rw [extractTextFromParts_mk]
    rcases hm with h | h
    · subst h
      simp only [if_true, hd, he]
    · subst h
      simp only [reduceCtorEq, if_false, true_and, if_true, hd, he, Option.some.injEq,
        String.reduceEq, and_self]
  refine ⟨hwalk, fun rest => ?_⟩
  have hsub : extractFromSubParts decode [] (some (.mk mimeType partBody parts) :: rest) =
      extractFromSubParts decode [] rest := by
    rw [extractFromSubParts_cons, extractFromOptionalPart_some, hwalk]
    simp only [truthy, List.isEmpty_nil, Bool.not_true, Bool.false_eq_true, if_false]
  refine ⟨hsub, ?_⟩
  rw [payloadPartsLoop_eq, payloadPartsLoop_eq, hsub]

/-- Witness for C23: the first part cannot be decoded, the second part is
`Hello`; the body is `Hello`. A payload whose own data cannot be decoded gives
the error marker. -/
theorem extractBody_contains_decode_failures_witness :
    payloadPartsLoop brittleDecode []
      [some (.mk (some "text/plain") (some ⟨some "!!"⟩) none),
       some (.mk (some "text/plain") (some ⟨some "SGVsbG8="⟩) none)] = utf16 "Hello" ∧
    extractBody brittleDecode (.mk (some "text/plain") (some ⟨some "!!"⟩) none) [] =
      utf16 "[Error extracting content: The first argument must be of type string]" :=
  ⟨(((extractBody_contains_decode_failures brittleDecode).2.2 (some "text/plain")
      (some ⟨some "!!"⟩) none "!!" { message := some "The first argument must be of type string" }
      (Or.inl rfl) rfl rfl).2
      [some (.mk (some "text/plain") (some ⟨some "SGVsbG8="⟩) none)]).2.trans rfl,
   (extractBody_contains_decode_failures brittleDecode).1
      (.mk (some "text/plain") (some ⟨some "!!"⟩) none) []
      { message := some "The first argument must be of type string" } rfl⟩

/-- The output of the white-space replacement has no two adjacent white-space
code units, and after a white-space code unit it does not start with one. -/
theorem collapse_chain (m : Bool) (s : JsString) :
    NoAdjacentWhiteSpace (collapseWhiteSpaceAux m s) ∧
    (m = true → ∀ u, (collapseWhiteSpaceAux m s).head? = some u → isWhiteSpace u = false) := by
  induction s generalizing m with
  | nil => exact ⟨List.chain'_nil, fun _ u h => by simp [collapseWhiteSpaceAux] at h⟩
  | cons a rest ih =>
    by_cases ha : isWhiteSpace a = true
    · cases m with
      | true =>
        simp only [collapseWhiteSpaceAux, ha, if_true]
        exact ⟨(ih true).1, fun _ => (ih true).2 rfl⟩
      | false =>
        simp only [collapseWhiteSpaceAux, ha, if_true, Bool.false_eq_true, if_false]
        refine ⟨?_, fun h => by simp at h⟩
        rw [NoAdjacentWhiteSpace, List.chain'_cons']
        refine ⟨?_, (ih true).1⟩
        intro v hv hboth
        have := (ih true).2 rfl v (by simpa using hv)
        rw [this] at hboth
        simp at hboth
    · simp only [collapseWhiteSpaceAux, ha, Bool.false_eq_true, if_false]
      refine ⟨?_, fun _ u hu => ?_⟩
      · rw [NoAdjacentWhiteSpace, List.chain'_cons']
        refine ⟨?_, (ih false).1⟩
        intro v _ hboth
        exact ha hboth.1
      · simp only [List.head?_cons, Option.some.injEq] at hu
        rw [← hu]
        simpa using ha

theorem trimEnd_initial (s : JsString) : trimEnd s <+: s := by
  unfold trimEnd
  rw [← List.reverse_suffix]
  simp only [List.reverse_reverse]
  exact List.dropWhile_suffix _

/-- C24: for every string, the markup-stripping step answers a string without
tag sequence (no `<` with a `>` anywhere after it), without leading or
trailing white space, and without two adjacent white-space code units. -/
theorem stripHtml_normal_form (htmlContent : JsString) :
    stripHtml htmlContent =
      trim (collapseWhiteSpace (replaceTags htmlContent)) ∧
    ¬ HasTag (stripHtml htmlContent) ∧
    Trimmed (stripHtml htmlContent) ∧
    NoAdjacentWhiteSpace (stripHtml htmlContent) := by
  refine ⟨rfl, stripHtml_no_tag htmlContent, ⟨?_, ?_⟩, ?_⟩
  · intro u hu
    obtain ⟨t, ht⟩ := trimEnd_initial
      ((collapseWhiteSpace (replaceTags htmlContent)).dropWhile isWhiteSpace)
    have hhead : ((collapseWhiteSpace (replaceTags htmlContent)).dropWhile
        isWhiteSpace).head? = some u := by
      unfold stripHtml trim at hu
      rw [← ht]
      cases hte : trimEnd ((collapseWhiteSpace (replaceTags htmlContent)).dropWhile
          isWhiteSpace) with
      | nil => rw [hte] at hu; simp at hu
      | cons a rest =>
        rw [hte] at hu
        simpa using hu
    have := List.head?_dropWhile_not isWhiteSpace (collapseWhiteSpace (replaceTags htmlContent))
    rw [hhead] at this
    simpa using this
  · intro u hu
    unfold stripHtml trim trimEnd at hu
    rw [List.getLast?_reverse] at hu
    have := List.head?_dropWhile_not isWhiteSpace
      ((collapseWhiteSpace (replaceTags htmlContent)).dropWhile isWhiteSpace).reverse
    rw [hu] at this
    simpa using this
  · unfold stripHtml trim
    have h0 : NoAdjacentWhiteSpace (collapseWhiteSpace (replaceTags htmlContent)) :=
      (collapse_chain false (replaceTags htmlContent)).1
    have h1 : NoAdjacentWhiteSpace
        ((collapseWhiteSpace (replaceTags htmlContent)).dropWhile isWhiteSpace) :=
      List.Chain'.suffix h0 (List.dropWhile_suffix _)
    exact List.Chain'.prefix h1 (trimEnd_initial _)

/-! ## Lemmas on the calls of one iteration -/

/-- The calls of the classification of a message. -/
theorem classifyAndLabel_trace (env : Env) (client : GmailClient) (amurexLabels : Obj)
    (messageId : String) (fromEmail subject body : JsString) (acc : LoopState) (w : World) :
    (classifyAndLabel env client amurexLabels messageId fromEmail subject body acc w).2.trace =
      w.trace ++ .chatCompletion (chatRequest fromEmail subject (truncateBody body)) ::
        (match labelToApply amurexLabels
            (categorizeWithAI (env.groq w.time) fromEmail subject (truncateBody body)) with
         | some labelId => [.messagesModify client messageId [labelId]]
         | none => []) := by
  simp only [classifyAndLabel, labelToApply]
  cases hlabel : (if categorizeWithAI (env.groq w.time) fromEmail subject (truncateBody body)
      ≠ "none" then amurexLabels.getTruthy (categorizeWithAI (env.groq w.time) fromEmail
        subject (truncateBody body)) else none) with
  | none => simp [World.log]
  | some labelId =>
    simp only
    cases env.messagesModifyError
        (w.log (.chatCompletion (chatRequest fromEmail subject (truncateBody body)))).time
        client messageId [labelId] with
    | none => simp [World.log]
    | some e => simp [World.log]

/-- The outcome of the classification of a message carries the results
extended by one entry, when it is no exception. -/
theorem classifyAndLabel_results (env : Env) (client : GmailClient) (amurexLabels : Obj)
    (messageId : String) (fromEmail subject body : JsString) (acc acc1 : LoopState)
    (w : World)
    (h : (classifyAndLabel env client amurexLabels messageId fromEmail subject body
      acc w).1 = .ok acc1) :
    acc1.results = acc.results ++
      [⟨messageId, subject,
        categorizeWithAI (env.groq w.time) fromEmail subject (truncateBody body), true⟩] := by
  simp only [classifyAndLabel] at h
  split at h
  · split at h
    · simp at h
    · simp only [Except.ok.injEq] at h
      rw [← h]
  · simp only [Except.ok.injEq] at h
    rw [← h]

/-- The calls of one iteration of the loop on a fetched message with label
ids: the fetch, the calls of the classification when the message is to be
categorized and carries no category label, and store calls whose inserts
carry the extracted body, or the empty string for a message that carries a
category label. -/
theorem processMessage_calls (env : Env) (client : GmailClient) (u : String)
    (amurexLabels : Obj) (sc : Bool) (message : MessageStub) (acc : LoopState) (w : World)
    (fullMessage : FullMessage) (labelIds : List String)
    (hget : env.messagesGet w.time client message.id = .ok fullMessage)
    (hids : fullMessage.labelIds = some labelIds) :
    ∃ stored,
      (processMessage env client u amurexLabels sc message acc w).2.trace =
        w.trace ++ .messagesGet client message.id ::
          ((if sc && !(findAmurexLabel amurexLabels labelIds).isSome
            then classifierCalls env client amurexLabels (w.time + 1) message fullMessage
            else []) ++ stored) ∧
      (∀ call ∈ stored, call = .emailsSelectOne u message.id ∨
        ∃ row, call = .emailsInsert row ∧ row.message_id = message.id ∧
          row.content = if sc && (findAmurexLabel amurexLabels labelIds).isSome then []
            else bodyOf env fullMessage) := by
  have htime : (w.log (.messagesGet client message.id)).time = w.time + 1 := log_time _ _
  have hstore : ∀ (content : JsString) (a : LoopState) (v : World),
      ∃ stored,
        (storeAndCount env u message.id
          ((fullMessage.threadId.filter (fun t => t ≠ "")).getD message.id)
          (headerOr fullMessage.headers "From" (utf16 "Unknown"))
          (headerOr fullMessage.headers "Subject" (utf16 "(No Subject)")) content
          (receivedDate fullMessage.internalDate) (!labelIds.contains "UNREAD")
          fullMessage.snippet a v).2.trace = v.trace ++ stored ∧
        ∀ call ∈ stored, call = .emailsSelectOne u message.id ∨
          ∃ row, call = .emailsInsert row ∧ row.message_id = message.id ∧
            row.content = content := by
    intro content a v
    obtain ⟨extra, added, htrace, -, hcalls, -⟩ := store_calls env u message.id
      ((fullMessage.threadId.filter (fun t => t ≠ "")).getD message.id)
      (headerOr fullMessage.headers "From" (utf16 "Unknown"))
      (headerOr fullMessage.headers "Subject" (utf16 "(No Subject)")) content
      (receivedDate fullMessage.internalDate) (!labelIds.contains "UNREAD")
      fullMessage.snippet v
    refine ⟨.emailsSelectOne u message.id :: extra, by rw [storeAndCount_world, htrace], ?_⟩
    intro call hcall
    rcases List.mem_cons.mp hcall with h | h
    · exact Or.inl h
    · obtain ⟨row, hrow, hcontent, -, hid⟩ := hcalls call h
      exact Or.inr ⟨row, hrow, hid, hcontent⟩
  simp only [processMessage, hget, hids]
  by_cases hl : (sc && (findAmurexLabel amurexLabels labelIds).isSome) = true
  · have hnot : (sc && !(findAmurexLabel amurexLabels labelIds).isSome) = false := by
      cases sc <;> simp_all
    simp only [hl, hnot, if_true, Bool.false_eq_true, if_false, List.nil_append]
    obtain ⟨stored, htrace, hcalls⟩ := hstore []
      { acc with results := acc.results ++
        [⟨message.id, headerOr fullMessage.headers "Subject" (utf16 "(No Subject)"),
          "already_labeled", true⟩] }
      (w.log (.messagesGet client message.id))
    refine ⟨stored, ?_, hcalls⟩
    rw [htrace]
    simp [World.log]
  · simp only [hl, Bool.false_eq_true, if_false]
    cases sc with
    | false =>
      simp only [Bool.false_and, Bool.false_eq_true, if_false, List.nil_append]
      obtain ⟨stored, htrace, hcalls⟩ := hstore
        (extractBody env.decode fullMessage.payload fullMessage.snippet) acc
        (w.log (.messagesGet client message.id))
      refine ⟨stored, ?_, hcalls⟩
      rw [htrace]
      simp [World.log]
    | true =>
      have hfresh : (findAmurexLabel amurexLabels labelIds).isSome = false := by
        simpa using hl
      simp only [hfresh, Bool.true_and, Bool.not_false, if_true]
      have hclass := classifyAndLabel_trace env client amurexLabels message.id
        (headerOr fullMessage.headers "From" (utf16 "Unknown"))
        (headerOr fullMessage.headers "Subject" (utf16 "(No Subject)"))
        (extractBody env.decode fullMessage.payload fullMessage.snippet) acc
        (w.log (.messagesGet client message.id))
      rw [htime] at hclass
      cases hc : classifyAndLabel env client amurexLabels message.id
          (headerOr fullMessage.headers "From" (utf16 "Unknown"))
          (headerOr fullMessage.headers "Subject" (utf16 "(No Subject)"))
          (extractBody env.decode fullMessage.payload fullMessage.snippet) acc
          (w.log (.messagesGet client message.id)) with
      | mk r v =>
        rw [hc] at hclass
        simp only at hclass
        cases r with
        | error e =>
          refine ⟨[], ?_, by simp⟩
          simp only [hclass, List.append_nil, classifierCalls, classifierRequest, categoryOf,
            senderOf, subjectOf, bodyOf]
          simp [World.log]
        | ok a =>
          obtain ⟨stored, htrace, hcalls⟩ := hstore
            (extractBody env.decode fullMessage.payload fullMessage.snippet) a v
          refine ⟨stored, ?_, hcalls⟩
          simp only [htrace, hclass, classifierCalls, classifierRequest, categoryOf,
            senderOf, subjectOf, bodyOf]
          simp [World.log]

/-! ## Theorems on the label application and on the classifier input -/

/-- The label applications of one iteration: in the iteration of index `i`
over `total` new messages, on a fetched message with label ids: when `i` is
below 20, the label check of the loop finds no category label on the message,
its category is not `none` and the mapping has an id for the category,
the label applications of the iteration are exactly one call, which adds that
id to that message; in every other case the iteration issues no label
application; and from index 20 on the iteration issues no classifier call and
no label application and leaves the results as they are. -/
theorem processMessage_label_application (env : Env) (client : GmailClient) (u : String)
    (amurexLabels : Obj) (total i : Nat) (message : MessageStub) (acc : LoopState) (w : World)
    (fullMessage : FullMessage) (labelIds : List String)
    (hget : env.messagesGet w.time client message.id = .ok fullMessage)
    (hids : fullMessage.labelIds = some labelIds) :
    ∃ extra,
      (processMessage env client u amurexLabels (decide (i < min 20 total)) message
        acc w).2.trace = w.trace ++ extra ∧
      (∀ labelId, i < 20 → i < total → findAmurexLabel amurexLabels labelIds = none →
        categoryOf env (w.time + 1) fullMessage ≠ "none" →
        amurexLabels.getTruthy (categoryOf env (w.time + 1) fullMessage) = some labelId →
        extra.filter Call.isModify = [.messagesModify client message.id [labelId]]) ∧
      (¬ (i < 20 ∧ i < total ∧ findAmurexLabel amurexLabels labelIds = none ∧
          categoryOf env (w.time + 1) fullMessage ≠ "none" ∧
          (amurexLabels.getTruthy (categoryOf env (w.time + 1) fullMessage)).isSome = true) →
        extra.filter Call.isModify = []) ∧
      (20 ≤ i →
        extra.filter Call.classifiesOrLabels = [] ∧
        ∃ acc1, (processMessage env client u amurexLabels (decide (i < min 20 total)) message
          acc w).1 = .ok acc1 ∧ acc1.results = acc.results) := by
  obtain ⟨stored, htrace, hstored⟩ := processMessage_calls env client u amurexLabels
    (decide (i < min 20 total)) message acc w fullMessage labelIds hget hids
  have hquiet : ∀ (p : Call → Bool), p (.emailsSelectOne u message.id) = false →
      (∀ row, p (.emailsInsert row) = false) → stored.filter p = [] := by
    intro p h1 h2
    rw [List.filter_eq_nil_iff]
    intro call hcall
    rcases hstored call hcall with h | ⟨row, h, -⟩
    · rw [h, h1]; simp
    · rw [h, h2]; simp
  have hm := hquiet Call.isModify rfl (fun _ => rfl)
  have hc := hquiet Call.classifiesOrLabels rfl (fun _ => rfl)
  refine ⟨_, htrace, ?_, ?_, ?_⟩
  · intro labelId h20 htotal hfresh hcat hlabel
    have hsc : decide (i < min 20 total) = true := by
      rw [decide_eq_true_iff]; omega
    simp only [hsc, hfresh, Option.isSome_none, Bool.not_false, Bool.and_self, if_true,
      classifierCalls, labelToApply, hcat, ne_eq, not_false_eq_true, hlabel,
      List.filter_cons, List.filter_append, hm, Call.isModify, Bool.false_eq_true, if_false,
      List.filter_nil, List.append_nil]
  · intro hnot
    by_cases hsc : (decide (i < min 20 total) && !(findAmurexLabel amurexLabels labelIds).isSome)
        = true
    · have hlt : i < min 20 total := of_decide_eq_true ((Bool.and_eq_true _ _).mp hsc).1
      have hfresh : findAmurexLabel amurexLabels labelIds = none := by
        cases hf : findAmurexLabel amurexLabels labelIds with
        | none => rfl
        | some x => rw [hf] at hsc; simp at hsc
      have hnone : labelToApply amurexLabels (categoryOf env (w.time + 1) fullMessage) = none := by
        unfold labelToApply
        by_cases hcat : categoryOf env (w.time + 1) fullMessage = "none"
        · simp [hcat]
        · simp only [ne_eq, hcat, not_false_eq_true, if_true]
          cases hl : amurexLabels.getTruthy (categoryOf env (w.time + 1) fullMessage) with
          | none => rfl
          | some labelId =>
            exact absurd ⟨by omega, by omega, hfresh, hcat, by rw [hl]; rfl⟩ hnot
      simp only [hsc, if_true, classifierCalls, hnone, List.filter_cons, List.filter_append, hm,
        Call.isModify, Bool.false_eq_true, if_false, List.filter_nil, List.append_nil]
    · simp only [hsc, Bool.false_eq_true, if_false, List.nil_append, List.filter_cons, hm,
        Call.isModify]
  · intro h20
    have hsc : decide (i < min 20 total) = false := by
      rw [decide_eq_false_iff_not]; omega
    refine ⟨?_, ?_⟩
    · simp only [hsc, Bool.false_and, Bool.false_eq_true, if_false, List.nil_append,
        List.filter_cons, hc, Call.classifiesOrLabels]
    · rw [hsc]
      refine ⟨_, ?_, storeAndCount_results env u message.id
        ((fullMessage.threadId.filter (fun t => t ≠ "")).getD message.id)
        (headerOr fullMessage.headers "From" (utf16 "Unknown"))
        (headerOr fullMessage.headers "Subject" (utf16 "(No Subject)"))
        (extractBody env.decode fullMessage.payload fullMessage.snippet)
        (receivedDate fullMessage.internalDate) (!labelIds.contains "UNREAD")
        fullMessage.snippet acc (w.log (.messagesGet client message.id))⟩
      simp only [processMessage, hget, hids, Bool.false_and, Bool.false_eq_true, if_false]

/-- An instance of the label applications of one iteration: the first of two
new messages is classified as `comment`, for which the mapping holds `Label_2`;
the label applications of the iteration are the one call that adds `Label_2`
to `msg-1`. -/
theorem processMessage_label_application_instance :
    ∃ extra,
      (processMessage (healthyEnv []) sampleClient "user-1" sampleLabels
        (decide (0 < min 20 2)) ⟨"msg-1"⟩ { results := [], totalStoredCount := 0 }
        emptyWorld).2.trace = emptyWorld.trace ++ extra ∧
      extra.filter Call.isModify = [.messagesModify sampleClient "msg-1" ["Label_2"]] :=
  match processMessage_label_application (healthyEnv []) sampleClient "user-1" sampleLabels 2 0
      ⟨"msg-1"⟩ { results := [], totalStoredCount := 0 } emptyWorld sampleMessage
      ["UNREAD", "INBOX"] rfl rfl with
  | ⟨extra, htrace, happly, _, _⟩ =>
    ⟨extra, htrace, happly "Label_2" (by decide) (by decide) rfl (by decide) rfl⟩

theorem truncateBody_short (b : JsString) (h : b.length ≤ 1500) : truncateBody b = b := by
  simp [truncateBody, Nat.not_lt.mpr h]

theorem truncateBody_long (b : JsString) (h : 1500 < b.length) :
    truncateBody b = b.take 1500 ++ utf16 "..." := by
  simp [truncateBody, h]

/-- C26: the text passed to the classifier is the body when the body has at
most 1500 code units and its first 1500 code units followed by `...`
otherwise, so it has at most 1503 code units and starts with the first
min(1500, length) code units of the body; in an iteration that reaches the
body extraction (the fetched message is not to be categorized, or the label
check of the loop finds no category label on it) every classifier call carries
the truncated extracted body, a message to be categorized gets such a call,
and every insert carries the whole extracted body. -/
theorem classifier_input_truncated (env : Env) (client : GmailClient) (u : String)
    (amurexLabels : Obj) (sc : Bool) (message : MessageStub) (acc : LoopState) (w : World)
    (fullMessage : FullMessage) (labelIds : List String)
    (hget : env.messagesGet w.time client message.id = .ok fullMessage)
    (hids : fullMessage.labelIds = some labelIds)
    (hreach : (sc && (findAmurexLabel amurexLabels labelIds).isSome) = false) :
    (∀ b : JsString,
      (b.length ≤ 1500 → truncateBody b = b) ∧
      (1500 < b.length → truncateBody b = b.take 1500 ++ utf16 "...") ∧
      (truncateBody b).length ≤ 1503 ∧
      b.take (min 1500 b.length) <+: truncateBody b) ∧
    ∃ extra,
      (processMessage env client u amurexLabels sc message acc w).2.trace = w.trace ++ extra ∧
      (∀ request, Call.chatCompletion request ∈ extra →
        request = chatRequest (senderOf fullMessage) (subjectOf fullMessage)
          (truncateBody (bodyOf env fullMessage))) ∧
      (sc = true →
        Call.chatCompletion (chatRequest (senderOf fullMessage) (subjectOf fullMessage)
          (truncateBody (bodyOf env fullMessage))) ∈ extra) ∧
      (∀ row, Call.emailsInsert row ∈ extra → row.content = bodyOf env fullMessage) := by
  refine ⟨fun b => ⟨truncateBody_short b, truncateBody_long b, ?_, ?_⟩, ?_⟩
  · by_cases h : 1500 < b.length
    · rw [truncateBody_long b h, List.length_append, List.length_take,
        show (utf16 "...").length = 3 by decide]
      omega
    · rw [truncateBody_short b (Nat.le_of_not_lt h)]
      omega
  · by_cases h : 1500 < b.length
    · rw [truncateBody_long b h, Nat.min_eq_left (Nat.le_of_lt h)]
      exact List.prefix_append _ _
    · rw [truncateBody_short b (Nat.le_of_not_lt h), Nat.min_eq_right (Nat.le_of_not_lt h),
        List.take_length]
  · obtain ⟨stored, htrace, hstored⟩ := processMessage_calls env client u amurexLabels
      sc message acc w fullMessage labelIds hget hids
    have hclassify : (sc && !(findAmurexLabel amurexLabels labelIds).isSome) = sc := by
      cases sc with
      | false => rfl
      | true =>
        rw [Bool.true_and] at hreach
        rw [hreach]
        rfl
    simp only [hreach, hclassify, Bool.false_eq_true, if_false] at htrace hstored
    refine ⟨_, htrace, ?_, ?_, ?_⟩
    · intro request hreq
      simp only [List.mem_cons, List.mem_append, reduceCtorEq, false_or] at hreq
      rcases hreq with h | h
      · cases sc with
        | false => simp at h
        | true =>
          simp only [if_true, classifierCalls, List.mem_cons, Call.chatCompletion.injEq] at h
          rcases h with h | h
          · rw [h]; rfl
          · split at h <;> simp at h
      · rcases hstored _ h with h2 | ⟨row, h2, -⟩ <;> simp at h2
    · intro hsc
      subst hsc
      simp [classifierCalls, classifierRequest]
    · intro row hrow
      simp only [List.mem_cons, List.mem_append, reduceCtorEq, false_or] at hrow
      rcases hrow with h | h
      · cases sc with
        | false => simp at h
        | true =>
          simp only [if_true, classifierCalls, List.mem_cons, reduceCtorEq, false_or] at h
          split at h <;> simp at h
      · rcases hstored _ h with h2 | ⟨row2, h2, -, hcontent⟩
        · simp at h2
        · simp only [Call.emailsInsert.injEq] at h2
          rw [h2]
          exact hcontent

/-- Witness for C26: a body of 2000 code units is passed as its first 1500
code units followed by `...`, and the iteration on `sampleMessage` inserts its
whole body. -/
theorem classifier_input_truncated_witness :
    (truncateBody longBody = longBody.take 1500 ++ utf16 "..." ∧
      (truncateBody longBody).length ≤ 1503) ∧
    ∃ extra,
      (processMessage (healthyEnv []) sampleClient "user-1" sampleLabels true ⟨"msg-1"⟩
        { results := [], totalStoredCount := 0 } emptyWorld).2.trace =
          emptyWorld.trace ++ extra ∧
      (∀ row, Call.emailsInsert row ∈ extra → row.content = bodyOf (healthyEnv []) sampleMessage) :=
  match classifier_input_truncated (healthyEnv []) sampleClient "user-1" sampleLabels true
      ⟨"msg-1"⟩ { results := [], totalStoredCount := 0 } emptyWorld sampleMessage
      ["UNREAD", "INBOX"] rfl rfl rfl with
  | ⟨htrunc, extra, htrace, _, _, hrows⟩ =>
    ⟨⟨(htrunc longBody).2.1 (by
      simp only [longBody, List.length_replicate]; omega), (htrunc longBody).2.2.1⟩,
      extra, htrace, hrows⟩


/-! ## Theorems on the creation requests of a reconciliation run -/

/-- The creation requests of the reconciliation loop have the shape
`Visits`. -/
theorem reconcileLabels_visits (env : Env) (client : GmailClient) (std : Bool) (ex : Obj) :
    ∀ (cat : List (String × LabelColor)) (m : Obj) (w : World),
    ∃ extra, (reconcileLabels env client std ex cat m w).2.trace = w.trace ++ extra ∧
      Visits env client std ex w.time cat extra := by
  intro cat
  induction cat with
  | nil => intro m w; exact ⟨[], by simp [reconcileLabels], rfl⟩
  | cons p rest ih =>
    intro m w
    obtain ⟨n, c⟩ := p
    have htime : (w.log (.labelsCreate client (firstRequest std ("Amurex/" ++ n) c))).time =
        w.time + 1 := log_time _ _
    cases hex : ex.getTruthy ("Amurex/" ++ n) with
    | some id =>
      obtain ⟨extra, htrace, hvisits⟩ := ih (m.set n id) w
      refine ⟨extra, ?_, Or.inl ⟨by rw [hex]; rfl, hvisits⟩⟩
      simp only [reconcileLabels, reconcileLabel, hex]
      exact htrace
    | none =>
      cases h1 : env.labelsCreateError w.time client (firstRequest std ("Amurex/" ++ n) c) with
      | none =>
        obtain ⟨extra, htrace, hvisits⟩ := ih (m.set n ("Label_" ++ toString w.nextLabelId))
          { (w.log (.labelsCreate client (firstRequest std ("Amurex/" ++ n) c))) with
            labels := w.labels ++ [⟨"Label_" ++ toString w.nextLabelId,
              (firstRequest std ("Amurex/" ++ n) c).name⟩]
            nextLabelId := w.nextLabelId + 1 }
        refine ⟨.labelsCreate client (firstRequest std ("Amurex/" ++ n) c) :: extra, ?_,
          Or.inr ⟨hex, Or.inr (Or.inl ⟨extra, rfl, ?_⟩)⟩⟩
        · simp only [reconcileLabels, reconcileLabel, hex, labelsCreate, h1]
          rw [htrace]
          simp [World.log]
        · simpa [World.time, World.log] using hvisits
      | some e =>
        by_cases h403 : e.hasStatus 403 = true
        · refine ⟨[.labelsCreate client (firstRequest std ("Amurex/" ++ n) c)], ?_,
            Or.inr ⟨hex, Or.inl ⟨rfl, e, h1, h403⟩⟩⟩
          simp only [reconcileLabels, reconcileLabel, hex, labelsCreate, h1, h403, if_true]
          rfl
        · by_cases h400 : e.hasStatus 400 = true
          · cases h2 : env.labelsCreateError (w.time + 1) client
                (retryRequest ("Amurex/" ++ n)) with
            | none =>
              obtain ⟨extra, htrace, hvisits⟩ := ih
                (m.set n ("Label_" ++ toString w.nextLabelId))
                { ((w.log (.labelsCreate client (firstRequest std ("Amurex/" ++ n) c))).log
                    (.labelsCreate client (retryRequest ("Amurex/" ++ n)))) with
                  labels := w.labels ++ [⟨"Label_" ++ toString w.nextLabelId,
                    (retryRequest ("Amurex/" ++ n)).name⟩]
                  nextLabelId := w.nextLabelId + 1 }
              refine ⟨.labelsCreate client (firstRequest std ("Amurex/" ++ n) c) ::
                .labelsCreate client (retryRequest ("Amurex/" ++ n)) :: extra, ?_,
                Or.inr ⟨hex, Or.inr (Or.inr ⟨e, extra, h1, h400, rfl, ?_⟩)⟩⟩
              · simp only [reconcileLabels, reconcileLabel, hex, labelsCreate, h1, h403, h400,
                  htime, h2, Bool.false_eq_true, if_false, if_true]
                refine htrace.trans ?_
                simp [World.log]
              · simpa [World.time, World.log, Nat.add_assoc] using hvisits
            | some e2 =>
              obtain ⟨extra, htrace, hvisits⟩ := ih m
                ((w.log (.labelsCreate client (firstRequest std ("Amurex/" ++ n) c))).log
                    (.labelsCreate client (retryRequest ("Amurex/" ++ n))))
              refine ⟨.labelsCreate client (firstRequest std ("Amurex/" ++ n) c) ::
                .labelsCreate client (retryRequest ("Amurex/" ++ n)) :: extra, ?_,
                Or.inr ⟨hex, Or.inr (Or.inr ⟨e, extra, h1, h400, rfl, ?_⟩)⟩⟩
              · simp only [reconcileLabels, reconcileLabel, hex, labelsCreate, h1, h403, h400,
                  htime, h2, Bool.false_eq_true, if_false, if_true]
                rw [htrace]
                simp [World.log]
              · simpa [World.time, World.log, Nat.add_assoc] using hvisits
          · obtain ⟨extra, htrace, hvisits⟩ := ih m
              (w.log (.labelsCreate client (firstRequest std ("Amurex/" ++ n) c)))
            refine ⟨.labelsCreate client (firstRequest std ("Amurex/" ++ n) c) :: extra, ?_,
              Or.inr ⟨hex, Or.inr (Or.inl ⟨extra, rfl, ?_⟩)⟩⟩
            · simp only [reconcileLabels, reconcileLabel, hex, labelsCreate, h1, h403, h400,
                Bool.false_eq_true, if_false]
              rw [htrace]
              simp [World.log]
            · simpa [World.time, World.log] using hvisits

/-- A loop of the shape `Visits` issues at most two requests per category. -/
theorem visits_length (env : Env) (client : GmailClient) (std : Bool) (ex : Obj) :
    ∀ (cat : List (String × LabelColor)) (t : Nat) (calls : List Call),
    Visits env client std ex t cat calls → calls.length ≤ 2 * cat.length := by
  intro cat
  induction cat with
  | nil =>
    intro t calls h
    simp only [Visits] at h
    rw [h]; simp
  | cons p rest ih =>
    intro t calls h
    obtain ⟨n, c⟩ := p
    simp only [Visits] at h
    rcases h with ⟨-, h⟩ | ⟨-, ⟨h, -⟩ | ⟨tail, h, hv⟩ | ⟨e, tail, -, -, h, hv⟩⟩
    · have := ih t calls h
      simp only [List.length_cons]; omega
    · rw [h]; simp only [List.length_cons, List.length_nil]; omega
    · have := ih (t + 1) tail hv
      rw [h]; simp only [List.length_cons]; omega
    · have := ih (t + 2) tail hv
      rw [h]; simp only [List.length_cons]; omega

/-- In a loop of the shape `Visits` over distinct categories, the requests
for one category are at most two, and none for a category outside the
loop. -/
theorem visits_count (env : Env) (client : GmailClient) (std : Bool) (ex : Obj)
    (category : String) :
    ∀ (cat : List (String × LabelColor)) (t : Nat) (calls : List Call),
    Visits env client std ex t cat calls → (cat.map Prod.fst).Nodup →
    (calls.filter (Call.createsFor category)).length ≤
      if category ∈ cat.map Prod.fst then 2 else 0 := by
  intro cat
  induction cat with
  | nil =>
    intro t calls h _
    simp only [Visits] at h
    rw [h]; simp
  | cons p rest ih =>
    intro t calls h hnodup
    obtain ⟨n, c⟩ := p
    simp only [List.map_cons, List.nodup_cons] at hnodup
    obtain ⟨hfresh, hnodup⟩ := hnodup
    have hfirst : ∀ std2 c2, Call.createsFor category
        (.labelsCreate client (firstRequest std2 ("Amurex/" ++ n) c2)) = decide (n = category) := by
      intro std2 c2
      simp only [Call.createsFor, firstRequest]
      by_cases hn : n = category
      · simp [hn]
      · simp only [hn, decide_False, decide_eq_false_iff_not]
        exact fun h => hn (namespaced_injective n category h)
    have hretry : Call.createsFor category
        (.labelsCreate client (retryRequest ("Amurex/" ++ n))) = decide (n = category) := by
      simp only [Call.createsFor, retryRequest]
      by_cases hn : n = category
      · simp [hn]
      · simp only [hn, decide_False, decide_eq_false_iff_not]
        exact fun h => hn (namespaced_injective n category h)
    have hrest : ∀ t2 tail, Visits env client std ex t2 rest tail → n = category →
        (tail.filter (Call.createsFor category)).length = 0 := by
      intro t2 tail hv hn
      have := ih t2 tail hv hnodup
      rw [← hn, if_neg hfresh] at this
      rw [← hn]
      omega
    simp only [Visits] at h
    simp only [List.map_cons, List.mem_cons]
    have hmono : (if category ∈ rest.map Prod.fst then 2 else 0) ≤
        (if category = n ∨ category ∈ rest.map Prod.fst then 2 else 0) := by
      by_cases hmem : category ∈ rest.map Prod.fst
      · rw [if_pos hmem, if_pos (Or.inr hmem)]
      · rw [if_neg hmem]
        exact Nat.zero_le _
    rcases h with ⟨-, h⟩ | ⟨-, ⟨h, -⟩ | ⟨tail, h, hv⟩ | ⟨e, tail, -, -, h, hv⟩⟩
    · exact le_trans (ih t calls h hnodup) hmono
    · rw [h]
      by_cases hn : n = category
      · rw [if_pos (Or.inl hn.symm)]
        exact le_trans (List.length_filter_le _ _) (by simp)
      · rw [List.filter_cons, hfirst]
        simp only [hn, decide_False, Bool.false_eq_true, if_false, List.filter_nil,
          List.length_nil]
        exact Nat.zero_le _
    · rw [h]
      by_cases hn : n = category
      · rw [if_pos (Or.inl hn.symm)]
        have h0 := hrest (t + 1) tail hv hn
        rw [List.filter_cons, hfirst]
        simp only [hn, decide_True, if_true, List.length_cons]
        omega
      · rw [List.filter_cons, hfirst]
        simp only [hn, decide_False, Bool.false_eq_true, if_false]
        exact le_trans (ih (t + 1) tail hv hnodup) hmono
    · rw [h]
      by_cases hn : n = category
      · rw [if_pos (Or.inl hn.symm)]
        have h0 := hrest (t + 2) tail hv hn
        rw [List.filter_cons, hfirst, List.filter_cons, hretry]
        simp only [hn, decide_True, if_true, List.length_cons]
        omega
      · rw [List.filter_cons, hfirst, List.filter_cons, hretry]
        simp only [hn, decide_False, Bool.false_eq_true, if_false]
        exact le_trans (ih (t + 2) tail hv hnodup) hmono

/-- C30: the calls of a reconciliation run are the label listing followed by
creation requests only; when the listing succeeds the requests visit the nine
categories in catalog order, with no request for a listed label, and for a
missing label a first attempt, which carries the catalog color exactly when
standard colors were not requested, followed by at most one retry without
color, issued only after a rejection of the first attempt with status 400;
there are at most two requests per category and at most 18 in all. -/
theorem reconcile_creation_requests (env : Env) (client : GmailClient) (std : Bool)
    (w : World) :
    ∃ extra,
      (reconcile env client std w).2.trace = w.trace ++ .labelsList client :: extra ∧
      ((env.labelsListError w.time client).isSome = true → extra = []) ∧
      (env.labelsListError w.time client = none →
        Visits env client std (existingLabelsOf w.labels) (w.time + 1) GMAIL_COLORS extra) ∧
      extra.length ≤ 18 ∧
      (∀ category, (extra.filter (Call.createsFor category)).length ≤ 2) ∧
      (∀ name colors, (firstRequest std name colors).color =
        if std = true then none else some colors) ∧
      (∀ name, (retryRequest name).color = none) := by
  cases hlist : env.labelsListError w.time client with
  | some e =>
    refine ⟨[], by simp [reconcile, hlist, World.log], fun _ => rfl, fun h => by simp at h,
      by simp, fun _ => by simp, fun _ _ => rfl, fun _ => rfl⟩
  | none =>
    obtain ⟨extra, htrace, hvisits⟩ := reconcileLabels_visits env client std
      (existingLabelsOf w.labels) GMAIL_COLORS [] (w.log (.labelsList client))
    rw [log_time] at hvisits
    refine ⟨extra, ?_, fun h => by simp at h, fun _ => hvisits, ?_, ?_, fun _ _ => rfl,
      fun _ => rfl⟩
    · rw [reconcile_listed env client std w hlist]
      simp only
      rw [htrace]
      simp [World.log]
    · have := visits_length env client std (existingLabelsOf w.labels) GMAIL_COLORS _ extra
        hvisits
      simpa [GMAIL_COLORS] using this
    · intro category
      have := visits_count env client std (existingLabelsOf w.labels) category GMAIL_COLORS _
        extra hvisits catalog_nodup
      split at this <;> omega

/-- Witness for C30: in a mailbox without labels where the colored request for
`Amurex/promotions` is rejected with status 400, the run issues ten creation
requests, two of them for `promotions`. -/
theorem reconcile_creation_requests_witness :
    ∃ extra,
      (reconcile (promotionsColorEnv []) sampleClient false emptyWorld).2.trace =
        emptyWorld.trace ++ .labelsList sampleClient :: extra ∧
      Visits (promotionsColorEnv []) sampleClient false (existingLabelsOf emptyWorld.labels)
        (emptyWorld.time + 1) GMAIL_COLORS extra ∧
      extra.length ≤ 18 ∧
      (extra.filter (Call.createsFor "promotions")).length ≤ 2 :=
  match reconcile_creation_requests (promotionsColorEnv []) sampleClient false emptyWorld with
  | ⟨extra, htrace, _, hvisits, hlen, hcount, _, _⟩ =>
    ⟨extra, htrace, hvisits rfl, hlen, hcount "promotions"⟩


/-! ## Theorems on label ids that name inherited members -/

/-- At a key that names no member of `Object.prototype` the read of a plain
object is truthy exactly when the own property is. -/
theorem readTruthy_isSome_of_own (o : Obj) (k : String) (h : k ∉ objectPrototypeKeys) :
    (o.readTruthy k).isSome = (o.getTruthy k).isSome := by
  have hproto : k ≠ "__proto__" := by
    intro hk
    rw [hk] at h
    exact h (by decide)
  simp only [Obj.readTruthy, Obj.getTruthy, hproto, if_false, h]
  cases o.get k with
  | none => rfl
  | some v =>
    by_cases hv : v = ""
    · simp [hv, Option.filter]
    · simp [hv, Option.filter]

/-- C25, evaluation at the failing input: the one listed message has the label
ids `UNREAD` and `constructor`, none of which is the id of a reconciled label;
the classifier answers `comment` for it and the reconciled mapping holds
`Label_2` for `comment`; yet the read `labelIdToName["constructor"]` is truthy,
and the run issues no classifier call and no label application, records the
message as `already_labeled` and stores it with an empty content. -/
theorem POST_prototype_label_id :
    (reconcile (prototypeLabelEnv [⟨"msg-1"⟩]) sampleClient false
      (blockStart { userId := some "user-1" } emptyWorld "user-1")).1.toOption =
        some (some sampleLabels) ∧
    (∀ entry ∈ sampleLabels, entry.2 ∉ ["UNREAD", "constructor"]) ∧
    (∀ t, categoryOf (prototypeLabelEnv [⟨"msg-1"⟩]) t prototypeLabelMessage = "comment") ∧
    sampleLabels.getTruthy "comment" = some "Label_2" ∧
    findAmurexLabel sampleLabels ["UNREAD", "constructor"] = some (.inherited "constructor") ∧
    (POST (prototypeLabelEnv [⟨"msg-1"⟩]) { userId := some "user-1" }
      emptyWorld).2.trace.filter Call.classifiesOrLabels = [] ∧
    (POST (prototypeLabelEnv [⟨"msg-1"⟩]) { userId := some "user-1" } emptyWorld).1.results =
      some [⟨"msg-1", utf16 "Greetings", "already_labeled", true⟩] ∧
    (POST (prototypeLabelEnv [⟨"msg-1"⟩]) { userId := some "user-1" } emptyWorld).2.emails.map
      (fun row => (row.message_id, row.content)) = [("msg-1", [])] := by
  refine ⟨rfl, by decide, fun _ => rfl, rfl, rfl, rfl, rfl, rfl⟩

end Amurex
